import Mathlib

/-!
# pocket-home: configuration files, listeners and shared resources

A shallow embedding of `Source/Config Files/ConfigFile.cpp`,
`Source/Util/SharedResource/SharedResource.cpp` and the registration of `Configurable`
objects in `Source/Configuration/ConfigFile.cpp`.

Conventions of the embedding:

* member data that the C++ code mutates is threaded explicitly through each
  function as a state value;
* `std::map<juce::String, T>` is a function `String → Option T` (`none` for a key
  without an entry); maps that the code reads only through `operator[]` and whose
  mapped type is a JUCE array are functions into `List`, the absent entry being the
  empty array that `operator[]` would create;
* listeners, handlers and shared resource objects are identified by natural numbers
  (their addresses);
* locks (`ScopedLock`, `ScopedUnlock`, `MessageManagerLock`) have no effect on a
  single thread of execution and are left out.
-/

namespace PocketHome

/-! ## juce::var -/

/-- The payload of a `juce::var` holding a `double`: an IEEE-754 binary64 number,
identified by its bit pattern. No arithmetic on it is modelled. -/
structure Double where
  bits : Nat
deriving DecidableEq, Repr

/-- The variant type `juce::var`, as produced by the JUCE JSON reader and the `var`
constructors. An object is its `NamedValueSet`: the properties in insertion order. -/
inductive Var where
  | void
  | undefined
  | int (n : Int)
  | int64 (n : Int)
  | bool (b : Bool)
  | double (d : Double)
  | string (s : String)
  | object (props : List (String × Var))
  | array (items : List Var)

/-- The conversions of `juce::var` to a C++ type for a value of another type, where
the result comes from number parsing and printing, floating point conversion or an
object address inside the JUCE library. They are parameters of the embedding. -/
structure VarLib where
  toInt : Var → Int
  toBool : Var → Bool
  toDouble : Var → Double
  toStr : Var → String

namespace Var

/-- The method `var::isVoid`. -/
def isVoid : Var → Bool
  | void => true
  | _ => false

/-- The method `NamedValueSet::getWithDefault`: the first property of that name. -/
def getWithDefault : List (String × Var) → String → Var → Var
  | [], _, dflt => dflt
  | (n, v) :: rest, name, dflt => if n = name then v else getWithDefault rest name dflt

/-- The method `var::getProperty (name, defaultReturnValue)`: the property of a
`DynamicObject`, the default for a missing property and for every other `var`. -/
def getProperty (v : Var) (name : String) (dflt : Var) : Var :=
  match v with
  | object props => getWithDefault props name dflt
  | _ => dflt

/-- The operator `var::operator int`. -/
def toInt (J : VarLib) : Var → Int
  | void => 0
  | int n => n
  | bool b => if b then 1 else 0
  | v => J.toInt v

/-- The operator `var::operator bool`. -/
def toBool (J : VarLib) : Var → Bool
  | void => false
  | bool b => b
  | int n => n != 0
  | v => J.toBool v

/-- The operator `var::operator double`. -/
def toDouble (J : VarLib) : Var → Double
  | double d => d
  | v => J.toDouble v

/-- The method `var::toString`. -/
def toString (J : VarLib) : Var → String
  | void => ""
  | string s => s
  | v => J.toStr v

end Var

/-- The method `NamedValueSet::set`, as used by `DynamicObject::setProperty`: an
existing property of that name gets the new value in place, a new one is appended. -/
def setProperty : List (String × Var) → String → Var → List (String × Var)
  | [], name, v => [(name, v)]
  | (n, w) :: rest, name, v =>
    if n = name then (n, v) :: rest else (n, w) :: setProperty rest name v

/-! ## ConfigFile: the typed value maps and file input/output -/

/-- The enumeration `ConfigFile::SupportedDataType`. -/
inductive SupportedDataType where
  | stringType
  | intType
  | boolType
  | doubleType
deriving DecidableEq, Repr

/-- The structure `ConfigFile::DataKey`: a key string and the type of its value. -/
structure DataKey where
  keyString : String
  dataType : SupportedDataType
deriving DecidableEq, Repr

/-- The data members of `ConfigFile` used for file input and output: one map per
value type and the flag `fileChangesPending`. -/
structure ConfigFile where
  intValues : String → Option Int
  stringValues : String → Option String
  boolValues : String → Option Bool
  doubleValues : String → Option Double
  fileChangesPending : Bool

/-- Assignment `m[key] = value` on a `std::map`. -/
def mapAssign {β : Type} (m : String → Option β) (key : String) (value : β) :
    String → Option β :=
  fun k => if k = key then some value else m k

/-- The state that `readDataFromJson` works on: the `ConfigFile` itself, the
`defaultConfig` argument (passed by reference and filled in on the first miss) and
the number of calls made to `AssetFiles::loadJSONAsset`. -/
structure ReadState where
  file : ConfigFile
  defaultConfig : Var
  assetLoads : Nat

namespace ConfigFile

/-- Modelled from the spec: `initMapProperty<T>` is declared in `ConfigFile.h`, which
is not among the sources. `initFromJSON` "for every DataKey in the file's schema,
read[s] the value": the value read for a key becomes the key's entry in the map of
type `int`. -/
def initMapPropertyInt (f : ConfigFile) (key : String) (value : Int) : ConfigFile :=
  { f with intValues := mapAssign f.intValues key value }

/-- Modelled from the spec: `initMapProperty<T>` (see `initMapPropertyInt`), for the
map of type `String`. -/
def initMapPropertyString (f : ConfigFile) (key : String) (value : String) : ConfigFile :=
  { f with stringValues := mapAssign f.stringValues key value }

/-- Modelled from the spec: `initMapProperty<T>` (see `initMapPropertyInt`), for the
map of type `bool`. -/
def initMapPropertyBool (f : ConfigFile) (key : String) (value : Bool) : ConfigFile :=
  { f with boolValues := mapAssign f.boolValues key value }

/-- Modelled from the spec: `initMapProperty<T>` (see `initMapPropertyInt`), for the
map of type `double`. -/
def initMapPropertyDouble (f : ConfigFile) (key : String) (value : Double) : ConfigFile :=
  { f with doubleValues := mapAssign f.doubleValues key value }

/-- The method `ConfigFile::propertyExists`. -/
def propertyExists (config : Var) (propertyKey : String) : Bool :=
  !(config.getProperty propertyKey Var.void).isVoid

/-- The method `ConfigFile::getProperty`. `asset` is what
`AssetFiles::loadJSONAsset ("configuration/" + filename, false)` returns. -/
def getProperty (asset : Var) (config : Var) (key : String) (s : ReadState) :
    Var × ReadState :=
  if propertyExists config key then
    (config.getProperty key Var.void, s)
  else
    let s1 : ReadState :=
      if s.defaultConfig.isVoid then
        { s with defaultConfig := asset, assetLoads := s.assetLoads + 1 }
      else s
    let s2 : ReadState := { s1 with file := { s1.file with fileChangesPending := true } }
    (s2.defaultConfig.getProperty key Var.void, s2)

/-- One iteration of the loop of `ConfigFile::readDataFromJson`. -/
def readDataKey (J : VarLib) (asset config : Var) (s : ReadState) (key : DataKey) :
    ReadState :=
  let r := getProperty asset config key.keyString s
  match key.dataType with
  | .stringType =>
    { r.2 with file := initMapPropertyString r.2.file key.keyString (r.1.toString J) }
  | .intType =>
    { r.2 with file := initMapPropertyInt r.2.file key.keyString (r.1.toInt J) }
  | .boolType =>
    { r.2 with file := initMapPropertyBool r.2.file key.keyString (r.1.toBool J) }
  | .doubleType =>
    { r.2 with file := initMapPropertyDouble r.2.file key.keyString (r.1.toDouble J) }

/-- The method `ConfigFile::readDataFromJson`. `dataKeys` is what the virtual method
`getDataKeys` returns. -/
def readDataFromJson (J : VarLib) (asset : Var) (dataKeys : List DataKey) (config : Var)
    (s : ReadState) : ReadState :=
  dataKeys.foldl (readDataKey J asset config) s

/-- Access `m[key]` on a `std::map`: the mapped value, and the map itself, in which
a missing key has been given the value-initialised entry `dflt`. -/
def mapIndex {β : Type} (dflt : β) (m : String → Option β) (key : String) :
    β × (String → Option β) :=
  match m key with
  | some v => (v, m)
  | none => (dflt, mapAssign m key dflt)

/-- One iteration of the loop of `ConfigFile::copyDataToJson`, on the `ConfigFile` and
the properties of `jsonObj`. -/
def copyDataKey (s : ConfigFile × List (String × Var)) (key : DataKey) :
    ConfigFile × List (String × Var) :=
  match key.dataType with
  | .stringType =>
    let r := mapIndex "" s.1.stringValues key.keyString
    ({ s.1 with stringValues := r.2 }, setProperty s.2 key.keyString (Var.string r.1))
  | .intType =>
    let r := mapIndex (0 : Int) s.1.intValues key.keyString
    ({ s.1 with intValues := r.2 }, setProperty s.2 key.keyString (Var.int r.1))
  | .boolType =>
    let r := mapIndex false s.1.boolValues key.keyString
    ({ s.1 with boolValues := r.2 }, setProperty s.2 key.keyString (Var.bool r.1))
  | .doubleType =>
    let r := mapIndex (Double.mk 0) s.1.doubleValues key.keyString
    ({ s.1 with doubleValues := r.2 }, setProperty s.2 key.keyString (Var.double r.1))

/-- The method `ConfigFile::copyDataToJson`, on the `ConfigFile` and the properties of
`jsonObj`. -/
def copyDataToJson (dataKeys : List DataKey) (f : ConfigFile)
    (jsonObj : List (String × Var)) : ConfigFile × List (String × Var) :=
  dataKeys.foldl copyDataKey (f, jsonObj)

end ConfigFile

/-- A call made on the `juce::File` of a `ConfigFile`. `replaceWithText` carries the
object whose `JSON::toString` text is written. -/
inductive FileOp where
  | create
  | replaceWithText (json : List (String × Var))

/-- What the file system answers during `writeChanges`: the results of `File::exists`
and of `File::replaceWithText`. -/
structure FileAnswers where
  fileExists : Bool
  replaceOk : Bool

/-- The outcome of `writeChanges`: the `ConfigFile` afterwards, the calls made on the
file in order, and whether the `AlertWindow` message box was shown. -/
structure WriteOutcome where
  file : ConfigFile
  fileOps : List FileOp
  alertShown : Bool

namespace ConfigFile

/-- The method `ConfigFile::writeChanges`. -/
def writeChanges (dataKeys : List DataKey) (fs : FileAnswers) (f : ConfigFile) :
    WriteOutcome :=
  if !f.fileChangesPending then
    { file := f, fileOps := [], alertShown := false }
  else
    let r := copyDataToJson dataKeys f []
    let created : List FileOp := if !fs.fileExists then [FileOp.create] else []
    let ops := created ++ [FileOp.replaceWithText r.2]
    if !fs.replaceOk then
      { file := r.1, fileOps := ops, alertShown := true }
    else
      { file := { r.1 with fileChangesPending := false }, fileOps := ops,
        alertShown := false }

end ConfigFile

/-! ## juce::Array and the listener registry -/

/-- The method `juce::Array::addIfNotAlreadyThere`, also `StringArray`'s with
`ignoreCase` false. -/
def addIfNotAlreadyThere {α : Type} [DecidableEq α] (xs : List α) (x : α) : List α :=
  if x ∈ xs then xs else xs ++ [x]

/-- The method `juce::Array::removeAllInstancesOf`. -/
def removeAllInstancesOf {α : Type} [DecidableEq α] (xs : List α) (x : α) : List α :=
  xs.filter (fun y => decide (y ≠ x))

/-- The method `juce::StringArray::mergeArray` with `ignoreCase` false. -/
def mergeArray (xs other : List String) : List String :=
  other.foldl addIfNotAlreadyThere xs

/-- Lookup in a `std::map` with address keys, kept as a list of entries. -/
def stdMapFind {β : Type} : List (Nat × β) → Nat → Option β
  | [], _ => none
  | (k, v) :: rest, key => if k = key then some v else stdMapFind rest key

/-- Assignment `m[key] = value` on a `std::map` with address keys; entries are kept in
key order, so that the head of the list is `begin()`. -/
def stdMapAssign {β : Type} : List (Nat × β) → Nat → β → List (Nat × β)
  | [], key, value => [(key, value)]
  | (k, v) :: rest, key, value =>
    if key < k then (key, value) :: (k, v) :: rest
    else if k = key then (key, value) :: rest
    else (k, v) :: stdMapAssign rest key value

/-- The method `std::map::erase (key)`. -/
def stdMapErase {β : Type} (m : List (Nat × β)) (key : Nat) : List (Nat × β) :=
  m.filter (fun e => decide (e.1 ≠ key))

/-- Replace the value of a function at one argument. -/
def setAt {α β : Type} [DecidableEq α] (f : α → β) (a : α) (b : β) : α → β :=
  fun x => if x = a then b else f x

/-- Replace the value of a two-argument function at one pair of arguments: the
assignment `m[key] = b` on the map member `m` of the object at address `c`. -/
def setAt2 {β : Type} (f : Nat → String → β) (c : Nat) (key : String) (b : β) :
    Nat → String → β :=
  setAt f c (setAt (f c) key b)

/-- The listener data of all `ConfigFile` and `ConfigFile::Listener` objects.
`keyListeners c key` and `notificationQueue c key` are the members of the
`ConfigFile` at address `c`; `configKeyMap l` is the member of the listener at address
`l`, from `ConfigFile` addresses to tracked keys; `notified` logs the calls of
`configValueChanged` as (listener, key), oldest first. -/
structure ListenerWorld where
  keyListeners : Nat → String → List Nat
  notificationQueue : Nat → String → List Nat
  configKeyMap : Nat → List (Nat × List String)
  notified : List (Nat × String)

/-- What an overriding `configValueChanged (key)` of the listener at an address does
to the listener data. -/
abbrev Callback := Nat → String → ListenerWorld → ListenerWorld

namespace ListenerWorld

/-- No listener was ever added and nothing was notified. -/
def initial : ListenerWorld :=
  { keyListeners := fun _ _ => [], notificationQueue := fun _ _ => [],
    configKeyMap := fun _ => [], notified := [] }

/-- The keys that listener `l` records for the `ConfigFile` `c`:
`configKeyMap[c]` of `l`, empty without an entry. -/
def trackedKeys (w : ListenerWorld) (l c : Nat) : List String :=
  (stdMapFind (w.configKeyMap l) c).getD []

/-- The method `ConfigFile::addListener` of the `ConfigFile` at address `c`. -/
def addListener (c l : Nat) (tracked : List String) (w : ListenerWorld) : ListenerWorld :=
  let merged := mergeArray (w.trackedKeys l c) tracked
  let w1 : ListenerWorld :=
    { w with configKeyMap := setAt w.configKeyMap l (stdMapAssign (w.configKeyMap l) c merged) }
  tracked.foldl
    (fun (v : ListenerWorld) key =>
      { v with
        keyListeners :=
          setAt2 v.keyListeners c key (addIfNotAlreadyThere (v.keyListeners c key) l) })
    w1

/-- The method `ConfigFile::removeListener` of the `ConfigFile` at address `c`. -/
def removeListener (c l : Nat) (w : ListenerWorld) : ListenerWorld :=
  let tracked := w.trackedKeys l c
  let w1 : ListenerWorld :=
    { w with configKeyMap := setAt w.configKeyMap l (stdMapErase (w.configKeyMap l) c) }
  tracked.foldl
    (fun (v : ListenerWorld) key =>
      { v with
        keyListeners :=
          setAt2 v.keyListeners c key (removeAllInstancesOf (v.keyListeners c key) l)
        notificationQueue :=
          setAt2 v.notificationQueue c key
            (removeAllInstancesOf (v.notificationQueue c key) l) })
    w1

/-- The `while` loop of `ConfigFile::notifyListeners`: the last listener of the queue
is taken off and its `configValueChanged (key)` runs. `none` when `fuel` iterations
do not empty the queue. -/
def notifyLoop (cb : Callback) (c : Nat) (key : String) :
    Nat → ListenerWorld → Option ListenerWorld
  | fuel, w =>
    match w.notificationQueue c key with
    | [] => some w
    | x :: xs =>
      match fuel with
      | 0 => none
      | fuel + 1 =>
        let toNotify := (x :: xs).getLast (List.cons_ne_nil x xs)
        let w1 : ListenerWorld :=
          { w with
            notificationQueue := setAt2 w.notificationQueue c key (x :: xs).dropLast }
        let w2 : ListenerWorld := { w1 with notified := w1.notified ++ [(toNotify, key)] }
        notifyLoop cb c key fuel (cb toNotify key w2)

/-- The method `ConfigFile::notifyListeners` of the `ConfigFile` at address `c`. -/
def notifyListeners (cb : Callback) (c : Nat) (key : String) (fuel : Nat)
    (w : ListenerWorld) : Option ListenerWorld :=
  let w1 : ListenerWorld :=
    { w with
      notificationQueue :=
        setAt2 w.notificationQueue c key (w.notificationQueue c key ++ w.keyListeners c key) }
  notifyLoop cb c key fuel w1

end ListenerWorld

/-- A call of `addListener` or `removeListener` on the `ConfigFile` at address `c`. -/
inductive ListenerCall where
  | add (c l : Nat) (tracked : List String)
  | remove (c l : Nat)
deriving DecidableEq, Repr

/-- The effect of one call. -/
def ListenerCall.run (w : ListenerWorld) : ListenerCall → ListenerWorld
  | .add c l tracked => w.addListener c l tracked
  | .remove c l => w.removeListener c l

/-- The listener data reached from the initial one by a sequence of calls. -/
def listenerWorldAfter (calls : List ListenerCall) : ListenerWorld :=
  calls.foldl ListenerCall.run ListenerWorld.initial

/-- The destructor `ConfigFile::Listener::~Listener` of the listener at address
`this`: while `configKeyMap` has an entry, the listener is removed from the
`ConfigFile` of its first entry. `none` when `fuel` iterations do not empty the map. -/
def ListenerWorld.listenerDestructor (this : Nat) : Nat → ListenerWorld → Option ListenerWorld
  | fuel, w =>
    match w.configKeyMap this with
    | [] => some w
    | entry :: _ =>
      match fuel with
      | 0 => none
      | fuel + 1 => listenerDestructor this fuel (w.removeListener entry.1 this)

/-- The method `ConfigFile::Listener::loadAllConfigProperties` of the listener at
address `this`. The two loops run over `configKeyMap` as it is when the method is
called, which is the map itself as long as no callback changes it. -/
def ListenerWorld.loadAllConfigProperties (cb : Callback) (this : Nat) (w : ListenerWorld) :
    ListenerWorld :=
  (w.configKeyMap this).foldl
    (fun (v : ListenerWorld) entry =>
      entry.2.foldl
        (fun (u : ListenerWorld) key =>
          cb this key { u with notified := u.notified ++ [(this, key)] })
        v)
    w

/-! ## The Configurable-based ConfigFile (`Source/Configuration/ConfigFile.cpp`) -/

/-- The static member `configured` of the Configurable-based `ConfigFile`, from file
name and key to the array of `Configurable` addresses, and the log of the calls of
`loadConfigProperties` as (configurable, key), oldest first. -/
structure ConfigurableWorld where
  configured : String → String → List Nat
  loaded : List (Nat × String)

namespace ConfigurableWorld

/-- Program start: nothing is registered. -/
def initial : ConfigurableWorld :=
  { configured := fun _ _ => [], loaded := [] }

/-- The method `ConfigFile::registerConfigurable` of a `ConfigFile` with the given
file name. -/
def registerConfigurable (filename : String) (configurable : Nat) (keys : List String)
    (w : ConfigurableWorld) : ConfigurableWorld :=
  keys.foldl
    (fun (v : ConfigurableWorld) key =>
      { v with
        configured :=
          setAt v.configured filename
            (setAt (v.configured filename) key (v.configured filename key ++ [configurable])) })
    w

/-- The method `ConfigFile::unregisterConfigurable` of a `ConfigFile` with the given
file name. -/
def unregisterConfigurable (filename : String) (configurable : Nat) (keys : List String)
    (w : ConfigurableWorld) : ConfigurableWorld :=
  keys.foldl
    (fun (v : ConfigurableWorld) key =>
      { v with
        configured :=
          setAt v.configured filename
            (setAt (v.configured filename) key
              (removeAllInstancesOf (v.configured filename key) configurable)) })
    w

/-- The method `ConfigFile::notifyConfigurables` of a `ConfigFile` with the given file
name; `cb` is what `loadConfigProperties` of a `Configurable` does. The loop runs over
the array as it is when the method is called. -/
def notifyConfigurables (cb : Nat → String → ConfigurableWorld → ConfigurableWorld)
    (filename key : String) (w : ConfigurableWorld) : ConfigurableWorld :=
  (w.configured filename key).foldl
    (fun (v : ConfigurableWorld) tracking =>
      cb tracking key { v with loaded := v.loaded ++ [(tracking, key)] })
    w

end ConfigurableWorld

/-! ## ConfigFile: destruction and typed access -/

/-- The destructor `ConfigFile::~ConfigFile`: it runs `writeChanges`. While the
destructor of the base class runs, the object is a `ConfigFile` and no longer an
object of the class derived from it, so the virtual call `getDataKeys ()` inside
`copyDataToJson` runs `ConfigFile::getDataKeys` and not the override that lists
the keys of the file. `ownDataKeys` is what `ConfigFile::getDataKeys` itself returns
(`ConfigFile.h` is not among the sources): `none` when the method is pure virtual,
where the call is undefined and the destructor has no result. Without pending
changes `writeChanges` returns before `getDataKeys` is called. -/
def ConfigFile.destructor (ownDataKeys : Option (List DataKey)) (fs : FileAnswers)
    (f : ConfigFile) : Option WriteOutcome :=
  if !f.fileChangesPending then
    some { file := f, fileOps := [], alertShown := false }
  else
    ownDataKeys.map (fun dataKeys => ConfigFile.writeChanges dataKeys fs f)

/-- A value of one of the four C++ types that `getMapReference<T>` is specialised
for. -/
inductive ConfigValue where
  | string (s : String)
  | int (n : Int)
  | bool (b : Bool)
  | double (d : Double)
deriving DecidableEq, Repr

/-- The `SupportedDataType` of the C++ type of a value. -/
def ConfigValue.dataType : ConfigValue → SupportedDataType
  | .string _ => .stringType
  | .int _ => .intType
  | .bool _ => .boolType
  | .double _ => .doubleType

namespace ConfigFile

/-- The entry of a key in the map `getMapReference<T> ()`, for the C++ type `T` of
the given data type. -/
def mapEntry (f : ConfigFile) (t : SupportedDataType) (key : String) : Option ConfigValue :=
  match t with
  | .stringType => (f.stringValues key).map ConfigValue.string
  | .intType => (f.intValues key).map ConfigValue.int
  | .boolType => (f.boolValues key).map ConfigValue.bool
  | .doubleType => (f.doubleValues key).map ConfigValue.double

/-- The assignment `getMapReference<T> ()[key] = value`, for the C++ type `T` of the
value. -/
def mapStore (f : ConfigFile) (key : String) : ConfigValue → ConfigFile
  | .string s => { f with stringValues := mapAssign f.stringValues key s }
  | .int n => { f with intValues := mapAssign f.intValues key n }
  | .bool b => { f with boolValues := mapAssign f.boolValues key b }
  | .double d => { f with doubleValues := mapAssign f.doubleValues key d }

end ConfigFile

/-- The errors of typed access named by the specification. -/
inductive ConfigError where
  | unknownKey
  | typeMismatch
deriving DecidableEq, Repr

namespace ConfigFile

/-- Modelled from the spec: `getConfigValue<T>` is declared in `ConfigFile.h`, which is
not among the sources. `get<T>(key)` "fails with `TypeMismatch` if `T` does not match
the key's declared type; fails with `UnknownKey` if the key was never initialized
(... all keys must be declared in the file's DataKey table)"; otherwise it is the
entry of the key in the map of type `T`. -/
def getConfigValue (dataKeys : List DataKey) (f : ConfigFile) (key : String)
    (t : SupportedDataType) : Except ConfigError ConfigValue :=
  match dataKeys.find? (fun d => decide (d.keyString = key)) with
  | none => .error .unknownKey
  | some d =>
    if d.dataType ≠ t then .error .typeMismatch
    else
      match f.mapEntry t key with
      | none => .error .unknownKey
      | some v => .ok v

/-- Modelled from the spec: `setConfigValue<T>` is declared in `ConfigFile.h`, which is
not among the sources. `set<T>(key, value)` "stores value, marks store dirty. No-op
(does not mark dirty) if the new value equals the current value"; the facade
"additionally triggers `ListenerRegistry.notify(key)` after the store update". The
result is the store and whether listeners are to be notified of the key. -/
def setConfigValue (f : ConfigFile) (key : String) (value : ConfigValue) : ConfigFile × Bool :=
  if f.mapEntry value.dataType key = some value then (f, false)
  else ({ f.mapStore key value with fileChangesPending := true }, true)

end ConfigFile

/-! ## SharedResource and its Handler objects -/

/-- The static `resourceMap` of `SharedResource.cpp` and the `SharedResource` objects
on the heap. `resourceMap key` is the address held by the `ScopedPointer` of that key
(`none` for `nullptr`), `resourceHandlers r` the member of the resource at address
`r`, `allocated` the resource objects that exist, each with its `resourceKey`,
`nextAddress` the address of the next object created, and `created` the log of the
calls of a `createResource` function, by key, oldest first. -/
structure ResourceWorld where
  resourceMap : String → Option Nat
  resourceHandlers : Nat → List Nat
  allocated : List (Nat × String)
  nextAddress : Nat
  created : List String

namespace ResourceWorld

/-- Program start: the map is empty and no resource object exists. -/
def initial : ResourceWorld :=
  { resourceMap := fun _ => none, resourceHandlers := fun _ => [], allocated := [],
    nextAddress := 0, created := [] }

/-- The method `ResourceManager::getClassResource`: `resourceMap[resourceKey].get()`. -/
def getClassResource (w : ResourceWorld) (resourceKey : String) : Option Nat :=
  w.resourceMap resourceKey

/-- The assignment `resourceMap[resourceKey] = newObject` of a raw pointer to the
`juce::ScopedPointer`: a different object held before is deleted. -/
def scopedPointerAssign (w : ResourceWorld) (resourceKey : String)
    (newObject : Option Nat) : ResourceWorld :=
  match w.resourceMap resourceKey with
  | none => { w with resourceMap := setAt w.resourceMap resourceKey newObject }
  | some old =>
    if some old = newObject then w
    else
      { w with
        resourceMap := setAt w.resourceMap resourceKey newObject
        allocated := w.allocated.filter (fun o => decide (o.1 ≠ old)) }

/-- The constructor `SharedResource::SharedResource (resourceKey)`, run for a new
object: the object gets the next address, an empty handler list, and registers
itself in `resourceMap`. The result is the address and the new state. -/
def construct (w : ResourceWorld) (resourceKey : String) : Nat × ResourceWorld :=
  let this := w.nextAddress
  let w1 : ResourceWorld :=
    { w with
      allocated := w.allocated ++ [(this, resourceKey)]
      resourceHandlers := setAt w.resourceHandlers this []
      nextAddress := this + 1 }
  (this, scopedPointerAssign w1 resourceKey (some this))

/-- A call of the `createResource` function given to a Handler constructor: the call
is logged and the function constructs the `SharedResource` subclass object of the
Handler's class, whose base constructor gets the class's `resourceKey`. -/
def createResource (w : ResourceWorld) (resourceKey : String) : Nat × ResourceWorld :=
  construct { w with created := w.created ++ [resourceKey] } resourceKey

/-- The constructor `SharedResource::Handler::Handler (resourceKey, createResource)`
of the Handler at address `this`. -/
def handlerConstruct (w : ResourceWorld) (this : Nat) (resourceKey : String) :
    ResourceWorld :=
  let r : Nat × ResourceWorld :=
    match w.getClassResource resourceKey with
    | some classResource => (classResource, w)
    | none => createResource w resourceKey
  { r.2 with
    resourceHandlers :=
      setAt r.2.resourceHandlers r.1 (addIfNotAlreadyThere (r.2.resourceHandlers r.1) this) }

/-- The destructor `SharedResource::Handler::~Handler` of the Handler at address
`this`. `none` stands for the null pointer dereference that happens when no resource
is registered under the Handler's key. -/
def handlerDestroy (w : ResourceWorld) (this : Nat) (resourceKey : String) :
    Option ResourceWorld :=
  match w.getClassResource resourceKey with
  | none => none
  | some classResource =>
    let hs := removeAllInstancesOf (w.resourceHandlers classResource) this
    let w1 : ResourceWorld :=
      { w with resourceHandlers := setAt w.resourceHandlers classResource hs }
    if hs.isEmpty then some (scopedPointerAssign w1 resourceKey none) else some w1

end ResourceWorld

/-- The construction or the destruction of the Handler at an address, for a Handler
class with the given resource key. -/
inductive HandlerEvent where
  | construct (handler : Nat) (resourceKey : String)
  | destroy (handler : Nat) (resourceKey : String)
deriving DecidableEq, Repr

/-- The effect of one event on the Handler objects that exist, each with its key. -/
def HandlerEvent.alive (hs : List (Nat × String)) : HandlerEvent → List (Nat × String)
  | .construct h key => hs ++ [(h, key)]
  | .destroy h _ => hs.filter (fun e => decide (e.1 ≠ h))

/-- An event is possible when the objects that exist are `hs`: an object is
constructed at an address not in use, and the object destroyed exists, with that
key. -/
def HandlerEvent.possible (hs : List (Nat × String)) : HandlerEvent → Bool
  | .construct h _ => decide (h ∉ hs.map Prod.fst)
  | .destroy h key => decide ((h, key) ∈ hs)

/-- The Handler objects that exist after a sequence of events, starting from `hs`. -/
def handlersAfter (hs : List (Nat × String)) (events : List HandlerEvent) :
    List (Nat × String) :=
  events.foldl HandlerEvent.alive hs

/-- Every event of the sequence is possible at its turn. -/
def possibleEvents : List (Nat × String) → List HandlerEvent → Bool
  | _, [] => true
  | hs, e :: rest => e.possible hs && possibleEvents (e.alive hs) rest

/-- The effect of one event on the resources. -/
def HandlerEvent.run (w : ResourceWorld) : HandlerEvent → Option ResourceWorld
  | .construct h key => some (w.handlerConstruct h key)
  | .destroy h key => w.handlerDestroy h key

/-- The resources after a sequence of events. -/
def runHandlerEvents : ResourceWorld → List HandlerEvent → Option ResourceWorld
  | w, [] => some w
  | w, e :: rest =>
    match e.run w with
    | none => none
    | some w1 => runHandlerEvents w1 rest

/-! ## ConfigFile: setting a value and notifying -/

/-- The method `ConfigFile::markPendingChanges`. -/
def ConfigFile.markPendingChanges (f : ConfigFile) : ConfigFile :=
  { f with fileChangesPending := true }

/-- Modelled from the spec: the `setValue<T>` of the facade, which `ConfigFile.h` (not
among the sources) declares as part of `setConfigValue<T>`: a thin forwarder to the
store, "wrapped so that `setValue` additionally triggers `ListenerRegistry.notify(key)`
after the store update completes"; a set that is a no-op notifies nobody. The
notification is `notifyListeners` of the `ConfigFile` at address `c`. -/
def ConfigFile.setValue (cb : Callback) (c : Nat) (fuel : Nat) (key : String)
    (value : ConfigValue) (s : ConfigFile × ListenerWorld) :
    Option (ConfigFile × ListenerWorld) :=
  let r := s.1.setConfigValue key value
  if r.2 then (s.2.notifyListeners cb c key fuel).map (fun w => (r.1, w))
  else some (r.1, s.2)

/-! ## Utils: `median` -/

/-- The function template `median` of `Utils.h`, for a type whose `<` and `>` are
those of a total order. -/
def median {T : Type} [LinearOrder T] (a b c : T) : T :=
  if a > b then
    if b > c then b
    else if a < c then a
    else c
  else if a > c then a
  else if b < c then b
  else c

/-! ## AppMenuComponent: the open folders -/

/-- What the methods `getButtonCount` and `getSelectedIndex` of an open `AppFolder`
return. -/
structure AppFolder where
  buttonCount : Int
  selectedIndex : Int
deriving DecidableEq, Repr

/-- The members `openFolders` and `activeFolderIndex` of `AppMenuComponent`. -/
structure AppMenuComponent where
  openFolders : List AppFolder
  activeFolderIndex : Int
deriving DecidableEq, Repr

/-- The method `juce::OwnedArray::getUnchecked`: the element at an index, without a
bounds check. `none` stands for the read outside the array that an index out of range
makes. -/
def getUnchecked {α : Type} (xs : List α) (index : Int) : Option α :=
  if index < 0 then none else xs.get? index.toNat

namespace AppMenuComponent

/-- The method `juce::OwnedArray::size` of `openFolders`. -/
def size (m : AppMenuComponent) : Int :=
  m.openFolders.length

/-- The method `AppMenuComponent::setActiveFolderIndex`. -/
def setActiveFolderIndex (m : AppMenuComponent) (folder : Int) : AppMenuComponent :=
  if folder ≥ 0 ∧ folder < m.size then { m with activeFolderIndex := folder } else m

/-- The method `AppMenuComponent::getActiveFolderIndex`. -/
def getActiveFolderIndex (m : AppMenuComponent) : Int :=
  median 0 m.activeFolderIndex (m.size - 1)

/-- The method `AppMenuComponent::getFolderSize`. -/
def getFolderSize (m : AppMenuComponent) (index : Int) : Option Int :=
  if index < 0 ∨ index ≥ m.size then some (-1)
  else (getUnchecked m.openFolders index).map AppFolder.buttonCount

/-- The method `AppMenuComponent::getFolderSelectedIndex`. -/
def getFolderSelectedIndex (m : AppMenuComponent) (index : Int) : Option Int :=
  if index < 0 ∨ index > m.size then some (-1)
  else (getUnchecked m.openFolders index).map AppFolder.selectedIndex

end AppMenuComponent

/-! ## Wifi::LibNM::ActiveConnection -/

/-- An `ActiveConnection`: whether the object is null and, when it is not, what
`nm_active_connection_get_specific_object` returns for it (`none` for `nullptr`). -/
structure ActiveConnection where
  isNull : Bool
  specificObject : Option String
deriving DecidableEq, Repr

/-- An `AccessPoint`: whether the object is null and what `getPath` returns. -/
structure AccessPoint where
  isNull : Bool
  path : String
deriving DecidableEq, Repr

namespace ActiveConnection

/-- The method `ActiveConnection::getAccessPointPath`. -/
def getAccessPointPath (c : ActiveConnection) : String :=
  if !c.isNull then
    match c.specificObject with
    | some path => path
    | none => ""
  else ""

/-- The method `ActiveConnection::isConnectedAccessPoint`; `strcmp (a, b) == 0` is
equality of the two strings. -/
def isConnectedAccessPoint (c : ActiveConnection) (accessPoint : AccessPoint) : Bool :=
  if !c.isNull || accessPoint.isNull then false
  else
    let apPath := c.getAccessPointPath
    decide (apPath = accessPoint.path) && decide (apPath ≠ "")

end ActiveConnection

/-! ## SharedResource: `buildAsyncFunction` -/

/-- The enumeration `SharedResource::LockType`: the enumerators `read` and `write` that
`buildAsyncFunction` tests for; `other` stands for any further value. -/
inductive LockType where
  | read
  | write
  | other
deriving DecidableEq, Repr

/-- A call made by the function that `buildAsyncFunction` returns. -/
inductive AsyncCall where
  | action
  | ifDestroyed
deriving DecidableEq, Repr

/-- The function returned by `SharedResource::buildAsyncFunction` of the resource at
address `this`, when it is called: `resource` is what the `ScopedPointer` that holds
the instance points to at that moment (`none` for `nullptr`), and the result is the
list of calls made, in order. -/
def buildAsyncFunction (this : Nat) (lockType : LockType) (resource : Option Nat) :
    List AsyncCall :=
  let resourceProtector : Option Nat := if resource = some this then resource else none
  if resourceProtector ≠ none then
    if lockType = LockType.write then [AsyncCall.action]
    else if lockType = LockType.read then [AsyncCall.action]
    else []
  else [AsyncCall.ifDestroyed]

/-! ## The Configurable-based ConfigFile: opening files -/

/-- The static members `openFileMap` and `fileChangesPending` of the Configurable-based
`ConfigFile`, and the log of the file names given to `JSON::parse`, oldest first. -/
structure FileRegistry where
  openFileMap : String → Option Bool
  fileChangesPending : String → Option Bool
  parsed : List String

namespace FileRegistry

/-- Program start: both maps are empty and no file has been parsed. -/
def initial : FileRegistry :=
  { openFileMap := fun _ => none, fileChangesPending := fun _ => none, parsed := [] }

/-- The constructor `ConfigFile::ConfigFile (configFilename)`. -/
def construct (w : FileRegistry) (filename : String) : FileRegistry :=
  let w1 : FileRegistry :=
    if w.fileChangesPending filename = none then
      { w with fileChangesPending := mapAssign w.fileChangesPending filename false }
    else w
  if w1.fileChangesPending filename = none then
    { w1 with openFileMap := mapAssign w1.openFileMap filename false }
  else w1

/-- The method `ConfigFile::fileOpened` of a `ConfigFile` with the given file name: the
value of `openFileMap[filename]`, and the registry, in which `operator[]` has made
the entry. -/
def fileOpened (w : FileRegistry) (filename : String) : Bool × FileRegistry :=
  let r := ConfigFile.mapIndex false w.openFileMap filename
  (r.1, { w with openFileMap := r.2 })

/-- The method `ConfigFile::openFile` of a `ConfigFile` with the given file name;
`fileData` is what `JSON::parse` returns for the file of a name. -/
def openFile (fileData : String → Var) (w : FileRegistry) (filename : String) :
    Var × FileRegistry :=
  let r := w.fileOpened filename
  if r.1 then (Var.void, r.2)
  else
    (fileData filename,
      { r.2 with
        openFileMap := mapAssign r.2.openFileMap filename true
        parsed := r.2.parsed ++ [filename] })

end FileRegistry

/-- The construction of a `ConfigFile` with a file name, or a call of its `openFile`. -/
inductive FileCall where
  | construct (filename : String)
  | openFile (filename : String)
deriving DecidableEq, Repr

/-- The effect of one call on the registry. -/
def FileCall.run (fileData : String → Var) (w : FileRegistry) : FileCall → FileRegistry
  | .construct filename => w.construct filename
  | .openFile filename => (w.openFile fileData filename).2

/-- The registry reached from program start by a sequence of calls. -/
def fileRegistryAfter (fileData : String → Var) (calls : List FileCall) : FileRegistry :=
  calls.foldl (FileCall.run fileData) FileRegistry.initial

/-! ## LibNMHandler: `initConnection` -/

/-- What `initConnection` finds when it runs: the result of `isWifiAvailable`, the
array `accessPointMap[toConnect]` as (address, signal strength) pairs, the result of
`toConnect.isSavedConnection ()`, whether `nm_device_get_available_connections`
returns a non-null array, the first connection that
`nm_access_point_filter_connections` returns for the matching access point (`none`
for an empty list), and whether `psk` is empty. -/
structure ConnectionAttempt where
  wifiAvailable : Bool
  candidates : List (Nat × Nat)
  isSavedConnection : Bool
  hasAvailableConnections : Bool
  matchingConnection : Option Nat
  pskEmpty : Bool
deriving DecidableEq, Repr

/-- How `initConnection` ends: with `connectionFailureCallback`, with
`nm_client_activate_connection` on a connection, or in the branch for an access point
that is no saved connection, with the value of the asserted `connection == nullptr`
and the connection given to `nm_client_add_and_activate_connection`. -/
inductive ConnectionOutcome where
  | failure
  | activate (connection : Option Nat)
  | addAndActivate (assertion : Bool) (connection : Option Nat)
deriving DecidableEq, Repr

/-- The loop of `initConnection` that finds the access point with the best signal
strength: the state is (`matchingAP`, `bestSignalStrength`). -/
def bestMatch (candidates : List (Nat × Nat)) : Option Nat × Int :=
  candidates.foldl
    (fun (st : Option Nat × Int) candidate =>
      if (candidate.2 : Int) > st.2 then (some candidate.1, (candidate.2 : Int)) else st)
    (none, -1)

/-- The method `LibNMHandler::initConnection`; `newConnection` is the address of the
object that `nm_connection_new` returns. Pointers are `Option Nat`, `none` for
`nullptr`. -/
def initConnection (newConnection : Nat) (a : ConnectionAttempt) : ConnectionOutcome :=
  if !a.wifiAvailable then ConnectionOutcome.failure
  else
    let matchingAP := (bestMatch a.candidates).1
    if matchingAP = none then ConnectionOutcome.failure
    else
      let connection0 : Option Nat := none
      let connection1 : Option Nat :=
        if a.isSavedConnection then
          if a.hasAvailableConnections then
            if a.matchingConnection ≠ none then a.matchingConnection else connection0
          else connection0
        else connection0
      let connection2 : Option Nat :=
        if connection1 = none then some newConnection else connection1
      if a.isSavedConnection then ConnectionOutcome.activate connection2
      else ConnectionOutcome.addAndActivate (decide (connection2 = none)) connection2

/-! ## JsonWifiInterface: the simulated wifi device -/

/-- The data members of `JsonWifiInterface` that its operations read and write. An
access point is its SSID, `none` for the null `WifiAccessPoint ()`. `signals` logs the
signal methods called, oldest first. -/
structure JsonWifiInterface where
  enabled : Bool
  connected : Bool
  turningOn : Bool
  turningOff : Bool
  waitingToConnect : Option String
  connectedAP : Option String
  signals : List String

namespace JsonWifiInterface

/-- The timer callback that `connectToAccessPoint` starts. -/
def connectTimer (pskEmpty : Bool) (w : JsonWifiInterface) : JsonWifiInterface :=
  let isTestCred := decide (w.waitingToConnect = some "MyFi")
  if !isTestCred then
    { w with connected := false, waitingToConnect := none,
             signals := w.signals ++ ["signalConnectionFailed"] }
  else if pskEmpty then
    { w with connected := false, waitingToConnect := none,
             signals := w.signals ++ ["signalPskNeeded"] }
  else
    let w1 : JsonWifiInterface :=
      { w with connected := true, connectedAP := w.waitingToConnect, waitingToConnect := none }
    if w1.connectedAP = none then { w1 with signals := w1.signals ++ ["signalWifiDisconnected"] }
    else { w1 with signals := w1.signals ++ ["signalWifiConnected"] }

/-- The method `JsonWifiInterface::connectToAccessPoint`, up to the start of its
timer. -/
def connectToAccessPoint (toConnect : Option String) (w : JsonWifiInterface) :
    JsonWifiInterface :=
  if toConnect = none then w
  else if w.turningOff then w
  else if w.turningOn then w
  else if !w.enabled then w
  else if w.waitingToConnect ≠ none then w
  else if w.connected then w
  else { w with waitingToConnect := toConnect }

/-- The timer callback that `disconnect` starts. -/
def disconnectTimer (w : JsonWifiInterface) : JsonWifiInterface :=
  { w with connectedAP := none, connected := false,
           signals := w.signals ++ ["signalWifiDisconnected"] }

/-- The method `JsonWifiInterface::disconnect`, up to the start of its timer: it
changes no member. -/
def disconnect (w : JsonWifiInterface) : JsonWifiInterface :=
  if !w.connected then w else w

/-- The timer callback that `enableWifi` starts. -/
def enableTimer (w : JsonWifiInterface) : JsonWifiInterface :=
  if w.turningOn then
    { w with turningOn := false, enabled := true, signals := w.signals ++ ["signalWifiEnabled"] }
  else w

/-- The method `JsonWifiInterface::enableWifi`, up to the start of its timer. -/
def enableWifi (w : JsonWifiInterface) : JsonWifiInterface :=
  if w.turningOn then w
  else if w.turningOff then w
  else if !w.enabled then { w with turningOn := true, turningOff := false }
  else w

/-- The timer callback that `disableWifi` starts. -/
def disableTimer (w : JsonWifiInterface) : JsonWifiInterface :=
  if w.turningOff then
    { w with turningOff := false, enabled := false,
             signals := w.signals ++ ["signalWifiDisabled"] }
  else w

/-- The method `JsonWifiInterface::disableWifi`, up to the start of its timer. -/
def disableWifi (w : JsonWifiInterface) : JsonWifiInterface :=
  if w.turningOff then w
  else if w.enabled then { w with turningOn := false, turningOff := true }
  else w

end JsonWifiInterface

/-- An operation of the simulated wifi interface or the run of one of the timer
callbacks. -/
inductive WifiOperation where
  | connectToAccessPoint (toConnect : Option String)
  | connectTimer (pskEmpty : Bool)
  | disconnect
  | disconnectTimer
  | enableWifi
  | enableTimer
  | disableWifi
  | disableTimer
deriving DecidableEq, Repr

/-- The effect of one operation. -/
def WifiOperation.run (w : JsonWifiInterface) : WifiOperation → JsonWifiInterface
  | .connectToAccessPoint toConnect => w.connectToAccessPoint toConnect
  | .connectTimer pskEmpty => w.connectTimer pskEmpty
  | .disconnect => w.disconnect
  | .disconnectTimer => w.disconnectTimer
  | .enableWifi => w.enableWifi
  | .enableTimer => w.enableTimer
  | .disableWifi => w.disableWifi
  | .disableTimer => w.disableTimer

/-! ## IconThread: `getIconPath` -/

/-- The part of a character list before the last occurrence of `c`, and the whole
list when `c` does not occur. -/
def upToLastChar (c : Char) : List Char → List Char
  | [] => []
  | x :: rest =>
    if c ∈ rest then x :: upToLastChar c rest
    else if x = c then []
    else x :: rest

/-- The method `juce::String::upToLastOccurrenceOf (sub, false, false)` for a `sub` of
one character. -/
def upToLastOccurrenceOf (s : String) (c : Char) : String :=
  String.mk (upToLastChar c s.data)

/-- The enumeration of icon contexts of `IconThemeIndex`: the enumerator
`applicationsCtx` that `getIconPath` tests for, and any other context. -/
inductive IconContext where
  | applicationsCtx
  | otherCtx (n : Nat)
deriving DecidableEq, Repr

/-- The data members of `IconThread::QueuedJob` that `getIconPath` reads. -/
structure QueuedJob where
  icon : String
  size : Int
  context : IconContext
  scale : Int
deriving DecidableEq, Repr

/-- What `getIconPath` works with: the `iconThemes` array (a theme index is its
address), the `iconDirectories` array, what `IconThemeIndex::lookupIcon` returns for a
theme and a request, and what `File::existsAsFile` returns for a path. -/
structure IconSearch where
  iconThemes : List Nat
  iconDirectories : List String
  lookupIcon : Nat → String → Int → IconContext → Int → String
  existsAsFile : String → Bool

/-- The first loop of `getIconPath`: the first non-empty path that a theme gives. -/
def themeLookup (e : IconSearch) (request : QueuedJob) : List Nat → Option String
  | [] => none
  | themeIndex :: rest =>
    let iconPath := e.lookupIcon themeIndex request.icon request.size request.context
      request.scale
    if iconPath ≠ "" then some iconPath else themeLookup e request rest

/-- The last loop of `getIconPath`: the first `.png` file of that name that exists in
an icon directory, and the empty string without one. -/
def directoryLookup (e : IconSearch) (icon : String) : List String → String
  | [] => ""
  | iconDir :: rest =>
    let iconPath := iconDir ++ "/" ++ icon ++ ".png"
    if e.existsAsFile iconPath then iconPath else directoryLookup e icon rest

/-- The method `IconThread::getIconPath`. Each level of the recursion uses one unit of
`fuel`; `none` when the fuel runs out. -/
def getIconPath (e : IconSearch) : Nat → QueuedJob → Option String
  | 0, _ => none
  | fuel + 1, request =>
    match themeLookup e request e.iconThemes with
    | some iconPath => some iconPath
    | none =>
      if request.context ≠ IconContext.applicationsCtx ∧ '-' ∈ request.icon.data then
        match getIconPath e fuel { request with icon := upToLastOccurrenceOf request.icon '-' } with
        | none => none
        | some iconPath =>
          if iconPath ≠ "" then some iconPath
          else some (directoryLookup e request.icon e.iconDirectories)
      else some (directoryLookup e request.icon e.iconDirectories)

/-! ## Vocabulary of the statements -/

/-- The default document that `getProperty` reads from: the `defaultConfig` argument,
and the bundled asset when that argument is void. -/
def effectiveDefault (asset defaultConfig : Var) : Var :=
  if defaultConfig.isVoid then asset else defaultConfig

/-- The entry of a key in the map of the key's declared type is the value `v`,
converted to that type. -/
def ConfigFile.holds (J : VarLib) (f : ConfigFile) (key : DataKey) (v : Var) : Prop :=
  match key.dataType with
  | .stringType => f.stringValues key.keyString = some (v.toString J)
  | .intType => f.intValues key.keyString = some (v.toInt J)
  | .boolType => f.boolValues key.keyString = some (v.toBool J)
  | .doubleType => f.doubleValues key.keyString = some (v.toDouble J)

/-- The `var` that `getProperty` returns for a key: the property of the loaded
document when it exists, the property of the default document otherwise. -/
def resolvedProperty (asset config defaultConfig : Var) (key : String) : Var :=
  if ConfigFile.propertyExists config key then config.getProperty key Var.void
  else (effectiveDefault asset defaultConfig).getProperty key Var.void

/-- The value that `m[key]` reads for a key in the map of the key's declared type, as
the `var` that `copyDataToJson` builds from it; a key without an entry reads as the
value-initialised entry. -/
def ConfigFile.valueVar (f : ConfigFile) (key : DataKey) : Var :=
  match key.dataType with
  | .stringType => Var.string ((f.stringValues key.keyString).getD "")
  | .intType => Var.int ((f.intValues key.keyString).getD 0)
  | .boolType => Var.bool ((f.boolValues key.keyString).getD false)
  | .doubleType => Var.double ((f.doubleValues key.keyString).getD (Double.mk 0))

/-- The map of the key's declared type has an entry for the key. -/
def ConfigFile.hasValue (f : ConfigFile) (key : DataKey) : Prop :=
  match key.dataType with
  | .stringType => f.stringValues key.keyString ≠ none
  | .intType => f.intValues key.keyString ≠ none
  | .boolType => f.boolValues key.keyString ≠ none
  | .doubleType => f.doubleValues key.keyString ≠ none

/-- A `ConfigFile` in which nothing is stored and no change is pending. -/
def ConfigFile.empty : ConfigFile :=
  { intValues := fun _ => none, stringValues := fun _ => none, boolValues := fun _ => none,
    doubleValues := fun _ => none, fileChangesPending := false }

/-- Library conversions for evaluating the embedding on inputs in which none of them
is used. -/
def VarLib.unused : VarLib :=
  { toInt := fun _ => 0, toBool := fun _ => false, toDouble := fun _ => Double.mk 0,
    toStr := fun _ => "" }

/-- The schema of the scenario of the specification: `maxRows : Int`, `theme : String`. -/
def mainKeys : List DataKey :=
  [{ keyString := "maxRows", dataType := .intType },
   { keyString := "theme", dataType := .stringType }]

/-- The default document of the scenario of the specification. -/
def mainDefaults : Var :=
  Var.object [("maxRows", Var.int 3), ("theme", Var.string "dark")]

/-- The two stores have the same entry for the key in the map of its declared type. -/
def ConfigFile.sameEntry (f g : ConfigFile) (key : DataKey) : Prop :=
  match key.dataType with
  | .stringType => g.stringValues key.keyString = f.stringValues key.keyString
  | .intType => g.intValues key.keyString = f.intValues key.keyString
  | .boolType => g.boolValues key.keyString = f.boolValues key.keyString
  | .doubleType => g.doubleValues key.keyString = f.doubleValues key.keyString

/-- Every entry of the four maps of `f` is an entry of `g`, with the same value. -/
def ConfigFile.keepsEntries (f g : ConfigFile) : Prop :=
  ∀ k : String,
    (f.stringValues k ≠ none → g.stringValues k = f.stringValues k) ∧
    (f.intValues k ≠ none → g.intValues k = f.intValues k) ∧
    (f.boolValues k ≠ none → g.boolValues k = f.boolValues k) ∧
    (f.doubleValues k ≠ none → g.doubleValues k = f.doubleValues k)

/-- The calls of `setProperty` in a list of (name, value) pairs, made in order. -/
def setProperties (jsonObj : List (String × Var)) (calls : List (String × Var)) :
    List (String × Var) :=
  calls.foldl (fun o p => setProperty o p.1 p.2) jsonObj

/-- The store of the scenario of the specification after `theme` was set to
`light`: a value for each key, and changes pending. -/
def mainStore : ConfigFile :=
  { ConfigFile.empty with
    intValues := mapAssign (fun _ => none) "maxRows" 3
    stringValues := mapAssign (fun _ => none) "theme" "light"
    fileChangesPending := true }

/-- A `configValueChanged` that changes no subscription and notifies nobody. -/
def idleCallback : Callback :=
  fun _ _ w => w

/-- Listeners 1 and 2 subscribe to key `a` of the `ConfigFile` at address 0, listener
1 also to `b` and listener 3 to `c`. -/
def sampleCalls : List ListenerCall :=
  [.add 0 1 ["a", "b"], .add 0 2 ["a"], .add 0 3 ["c"]]

/-- The addresses of the Handler objects of `hs` that have the given resource key, in
the order of `hs`. -/
def handlersOf (hs : List (Nat × String)) (resourceKey : String) : List Nat :=
  (hs.filter (fun e => decide (e.2 = resourceKey))).map Prod.fst

/-- The resources `w` agree with the Handler objects `hs` that exist: a key without a
registered resource has no Handler, the handler list of a registered resource holds
exactly the Handlers of its key, two keys never share a resource object, and the
registered addresses have been handed out. -/
structure ResourceWorld.Tracks (w : ResourceWorld) (hs : List (Nat × String)) : Prop where
  nodup : (hs.map Prod.fst).Nodup
  unregistered : ∀ key, w.resourceMap key = none → ∀ h, (h, key) ∉ hs
  registered : ∀ key r, w.resourceMap key = some r →
    w.resourceHandlers r = handlersOf hs key ∧ handlersOf hs key ≠ []
  injective : ∀ k1 k2 r, w.resourceMap k1 = some r → w.resourceMap k2 = some r → k1 = k2
  bounded : ∀ key r, w.resourceMap key = some r → r < w.nextAddress

/-- The resource objects that exist are the registered ones: each is registered under
its own key, and no address is used twice. -/
structure ResourceWorld.Owned (w : ResourceWorld) : Prop where
  nodup : (w.allocated.map Prod.fst).Nodup
  isRegistered : ∀ a key, (a, key) ∈ w.allocated → w.resourceMap key = some a
  bounded : ∀ a key, (a, key) ∈ w.allocated → a < w.nextAddress

/-- Two Handlers of the resource `theme` and one of `wifi` are constructed, then the
`theme` Handlers are destroyed. -/
def sampleEvents : List HandlerEvent :=
  [.construct 10 "theme", .construct 11 "wifi", .construct 12 "theme",
   .destroy 10 "theme", .destroy 12 "theme"]

/-- A `configValueChanged` that makes the `addListener` and `removeListener` calls
that `script` lists for the listener, the key and the listener data it finds, and
notifies nobody. -/
def scriptedCallback (script : Nat → String → ListenerWorld → List ListenerCall) : Callback :=
  fun l key w => (script l key w).foldl ListenerCall.run w

/-- Every listener in the notification queue of `ConfigFile` `c` for `key` tracks
`key` for `c`. -/
def ListenerWorld.QueueTracked (w : ListenerWorld) (c : Nat) (key : String) : Prop :=
  ∀ m ∈ w.notificationQueue c key, key ∈ w.trackedKeys m c

/-- The `ConfigFile` addresses in the tracked-key map of listener `l` whose key list
holds `key`. -/
def ListenerWorld.trackingFiles (w : ListenerWorld) (l : Nat) (key : String) : List Nat :=
  ((w.configKeyMap l).filter (fun e => decide (key ∈ e.2))).map Prod.fst

/-- The tracked-key maps are in key order and their key lists are free of repetition. -/
def ListenerWorld.KeyMapsOrdered (w : ListenerWorld) : Prop :=
  ∀ l, (w.configKeyMap l).Pairwise (fun a b => a.1 < b.1)
    ∧ ∀ e ∈ w.configKeyMap l, e.2.Nodup

/-- Listener 1 subscribes to key `a` of the `ConfigFile` at address 0 and to key `a`
of the `ConfigFile` at address 1. -/
def sharedKeyCalls : List ListenerCall :=
  [.add 0 1 ["a"], .add 1 1 ["a"]]

/-- A document that holds a value for each key of the scenario of the specification. -/
def mainDocument : Var :=
  Var.object [("maxRows", Var.int 5), ("theme", Var.string "light")]

/-- The invariant of the simulated wifi device: it is not turning on and turning off
at once. -/
def JsonWifiInterface.Steady (w : JsonWifiInterface) : Prop :=
  ¬ (w.turningOn = true ∧ w.turningOff = true)

/-- A simulated wifi device that is off and idle. -/
def JsonWifiInterface.off : JsonWifiInterface :=
  { enabled := false, connected := false, turningOn := false, turningOff := false,
    waitingToConnect := none, connectedAP := none, signals := [] }

/-- What `JSON::parse` returns for the files of the examples: the document of the
scenario for every file. -/
def sampleFileData : String → Var :=
  fun _ => mainDocument

/-- An icon search with one theme that knows the icon `folder` only, and one icon
directory without files. -/
def sampleIconSearch : IconSearch :=
  { iconThemes := [0], iconDirectories := ["/usr/share/pixmaps"],
    lookupIcon := fun _ icon _ _ _ => if icon = "folder" then "/themes/folder.png" else "",
    existsAsFile := fun _ => false }

/-- The value that a JSON document holds for a name: the document is an object and
`v` is its property of that name. `none` for a document that is no object and for
an object without a property of that name. -/
def Var.propertyOf : Var → String → Option Var
  | .object props, name => (props.find? (fun p => decide (p.1 = name))).map Prod.snd
  | _, _ => none

/-- The calls of `configValueChanged` that the loop of `notifyListeners` makes, in
order: the listener that is called, with the listener data that its callback finds.
The iterations are those of `notifyLoop`. -/
def ListenerWorld.notifyTrace (cb : Callback) (c : Nat) (key : String) :
    Nat → ListenerWorld → List (Nat × ListenerWorld)
  | fuel, w =>
    match w.notificationQueue c key with
    | [] => []
    | x :: xs =>
      match fuel with
      | 0 => []
      | fuel + 1 =>
        let toNotify := (x :: xs).getLast (List.cons_ne_nil x xs)
        let w1 : ListenerWorld :=
          { w with
            notificationQueue := setAt2 w.notificationQueue c key (x :: xs).dropLast }
        let w2 : ListenerWorld := { w1 with notified := w1.notified ++ [(toNotify, key)] }
        (toNotify, w2) :: notifyTrace cb c key fuel (cb toNotify key w2)

/-- The calls of `configValueChanged` that `notifyListeners` makes, in order, each
with the listener data that its callback finds. -/
def ListenerWorld.notifyListenersTrace (cb : Callback) (c : Nat) (key : String) (fuel : Nat)
    (w : ListenerWorld) : List (Nat × ListenerWorld) :=
  ListenerWorld.notifyTrace cb c key fuel
    { w with
      notificationQueue :=
        setAt2 w.notificationQueue c key (w.notificationQueue c key ++ w.keyListeners c key) }

/-- The script in which listener 2, when notified of key `a`, destroys listener 1:
as in the destructor of listener 1, `removeListener (1)` is called on each
`ConfigFile` that listener 1 tracks when the callback runs, and on none when listener
1 tracks nothing. -/
def destroyingScript : Nat → String → ListenerWorld → List ListenerCall :=
  fun l key v =>
    if l = 2 ∧ key = "a" then (v.configKeyMap 1).map (fun e => ListenerCall.remove e.1 1)
    else []

/-! ## Reading a document: `getProperty` and `readDataFromJson` -/

theorem effectiveDefault_idem (asset d : Var) :
    effectiveDefault asset (effectiveDefault asset d) = effectiveDefault asset d := by
  unfold effectiveDefault
  by_cases h : d.isVoid = true
  · simp [h]
  · simp [h]

theorem getProperty_fst (asset config : Var) (key : String) (s : ReadState) :
    (ConfigFile.getProperty asset config key s).1
      = resolvedProperty asset config s.defaultConfig key := by
  unfold ConfigFile.getProperty resolvedProperty effectiveDefault
  by_cases h : ConfigFile.propertyExists config key = true
  · simp [h]
  · by_cases hv : s.defaultConfig.isVoid = true
    · simp [h, hv]
    · simp [h, hv]

theorem getProperty_defaultConfig (asset config : Var) (key : String) (s : ReadState) :
    effectiveDefault asset (ConfigFile.getProperty asset config key s).2.defaultConfig
      = effectiveDefault asset s.defaultConfig := by
  unfold ConfigFile.getProperty
  by_cases h : ConfigFile.propertyExists config key = true
  · simp [h]
  · by_cases hv : s.defaultConfig.isVoid = true
    · simp [h, hv, effectiveDefault]
    · simp [h, hv]

theorem getProperty_maps (asset config : Var) (key : String) (s : ReadState) :
    let f := (ConfigFile.getProperty asset config key s).2.file
    f.intValues = s.file.intValues ∧ f.stringValues = s.file.stringValues ∧
      f.boolValues = s.file.boolValues ∧ f.doubleValues = s.file.doubleValues := by
  unfold ConfigFile.getProperty
  by_cases h : ConfigFile.propertyExists config key = true
  · simp [h]
  · by_cases hv : s.defaultConfig.isVoid = true
    · simp [h, hv]
    · simp [h, hv]

theorem getProperty_pending (asset config : Var) (key : String) (s : ReadState) :
    (ConfigFile.getProperty asset config key s).2.file.fileChangesPending
      = (s.file.fileChangesPending || !ConfigFile.propertyExists config key) := by
  unfold ConfigFile.getProperty
  by_cases h : ConfigFile.propertyExists config key = true
  · simp [h]
  · by_cases hv : s.defaultConfig.isVoid = true
    · simp [h, hv]
    · simp [h, hv]

theorem readDataKey_defaultConfig (J : VarLib) (asset config : Var) (s : ReadState)
    (d : DataKey) :
    effectiveDefault asset (ConfigFile.readDataKey J asset config s d).defaultConfig
      = effectiveDefault asset s.defaultConfig := by
  have h := getProperty_defaultConfig asset config d.keyString s
  unfold ConfigFile.readDataKey
  cases hd : d.dataType <;> simpa using h

theorem readDataKey_pending (J : VarLib) (asset config : Var) (s : ReadState)
    (d : DataKey) :
    (ConfigFile.readDataKey J asset config s d).file.fileChangesPending
      = (s.file.fileChangesPending || !ConfigFile.propertyExists config d.keyString) := by
  have h := getProperty_pending asset config d.keyString s
  unfold ConfigFile.readDataKey
  cases hd : d.dataType <;>
    simpa [ConfigFile.initMapPropertyString, ConfigFile.initMapPropertyInt,
      ConfigFile.initMapPropertyBool, ConfigFile.initMapPropertyDouble] using h

theorem readDataKey_holds_self (J : VarLib) (asset config : Var) (s : ReadState)
    (d : DataKey) :
    (ConfigFile.readDataKey J asset config s d).file.holds J d
      (resolvedProperty asset config s.defaultConfig d.keyString) := by
  have h := getProperty_fst asset config d.keyString s
  unfold ConfigFile.readDataKey ConfigFile.holds
  cases hd : d.dataType <;>
    simp [ConfigFile.initMapPropertyString, ConfigFile.initMapPropertyInt,
      ConfigFile.initMapPropertyBool, ConfigFile.initMapPropertyDouble, mapAssign, h]

theorem readDataKey_holds_other (J : VarLib) (asset config : Var) (s : ReadState)
    (d k : DataKey)
    (hk : s.file.holds J k (resolvedProperty asset config s.defaultConfig k.keyString)) :
    (ConfigFile.readDataKey J asset config s d).file.holds J k
      (resolvedProperty asset config s.defaultConfig k.keyString) := by
  have h := getProperty_fst asset config d.keyString s
  have hm := getProperty_maps asset config d.keyString s
  simp only at hm
  obtain ⟨hi, hs, hb, hdb⟩ := hm
  unfold ConfigFile.holds at hk ⊢
  unfold ConfigFile.readDataKey
  by_cases hkey : k.keyString = d.keyString
  · cases hd : d.dataType <;> cases hkt : k.dataType <;>
      simp_all [ConfigFile.initMapPropertyString, ConfigFile.initMapPropertyInt,
        ConfigFile.initMapPropertyBool, ConfigFile.initMapPropertyDouble, mapAssign]
  · cases hd : d.dataType <;> cases hkt : k.dataType <;>
      simp_all [ConfigFile.initMapPropertyString, ConfigFile.initMapPropertyInt,
        ConfigFile.initMapPropertyBool, ConfigFile.initMapPropertyDouble, mapAssign]

theorem resolvedProperty_congr (asset config d1 d2 : Var) (key : String)
    (h : effectiveDefault asset d1 = effectiveDefault asset d2) :
    resolvedProperty asset config d1 key = resolvedProperty asset config d2 key := by
  unfold resolvedProperty
  rw [h]

theorem readDataFromJson_defaultConfig (J : VarLib) (asset config : Var)
    (dataKeys : List DataKey) (s : ReadState) :
    effectiveDefault asset (ConfigFile.readDataFromJson J asset dataKeys config s).defaultConfig
      = effectiveDefault asset s.defaultConfig := by
  unfold ConfigFile.readDataFromJson
  induction dataKeys generalizing s with
  | nil => rfl
  | cons d rest ih =>
    rw [List.foldl_cons, ih, readDataKey_defaultConfig]

theorem readDataFromJson_holds_of_holds (J : VarLib) (asset config : Var)
    (dataKeys : List DataKey) (s : ReadState) (k : DataKey)
    (hk : s.file.holds J k (resolvedProperty asset config s.defaultConfig k.keyString)) :
    (ConfigFile.readDataFromJson J asset dataKeys config s).file.holds J k
      (resolvedProperty asset config s.defaultConfig k.keyString) := by
  unfold ConfigFile.readDataFromJson
  induction dataKeys generalizing s with
  | nil => exact hk
  | cons d rest ih =>
    rw [List.foldl_cons]
    have hstep := readDataKey_holds_other J asset config s d k hk
    have hc := resolvedProperty_congr asset config _ _ k.keyString
      (readDataKey_defaultConfig J asset config s d)
    rw [← hc] at hstep ⊢
    exact ih _ hstep

theorem readDataFromJson_holds (J : VarLib) (asset config : Var)
    (dataKeys : List DataKey) (s : ReadState) (k : DataKey) (hmem : k ∈ dataKeys) :
    (ConfigFile.readDataFromJson J asset dataKeys config s).file.holds J k
      (resolvedProperty asset config s.defaultConfig k.keyString) := by
  induction dataKeys generalizing s with
  | nil => cases hmem
  | cons d rest ih =>
    have hc := resolvedProperty_congr asset config _ _ k.keyString
      (readDataKey_defaultConfig J asset config s d)
    rcases List.mem_cons.mp hmem with rfl | hrest
    · have hself := readDataKey_holds_self J asset config s k
      rw [← hc] at hself
      have := readDataFromJson_holds_of_holds J asset config rest _ k hself
      rw [hc] at this
      exact this
    · have := ih (ConfigFile.readDataKey J asset config s d) hrest
      rw [hc] at this
      exact this

theorem readDataFromJson_pending (J : VarLib) (asset config : Var)
    (dataKeys : List DataKey) (s : ReadState) :
    (ConfigFile.readDataFromJson J asset dataKeys config s).file.fileChangesPending
      = (s.file.fileChangesPending ||
          dataKeys.any (fun d => !ConfigFile.propertyExists config d.keyString)) := by
  unfold ConfigFile.readDataFromJson
  induction dataKeys generalizing s with
  | nil => simp
  | cons d rest ih =>
    rw [List.foldl_cons, ih, readDataKey_pending, List.any_cons, Bool.or_assoc]

/-- C1: a schema key that does not exist in the loaded document gets, in the map of
its declared type, the value that the default document holds for it, and the
pending-changes flag is set after `readDataFromJson`. -/
theorem readDataFromJson_absent_key_default (J : VarLib) (asset config : Var)
    (dataKeys : List DataKey) (s : ReadState) (k : DataKey) (hmem : k ∈ dataKeys)
    (habsent : ConfigFile.propertyExists config k.keyString = false) :
    (ConfigFile.readDataFromJson J asset dataKeys config s).file.holds J k
        ((effectiveDefault asset s.defaultConfig).getProperty k.keyString Var.void)
      ∧ (ConfigFile.readDataFromJson J asset dataKeys config s).file.fileChangesPending
          = true := by
  constructor
  · have h := readDataFromJson_holds J asset config dataKeys s k hmem
    unfold resolvedProperty at h
    simpa [habsent] using h
  · rw [readDataFromJson_pending]
    have : dataKeys.any (fun d => !ConfigFile.propertyExists config d.keyString) = true :=
      List.any_eq_true.mpr ⟨k, hmem, by simp [habsent]⟩
    simp [this]

/-- Witness of C1: with no file on disk (a void document), `maxRows` is read as the 3
of the default document and the store is dirty. -/
theorem readDataFromJson_absent_key_default_witness :
    ({ keyString := "maxRows", dataType := .intType } : DataKey) ∈ mainKeys
      ∧ ConfigFile.propertyExists Var.void "maxRows" = false
      ∧ (ConfigFile.readDataFromJson VarLib.unused mainDefaults mainKeys Var.void
          { file := ConfigFile.empty, defaultConfig := Var.void, assetLoads := 0 }
          ).file.intValues "maxRows" = some 3
      ∧ (ConfigFile.readDataFromJson VarLib.unused mainDefaults mainKeys Var.void
          { file := ConfigFile.empty, defaultConfig := Var.void, assetLoads := 0 }
          ).file.fileChangesPending = true :=
  ⟨by simp [mainKeys], rfl,
    (readDataFromJson_absent_key_default VarLib.unused mainDefaults Var.void mainKeys
      { file := ConfigFile.empty, defaultConfig := Var.void, assetLoads := 0 }
      { keyString := "maxRows", dataType := .intType } (by simp [mainKeys]) rfl).1,
    (readDataFromJson_absent_key_default VarLib.unused mainDefaults Var.void mainKeys
      { file := ConfigFile.empty, defaultConfig := Var.void, assetLoads := 0 }
      { keyString := "maxRows", dataType := .intType } (by simp [mainKeys]) rfl).2⟩

/-- C10, as stated, fails: the document holds the bool `true` for the `int` key
`maxRows` and the default document holds 3. `readDataFromJson` stores 1, the bool
converted to `int`, not the default 3, leaves the store clean and never loads the
default document. -/
theorem readDataFromJson_wrong_type_counterexample :
    (ConfigFile.readDataFromJson VarLib.unused mainDefaults
        [{ keyString := "maxRows", dataType := .intType }]
        (Var.object [("maxRows", Var.bool true)])
        { file := ConfigFile.empty, defaultConfig := Var.void, assetLoads := 0 }
        ).file.intValues "maxRows" = some 1
      ∧ mainDefaults.getProperty "maxRows" Var.void = Var.int 3
      ∧ (ConfigFile.readDataFromJson VarLib.unused mainDefaults
          [{ keyString := "maxRows", dataType := .intType }]
          (Var.object [("maxRows", Var.bool true)])
          { file := ConfigFile.empty, defaultConfig := Var.void, assetLoads := 0 }
          ).file.fileChangesPending = false
      ∧ (ConfigFile.readDataFromJson VarLib.unused mainDefaults
          [{ keyString := "maxRows", dataType := .intType }]
          (Var.object [("maxRows", Var.bool true)])
          { file := ConfigFile.empty, defaultConfig := Var.void, assetLoads := 0 }
          ).assetLoads = 0 :=
  ⟨rfl, rfl, rfl, rfl⟩

theorem getProperty_of_propertyOf (config : Var) (name : String) (v dflt : Var)
    (h : config.propertyOf name = some v) : config.getProperty name dflt = v := by
  cases config with
  | object props =>
    simp only [Var.propertyOf] at h
    simp only [Var.getProperty]
    induction props with
    | nil => simp at h
    | cons p rest ih =>
      obtain ⟨n, w⟩ := p
      simp only [Var.getWithDefault]
      by_cases hn : n = name
      · rw [if_pos hn]
        simpa [List.find?, hn] using h
      · rw [if_neg hn]
        apply ih
        simpa [List.find?, hn] using h
  | _ => simp [Var.propertyOf] at h

theorem propertyExists_of_propertyOf (config : Var) (name : String) (v : Var)
    (h : config.propertyOf name = some v) :
    ConfigFile.propertyExists config name = !v.isVoid := by
  unfold ConfigFile.propertyExists
  rw [getProperty_of_propertyOf config name v Var.void h]

/-- C10, amended: the loaded document is an object that holds the value `v` for a
schema key, of whatever JSON type, the declared one or another. Only when `v` is JSON
null, which the JSON reader gives as the void `var`, does `readDataFromJson` store the
value of the default document for the key and set the pending-changes flag. Every
other `v` is stored itself, converted to the declared type by the conversion of
`juce::var`; `getProperty` for the key then leaves the default document and the flag
alone, and after `readDataFromJson` the flag is set exactly when it was set before or
some schema key does not exist in the document. -/
theorem readDataFromJson_wrong_type_value (J : VarLib) (asset config : Var)
    (dataKeys : List DataKey) (s : ReadState) (k : DataKey) (v : Var) (hmem : k ∈ dataKeys)
    (hvalue : config.propertyOf k.keyString = some v) :
    (v.isVoid = true →
        (ConfigFile.readDataFromJson J asset dataKeys config s).file.holds J k
            ((effectiveDefault asset s.defaultConfig).getProperty k.keyString Var.void)
          ∧ (ConfigFile.readDataFromJson J asset dataKeys config s).file.fileChangesPending
              = true)
      ∧ (v.isVoid = false →
          (ConfigFile.readDataFromJson J asset dataKeys config s).file.holds J k v
            ∧ (∀ t : ReadState, ConfigFile.getProperty asset config k.keyString t = (v, t))
            ∧ (ConfigFile.readDataFromJson J asset dataKeys config s).file.fileChangesPending
                = (s.file.fileChangesPending ||
                    dataKeys.any (fun d => !ConfigFile.propertyExists config d.keyString))) := by
  have hexists := propertyExists_of_propertyOf config k.keyString v hvalue
  have hget := getProperty_of_propertyOf config k.keyString v Var.void hvalue
  have h := readDataFromJson_holds J asset config dataKeys s k hmem
  unfold resolvedProperty at h
  constructor
  · intro hnull
    rw [hnull] at hexists
    constructor
    · simpa [hexists] using h
    · rw [readDataFromJson_pending]
      have : dataKeys.any (fun d => !ConfigFile.propertyExists config d.keyString) = true :=
        List.any_eq_true.mpr ⟨k, hmem, by simp [hexists]⟩
      simp [this]
  · intro hvalid
    rw [hvalid] at hexists
    refine ⟨?_, ?_, readDataFromJson_pending J asset config dataKeys s⟩
    · rw [hget] at h
      simpa [hexists] using h
    · intro t
      unfold ConfigFile.getProperty
      rw [hget]
      simp [hexists]

/-- Witness of the amended C10: on the input of the counterexample, the bool `true`
for the `int` key `maxRows`, 1 is stored and the store stays clean; when the document
holds null for `maxRows`, the 3 of the default document is stored and the store is
dirty. -/
theorem readDataFromJson_wrong_type_value_witness :
    ({ keyString := "maxRows", dataType := .intType } : DataKey)
        ∈ [({ keyString := "maxRows", dataType := .intType } : DataKey)]
      ∧ (Var.object [("maxRows", Var.bool true)]).propertyOf "maxRows" = some (Var.bool true)
      ∧ (Var.bool true).isVoid = false
      ∧ (ConfigFile.readDataFromJson VarLib.unused mainDefaults
          [{ keyString := "maxRows", dataType := .intType }]
          (Var.object [("maxRows", Var.bool true)])
          { file := ConfigFile.empty, defaultConfig := Var.void, assetLoads := 0 }
          ).file.intValues "maxRows" = some 1
      ∧ (ConfigFile.readDataFromJson VarLib.unused mainDefaults
          [{ keyString := "maxRows", dataType := .intType }]
          (Var.object [("maxRows", Var.bool true)])
          { file := ConfigFile.empty, defaultConfig := Var.void, assetLoads := 0 }
          ).file.fileChangesPending = false
      ∧ (Var.object [("maxRows", Var.void)]).propertyOf "maxRows" = some Var.void
      ∧ Var.void.isVoid = true
      ∧ (ConfigFile.readDataFromJson VarLib.unused mainDefaults
          [{ keyString := "maxRows", dataType := .intType }]
          (Var.object [("maxRows", Var.void)])
          { file := ConfigFile.empty, defaultConfig := Var.void, assetLoads := 0 }
          ).file.intValues "maxRows" = some 3
      ∧ (ConfigFile.readDataFromJson VarLib.unused mainDefaults
          [{ keyString := "maxRows", dataType := .intType }]
          (Var.object [("maxRows", Var.void)])
          { file := ConfigFile.empty, defaultConfig := Var.void, assetLoads := 0 }
          ).file.fileChangesPending = true :=
  ⟨by simp, rfl, rfl,
    ((readDataFromJson_wrong_type_value VarLib.unused mainDefaults
      (Var.object [("maxRows", Var.bool true)])
      [{ keyString := "maxRows", dataType := .intType }]
      { file := ConfigFile.empty, defaultConfig := Var.void, assetLoads := 0 }
      { keyString := "maxRows", dataType := .intType } (Var.bool true) (by simp) rfl).2 rfl).1,
    ((readDataFromJson_wrong_type_value VarLib.unused mainDefaults
      (Var.object [("maxRows", Var.bool true)])
      [{ keyString := "maxRows", dataType := .intType }]
      { file := ConfigFile.empty, defaultConfig := Var.void, assetLoads := 0 }
      { keyString := "maxRows", dataType := .intType } (Var.bool true) (by simp) rfl).2
        rfl).2.2.trans rfl,
    rfl, rfl,
    ((readDataFromJson_wrong_type_value VarLib.unused mainDefaults
      (Var.object [("maxRows", Var.void)])
      [{ keyString := "maxRows", dataType := .intType }]
      { file := ConfigFile.empty, defaultConfig := Var.void, assetLoads := 0 }
      { keyString := "maxRows", dataType := .intType } Var.void (by simp) rfl).1 rfl).1,
    ((readDataFromJson_wrong_type_value VarLib.unused mainDefaults
      (Var.object [("maxRows", Var.void)])
      [{ keyString := "maxRows", dataType := .intType }]
      { file := ConfigFile.empty, defaultConfig := Var.void, assetLoads := 0 }
      { keyString := "maxRows", dataType := .intType } Var.void (by simp) rfl).1 rfl).2⟩

/-! ## Writing a document: `copyDataToJson` and `writeChanges` -/

theorem mapIndex_fst_getD {β : Type} (dflt : β) (m : String → Option β) (key : String) :
    (ConfigFile.mapIndex dflt m key).1 = (m key).getD dflt := by
  unfold ConfigFile.mapIndex
  cases h : m key <;> simp

theorem mapIndex_snd_getD {β : Type} (dflt : β) (m : String → Option β) (key k : String) :
    ((ConfigFile.mapIndex dflt m key).2 k).getD dflt = (m k).getD dflt := by
  unfold ConfigFile.mapIndex
  cases h : m key with
  | some v => simp
  | none =>
    by_cases hk : k = key
    · simp [mapAssign, hk, h]
    · simp [mapAssign, hk]

theorem mapIndex_snd_of_ne_none {β : Type} (dflt : β) (m : String → Option β)
    (key k : String) (hk : m k ≠ none) : (ConfigFile.mapIndex dflt m key).2 k = m k := by
  unfold ConfigFile.mapIndex
  cases h : m key with
  | some v => simp
  | none =>
    by_cases hkk : k = key
    · exact absurd (hkk ▸ h) hk
    · simp [mapAssign, hkk]

theorem copyDataKey_snd (s : ConfigFile × List (String × Var)) (x : DataKey) :
    (ConfigFile.copyDataKey s x).2 = setProperty s.2 x.keyString (s.1.valueVar x) := by
  unfold ConfigFile.copyDataKey ConfigFile.valueVar
  cases hx : x.dataType <;> simp [mapIndex_fst_getD]

theorem copyDataKey_valueVar (s : ConfigFile × List (String × Var)) (x d : DataKey) :
    (ConfigFile.copyDataKey s x).1.valueVar d = s.1.valueVar d := by
  unfold ConfigFile.copyDataKey ConfigFile.valueVar
  cases hx : x.dataType <;> cases hd : d.dataType <;> simp [mapIndex_snd_getD]

theorem copyDataKey_pending (s : ConfigFile × List (String × Var)) (x : DataKey) :
    (ConfigFile.copyDataKey s x).1.fileChangesPending = s.1.fileChangesPending := by
  unfold ConfigFile.copyDataKey
  cases hx : x.dataType <;> rfl

theorem keepsEntries_refl (f : ConfigFile) : f.keepsEntries f :=
  fun _ => ⟨fun _ => rfl, fun _ => rfl, fun _ => rfl, fun _ => rfl⟩

theorem keepsEntries_trans (f g h : ConfigFile) (hfg : f.keepsEntries g)
    (hgh : g.keepsEntries h) : f.keepsEntries h := by
  intro k
  obtain ⟨a1, a2, a3, a4⟩ := hfg k
  obtain ⟨b1, b2, b3, b4⟩ := hgh k
  refine ⟨fun hk => ?_, fun hk => ?_, fun hk => ?_, fun hk => ?_⟩
  · rw [b1 (by rw [a1 hk]; exact hk), a1 hk]
  · rw [b2 (by rw [a2 hk]; exact hk), a2 hk]
  · rw [b3 (by rw [a3 hk]; exact hk), a3 hk]
  · rw [b4 (by rw [a4 hk]; exact hk), a4 hk]

theorem copyDataKey_keepsEntries (s : ConfigFile × List (String × Var)) (x : DataKey) :
    s.1.keepsEntries (ConfigFile.copyDataKey s x).1 := by
  intro k
  unfold ConfigFile.copyDataKey
  cases hx : x.dataType <;>
    exact ⟨fun hk => by first | rfl | exact mapIndex_snd_of_ne_none _ _ _ _ hk,
      fun hk => by first | rfl | exact mapIndex_snd_of_ne_none _ _ _ _ hk,
      fun hk => by first | rfl | exact mapIndex_snd_of_ne_none _ _ _ _ hk,
      fun hk => by first | rfl | exact mapIndex_snd_of_ne_none _ _ _ _ hk⟩

theorem copyDataToJson_cons (x : DataKey) (rest : List DataKey) (f : ConfigFile)
    (obj : List (String × Var)) :
    ConfigFile.copyDataToJson (x :: rest) f obj
      = ConfigFile.copyDataToJson rest (ConfigFile.copyDataKey (f, obj) x).1
          (ConfigFile.copyDataKey (f, obj) x).2 := by
  unfold ConfigFile.copyDataToJson
  rfl

theorem copyDataToJson_valueVar (dataKeys : List DataKey) (f : ConfigFile)
    (obj : List (String × Var)) (d : DataKey) :
    (ConfigFile.copyDataToJson dataKeys f obj).1.valueVar d = f.valueVar d := by
  induction dataKeys generalizing f obj with
  | nil => rfl
  | cons x rest ih => rw [copyDataToJson_cons, ih, copyDataKey_valueVar]

theorem copyDataToJson_pending (dataKeys : List DataKey) (f : ConfigFile)
    (obj : List (String × Var)) :
    (ConfigFile.copyDataToJson dataKeys f obj).1.fileChangesPending
      = f.fileChangesPending := by
  induction dataKeys generalizing f obj with
  | nil => rfl
  | cons x rest ih => rw [copyDataToJson_cons, ih, copyDataKey_pending]

theorem copyDataToJson_keepsEntries (dataKeys : List DataKey) (f : ConfigFile)
    (obj : List (String × Var)) :
    f.keepsEntries (ConfigFile.copyDataToJson dataKeys f obj).1 := by
  induction dataKeys generalizing f obj with
  | nil => exact keepsEntries_refl f
  | cons x rest ih =>
    rw [copyDataToJson_cons]
    exact keepsEntries_trans _ _ _ (copyDataKey_keepsEntries (f, obj) x) (ih _ _)

theorem copyDataToJson_snd (dataKeys : List DataKey) (f : ConfigFile)
    (obj : List (String × Var)) :
    (ConfigFile.copyDataToJson dataKeys f obj).2
      = setProperties obj (dataKeys.map (fun d => (d.keyString, f.valueVar d))) := by
  induction dataKeys generalizing f obj with
  | nil => rfl
  | cons x rest ih =>
    rw [copyDataToJson_cons, ih, copyDataKey_snd]
    have hf : (fun d : DataKey => (d.keyString, (ConfigFile.copyDataKey (f, obj) x).1.valueVar d))
        = (fun d : DataKey => (d.keyString, f.valueVar d)) := by
      funext d
      rw [copyDataKey_valueVar]
    rw [hf]
    rfl

theorem getWithDefault_setProperty (obj : List (String × Var)) (n m : String)
    (v dflt : Var) :
    Var.getWithDefault (setProperty obj n v) m dflt
      = if m = n then v else Var.getWithDefault obj m dflt := by
  induction obj with
  | nil =>
    by_cases h : m = n
    · simp [setProperty, Var.getWithDefault, h]
    · have h2 : ¬ n = m := fun e => h e.symm
      simp [setProperty, Var.getWithDefault, h, h2]
  | cons p rest ih =>
    obtain ⟨a, w⟩ := p
    by_cases han : a = n
    · by_cases h : m = n
      · simp [setProperty, Var.getWithDefault, han, h]
      · have h2 : ¬ n = m := fun e => h e.symm
        simp [setProperty, Var.getWithDefault, han, h, h2]
    · by_cases ham : a = m
      · have h : ¬ m = n := fun e => han (ham.trans e)
        simp [setProperty, Var.getWithDefault, han, ham, h]
      · simp [setProperty, Var.getWithDefault, han, ham, ih]

theorem setProperty_of_not_mem (obj : List (String × Var)) (n : String) (v : Var)
    (h : n ∉ obj.map Prod.fst) : setProperty obj n v = obj ++ [(n, v)] := by
  induction obj with
  | nil => rfl
  | cons p rest ih =>
    obtain ⟨a, w⟩ := p
    simp only [List.map_cons, List.mem_cons, not_or] at h
    have han : ¬ a = n := fun e => h.1 e.symm
    simp [setProperty, han, ih h.2]

theorem setProperties_of_nodup (calls obj : List (String × Var))
    (hnodup : (calls.map Prod.fst).Nodup)
    (hdisj : ∀ n ∈ calls.map Prod.fst, n ∉ obj.map Prod.fst) :
    setProperties obj calls = obj ++ calls := by
  induction calls generalizing obj with
  | nil => simp [setProperties]
  | cons p rest ih =>
    obtain ⟨n, v⟩ := p
    simp only [List.map_cons, List.nodup_cons] at hnodup
    have hn : n ∉ obj.map Prod.fst := hdisj n (by simp)
    have hstep : setProperties obj ((n, v) :: rest)
        = setProperties (setProperty obj n v) rest := rfl
    rw [hstep, setProperty_of_not_mem obj n v hn, ih _ hnodup.2]
    · simp
    · intro m hm
      simp only [List.map_append, List.map_cons, List.map_nil, List.mem_append,
        List.mem_singleton, not_or]
      refine ⟨hdisj m (by simp [hm]), ?_⟩
      rintro rfl
      exact hnodup.1 hm

theorem getWithDefault_setProperties_of_eq (calls obj : List (String × Var)) (n : String)
    (v dflt : Var) (hobj : Var.getWithDefault obj n dflt = v)
    (hfun : ∀ p ∈ calls, p.1 = n → p.2 = v) :
    Var.getWithDefault (setProperties obj calls) n dflt = v := by
  induction calls generalizing obj with
  | nil => exact hobj
  | cons p rest ih =>
    have hstep : setProperties obj (p :: rest)
        = setProperties (setProperty obj p.1 p.2) rest := rfl
    rw [hstep]
    apply ih
    · rw [getWithDefault_setProperty]
      by_cases h : n = p.1
      · simp [h, hfun p (by simp) h.symm]
      · simp [h, hobj]
    · intro q hq
      exact hfun q (List.mem_cons_of_mem _ hq)

theorem getWithDefault_setProperties_of_mem (calls obj : List (String × Var)) (n : String)
    (v dflt : Var) (hmem : (n, v) ∈ calls) (hfun : ∀ p ∈ calls, p.1 = n → p.2 = v) :
    Var.getWithDefault (setProperties obj calls) n dflt = v := by
  induction calls generalizing obj with
  | nil => cases hmem
  | cons p rest ih =>
    have hstep : setProperties obj (p :: rest)
        = setProperties (setProperty obj p.1 p.2) rest := rfl
    have hrest : ∀ q ∈ rest, q.1 = n → q.2 = v :=
      fun q hq => hfun q (List.mem_cons_of_mem _ hq)
    rw [hstep]
    rcases List.mem_cons.mp hmem with hp | hin
    · apply getWithDefault_setProperties_of_eq _ _ _ _ _ _ hrest
      rw [getWithDefault_setProperty, ← hp]
      simp
    · exact ih _ hin hrest

theorem getWithDefault_setProperties_of_not_mem (calls obj : List (String × Var))
    (n : String) (dflt : Var) (hn : n ∉ calls.map Prod.fst) :
    Var.getWithDefault (setProperties obj calls) n dflt = Var.getWithDefault obj n dflt :=
  getWithDefault_setProperties_of_eq calls obj n _ dflt rfl
    (fun p hp hpn => absurd (List.mem_map.mpr ⟨p, hp, hpn⟩) hn)

/-- C9: `copyDataToJson` makes, in order, one `setProperty` call per `DataKey` of
`getDataKeys`, named by the key and holding the value that the map of the key's
declared type reads for it, and nothing else: a name that is no key keeps its property
as it was, and on a new object, for keys with distinct names, the properties of the
result are exactly these (name, value) pairs. -/
theorem copyDataToJson_properties (dataKeys : List DataKey) (f : ConfigFile)
    (jsonObj : List (String × Var)) :
    (ConfigFile.copyDataToJson dataKeys f jsonObj).2
        = setProperties jsonObj (dataKeys.map (fun d => (d.keyString, f.valueVar d)))
      ∧ (∀ name dflt, name ∉ dataKeys.map DataKey.keyString →
          Var.getWithDefault (ConfigFile.copyDataToJson dataKeys f jsonObj).2 name dflt
            = Var.getWithDefault jsonObj name dflt)
      ∧ ((dataKeys.map DataKey.keyString).Nodup →
          (ConfigFile.copyDataToJson dataKeys f []).2
            = dataKeys.map (fun d => (d.keyString, f.valueVar d))) := by
  refine ⟨copyDataToJson_snd dataKeys f jsonObj, ?_, ?_⟩
  · intro name dflt hname
    rw [copyDataToJson_snd]
    apply getWithDefault_setProperties_of_not_mem
    simpa [List.map_map, Function.comp_def] using hname
  · intro hnodup
    rw [copyDataToJson_snd, setProperties_of_nodup]
    · simp
    · simpa [List.map_map, Function.comp_def] using hnodup
    · intro n _
      simp

/-- Witness of C9: the store of the scenario of the specification, serialised. -/
theorem copyDataToJson_properties_witness :
    (mainKeys.map DataKey.keyString).Nodup
      ∧ (ConfigFile.copyDataToJson mainKeys mainStore []).2
        = [("maxRows", Var.int 3), ("theme", Var.string "light")] :=
  ⟨by decide, ((copyDataToJson_properties mainKeys mainStore []).2.2 (by decide)).trans rfl⟩

theorem valueVar_isVoid (f : ConfigFile) (d : DataKey) : (f.valueVar d).isVoid = false := by
  unfold ConfigFile.valueVar
  cases hd : d.dataType <;> rfl

theorem copyDataToJson_getProperty (dataKeys : List DataKey) (f : ConfigFile)
    (jsonObj : List (String × Var)) (dflt : Var)
    (hschema : ∀ a ∈ dataKeys, ∀ b ∈ dataKeys,
      a.keyString = b.keyString → a.dataType = b.dataType)
    (d : DataKey) (hd : d ∈ dataKeys) :
    (Var.object (ConfigFile.copyDataToJson dataKeys f jsonObj).2).getProperty
      d.keyString dflt = f.valueVar d := by
  rw [copyDataToJson_snd]
  show Var.getWithDefault _ d.keyString dflt = f.valueVar d
  apply getWithDefault_setProperties_of_mem
  · exact List.mem_map.mpr ⟨d, hd, rfl⟩
  · intro p hp hpn
    obtain ⟨e, he, rfl⟩ := List.mem_map.mp hp
    have hk : e.keyString = d.keyString := hpn
    have ht : e.dataType = d.dataType := hschema e he d hd hk
    have : e = d := by
      cases e; cases d
      simp_all
    rw [this]

theorem holds_valueVar_sameEntry (J : VarLib) (f g : ConfigFile) (d : DataKey)
    (hv : f.hasValue d) (hh : g.holds J d (f.valueVar d)) : f.sameEntry g d := by
  unfold ConfigFile.hasValue at hv
  unfold ConfigFile.holds ConfigFile.valueVar at hh
  unfold ConfigFile.sameEntry
  cases hd : d.dataType <;> simp only [hd] at hv hh ⊢
  · cases hx : f.stringValues d.keyString with
    | none => exact absurd hx hv
    | some x => simpa [hx, Var.toString] using hh
  · cases hx : f.intValues d.keyString with
    | none => exact absurd hx hv
    | some x => simpa [hx, Var.toInt] using hh
  · cases hx : f.boolValues d.keyString with
    | none => exact absurd hx hv
    | some x => simpa [hx, Var.toBool] using hh
  · cases hx : f.doubleValues d.keyString with
    | none => exact absurd hx hv
    | some x => simpa [hx, Var.toDouble] using hh

/-- C8: for a schema in which a key string has one declared type, and a store that
holds a value for each key of it, `copyDataToJson` followed by `readDataFromJson` of
the resulting object into any store gives every key of the schema the entry it had. -/
theorem copyDataToJson_readDataFromJson_roundtrip (J : VarLib) (asset : Var)
    (dataKeys : List DataKey) (f : ConfigFile) (jsonObj : List (String × Var))
    (s : ReadState)
    (hschema : ∀ a ∈ dataKeys, ∀ b ∈ dataKeys,
      a.keyString = b.keyString → a.dataType = b.dataType)
    (hvalues : ∀ d ∈ dataKeys, f.hasValue d) :
    ∀ d ∈ dataKeys,
      f.sameEntry
        (ConfigFile.readDataFromJson J asset dataKeys
          (Var.object (ConfigFile.copyDataToJson dataKeys f jsonObj).2) s).file d := by
  intro d hd
  apply holds_valueVar_sameEntry J f _ d (hvalues d hd)
  have hget := copyDataToJson_getProperty dataKeys f jsonObj Var.void hschema d hd
  have h := readDataFromJson_holds J asset
    (Var.object (ConfigFile.copyDataToJson dataKeys f jsonObj).2) dataKeys s d hd
  unfold resolvedProperty ConfigFile.propertyExists at h
  rw [hget] at h
  simpa [valueVar_isVoid] using h

theorem mainKeys_one_type :
    ∀ a ∈ mainKeys, ∀ b ∈ mainKeys, a.keyString = b.keyString → a.dataType = b.dataType := by
  decide

theorem mainStore_hasValue : ∀ d ∈ mainKeys, mainStore.hasValue d := by
  intro d hd
  simp only [mainKeys, List.mem_cons, List.mem_singleton, List.mem_nil_iff, or_false] at hd
  rcases hd with rfl | rfl
  · simp [ConfigFile.hasValue, mainStore, mapAssign]
  · simp [ConfigFile.hasValue, mainStore, mapAssign]

/-- Witness of C8: the store of the scenario, serialised and read into an empty store,
gives `maxRows` its 3 again. -/
theorem copyDataToJson_readDataFromJson_roundtrip_witness :
    (∀ a ∈ mainKeys, ∀ b ∈ mainKeys, a.keyString = b.keyString → a.dataType = b.dataType)
      ∧ (∀ d ∈ mainKeys, mainStore.hasValue d)
      ∧ (ConfigFile.readDataFromJson VarLib.unused mainDefaults mainKeys
          (Var.object (ConfigFile.copyDataToJson mainKeys mainStore []).2)
          { file := ConfigFile.empty, defaultConfig := Var.void, assetLoads := 0 }
          ).file.intValues "maxRows" = mainStore.intValues "maxRows" :=
  ⟨mainKeys_one_type, mainStore_hasValue,
    copyDataToJson_readDataFromJson_roundtrip VarLib.unused mainDefaults mainKeys mainStore []
      { file := ConfigFile.empty, defaultConfig := Var.void, assetLoads := 0 }
      mainKeys_one_type mainStore_hasValue
      { keyString := "maxRows", dataType := .intType } (by simp [mainKeys])⟩

/-- C6: for a store with pending changes, `writeChanges` leaves the flag set (and shows
the alert) when `replaceWithText` fails and clears it when the write succeeds; either
way every entry of the value maps is kept and every key reads as before. -/
theorem writeChanges_dirty (dataKeys : List DataKey) (fs : FileAnswers) (f : ConfigFile)
    (hdirty : f.fileChangesPending = true) :
    ((ConfigFile.writeChanges dataKeys fs f).file.fileChangesPending = !fs.replaceOk)
      ∧ ((ConfigFile.writeChanges dataKeys fs f).alertShown = !fs.replaceOk)
      ∧ f.keepsEntries (ConfigFile.writeChanges dataKeys fs f).file
      ∧ (∀ d : DataKey, (ConfigFile.writeChanges dataKeys fs f).file.valueVar d
          = f.valueVar d) := by
  have hp := copyDataToJson_pending dataKeys f []
  have hk := copyDataToJson_keepsEntries dataKeys f []
  have hv := copyDataToJson_valueVar dataKeys f []
  refine ⟨?_, ?_, ?_, ?_⟩
  · cases hok : fs.replaceOk <;> simp [ConfigFile.writeChanges, hdirty, hok, hp]
  · cases hok : fs.replaceOk <;> simp [ConfigFile.writeChanges, hdirty, hok]
  · cases hok : fs.replaceOk <;>
      simp only [ConfigFile.writeChanges, hdirty, hok, Bool.not_true, Bool.not_false,
        Bool.false_eq_true, if_false, if_true] <;>
      exact hk
  · cases hok : fs.replaceOk <;>
      simp only [ConfigFile.writeChanges, hdirty, hok, Bool.not_true, Bool.not_false,
        Bool.false_eq_true, if_false, if_true] <;>
      exact hv

/-- Witness of C6: the store of the scenario, when the write fails. -/
theorem writeChanges_dirty_witness :
    mainStore.fileChangesPending = true
      ∧ (ConfigFile.writeChanges mainKeys { fileExists := true, replaceOk := false }
          mainStore).file.fileChangesPending = true :=
  ⟨rfl, (writeChanges_dirty mainKeys { fileExists := true, replaceOk := false } mainStore
    rfl).1⟩

/-- C7: without pending changes `writeChanges` makes no call on the file, shows no
alert and returns the store as it was. -/
theorem writeChanges_clean (dataKeys : List DataKey) (fs : FileAnswers) (f : ConfigFile)
    (hclean : f.fileChangesPending = false) :
    (ConfigFile.writeChanges dataKeys fs f).fileOps = []
      ∧ (ConfigFile.writeChanges dataKeys fs f).file = f
      ∧ (ConfigFile.writeChanges dataKeys fs f).alertShown = false := by
  unfold ConfigFile.writeChanges
  simp [hclean]

/-- Witness of C7: an empty store without pending changes, no file on disk. -/
theorem writeChanges_clean_witness :
    ConfigFile.empty.fileChangesPending = false
      ∧ (ConfigFile.writeChanges mainKeys { fileExists := false, replaceOk := true }
          ConfigFile.empty).fileOps = [] :=
  ⟨rfl, (writeChanges_clean mainKeys { fileExists := false, replaceOk := true }
    ConfigFile.empty rfl).1⟩

/-! ## Listeners: `addListener`, `removeListener` and `notifyListeners` -/

theorem mem_addIfNotAlreadyThere {α : Type} [DecidableEq α] (xs : List α) (x y : α) :
    y ∈ addIfNotAlreadyThere xs x ↔ y ∈ xs ∨ y = x := by
  unfold addIfNotAlreadyThere
  by_cases h : x ∈ xs
  · simp only [h, if_true]
    constructor
    · exact Or.inl
    · rintro (hy | rfl)
      · exact hy
      · exact h
  · simp [h]

theorem mem_removeAllInstancesOf {α : Type} [DecidableEq α] (xs : List α) (x y : α) :
    y ∈ removeAllInstancesOf xs x ↔ y ∈ xs ∧ y ≠ x := by
  simp [removeAllInstancesOf]

theorem nodup_addIfNotAlreadyThere {α : Type} [DecidableEq α] (xs : List α) (x : α)
    (h : xs.Nodup) : (addIfNotAlreadyThere xs x).Nodup := by
  unfold addIfNotAlreadyThere
  by_cases hx : x ∈ xs
  · simpa [hx] using h
  · simp only [hx, if_false]
    rw [List.nodup_append]
    refine ⟨h, List.nodup_singleton x, ?_⟩
    intro a ha hb
    rw [List.mem_singleton] at hb
    exact hx (hb ▸ ha)

theorem nodup_removeAllInstancesOf {α : Type} [DecidableEq α] (xs : List α) (x : α)
    (h : xs.Nodup) : (removeAllInstancesOf xs x).Nodup :=
  h.filter _

theorem addIfNotAlreadyThere_idem {α : Type} [DecidableEq α] (xs : List α) (x : α) :
    addIfNotAlreadyThere (addIfNotAlreadyThere xs x) x = addIfNotAlreadyThere xs x := by
  unfold addIfNotAlreadyThere
  by_cases h : x ∈ xs
  · simp [h]
  · simp [h]

theorem removeAllInstancesOf_idem {α : Type} [DecidableEq α] (xs : List α) (x : α) :
    removeAllInstancesOf (removeAllInstancesOf xs x) x = removeAllInstancesOf xs x := by
  simp [removeAllInstancesOf, List.filter_filter]

theorem mem_mergeArray (xs other : List String) (k : String) :
    k ∈ mergeArray xs other ↔ k ∈ xs ∨ k ∈ other := by
  unfold mergeArray
  induction other generalizing xs with
  | nil => simp
  | cons o rest ih =>
    rw [List.foldl_cons, ih, mem_addIfNotAlreadyThere, List.mem_cons]
    tauto

theorem stdMapFind_assign {β : Type} (m : List (Nat × β)) (key : Nat) (value : β)
    (k : Nat) :
    stdMapFind (stdMapAssign m key value) k
      = if key = k then some value else stdMapFind m k := by
  induction m with
  | nil => simp [stdMapAssign, stdMapFind]
  | cons e rest ih =>
    obtain ⟨a, v⟩ := e
    unfold stdMapAssign
    by_cases h1 : key < a
    · simp [h1, stdMapFind]
    · by_cases h2 : a = key
      · subst h2
        by_cases h3 : a = k
        · simp [stdMapFind, h3]
        · simp [stdMapFind, h3]
      · rw [if_neg h1, if_neg h2]
        by_cases h3 : a = k
        · have h4 : ¬ key = k := fun e => h2 (h3.trans e.symm)
          rw [if_neg h4]
          simp [stdMapFind, h3]
        · simp only [stdMapFind, if_neg h3]
          exact ih

theorem stdMapFind_erase {β : Type} (m : List (Nat × β)) (key k : Nat) :
    stdMapFind (stdMapErase m key) k = if key = k then none else stdMapFind m k := by
  unfold stdMapErase
  induction m with
  | nil => simp [stdMapFind]
  | cons e rest ih =>
    obtain ⟨a, v⟩ := e
    by_cases h2 : a = key
    · rw [List.filter_cons_of_neg (by simp [h2]), ih]
      by_cases h3 : key = k
      · simp [h3]
      · have h4 : ¬ a = k := fun e => h3 (h2.symm.trans e)
        simp [h3, stdMapFind, h4]
    · rw [List.filter_cons_of_pos (by simp [h2])]
      by_cases h3 : a = k
      · have h4 : ¬ key = k := fun e => h2 (h3.trans e.symm)
        simp [stdMapFind, h3, h4]
      · simp only [stdMapFind, if_neg h3]
        exact ih

/-- The loops of `addListener` and `removeListener`: each key of the list gets `g` of
the array it had, every other array stays. -/
theorem foldl_setAt2 (g : List Nat → List Nat) (hg : ∀ xs, g (g xs) = g xs) (c : Nat)
    (keys : List String) (F : Nat → String → List Nat) (c1 : Nat) (k : String) :
    (keys.foldl (fun (G : Nat → String → List Nat) key => setAt2 G c key (g (G c key))) F) c1 k
      = if c1 = c ∧ k ∈ keys then g (F c k) else F c1 k := by
  induction keys generalizing F with
  | nil => simp
  | cons x rest ih =>
    rw [List.foldl_cons, ih]
    by_cases hc : c1 = c
    · subst hc
      by_cases hx : k = x
      · subst hx
        by_cases hr : k ∈ rest
        · simp [hr, setAt2, setAt, hg]
        · simp [hr, setAt2, setAt]
      · by_cases hr : k ∈ rest
        · simp [hr, hx, setAt2, setAt]
        · simp [hr, hx, setAt2, setAt]
    · simp [hc, setAt2, setAt]

theorem addListener_loop (c l : Nat) (keys : List String) (v : ListenerWorld) :
    keys.foldl
        (fun (u : ListenerWorld) key =>
          { u with
            keyListeners :=
              setAt2 u.keyListeners c key (addIfNotAlreadyThere (u.keyListeners c key) l) })
        v
      = { v with
          keyListeners :=
            keys.foldl
              (fun (G : Nat → String → List Nat) key =>
                setAt2 G c key ((fun xs => addIfNotAlreadyThere xs l) (G c key)))
              v.keyListeners } := by
  induction keys generalizing v with
  | nil => rfl
  | cons x rest ih => rw [List.foldl_cons, ih]; rfl

theorem removeListener_loop (c l : Nat) (keys : List String) (v : ListenerWorld) :
    keys.foldl
        (fun (u : ListenerWorld) key =>
          { u with
            keyListeners :=
              setAt2 u.keyListeners c key (removeAllInstancesOf (u.keyListeners c key) l)
            notificationQueue :=
              setAt2 u.notificationQueue c key
                (removeAllInstancesOf (u.notificationQueue c key) l) })
        v
      = { v with
          keyListeners :=
            keys.foldl
              (fun (G : Nat → String → List Nat) key =>
                setAt2 G c key ((fun xs => removeAllInstancesOf xs l) (G c key)))
              v.keyListeners
          notificationQueue :=
            keys.foldl
              (fun (G : Nat → String → List Nat) key =>
                setAt2 G c key ((fun xs => removeAllInstancesOf xs l) (G c key)))
              v.notificationQueue } := by
  induction keys generalizing v with
  | nil => rfl
  | cons x rest ih => rw [List.foldl_cons, ih]; rfl

theorem addListener_keyListeners (c l : Nat) (tracked : List String) (w : ListenerWorld)
    (c1 : Nat) (k : String) :
    (w.addListener c l tracked).keyListeners c1 k
      = if c1 = c ∧ k ∈ tracked then addIfNotAlreadyThere (w.keyListeners c k) l
        else w.keyListeners c1 k := by
  unfold ListenerWorld.addListener
  simp only [addListener_loop]
  exact foldl_setAt2 (fun xs => addIfNotAlreadyThere xs l)
    (fun xs => addIfNotAlreadyThere_idem xs l) c tracked w.keyListeners c1 k

theorem addListener_notificationQueue (c l : Nat) (tracked : List String)
    (w : ListenerWorld) :
    (w.addListener c l tracked).notificationQueue = w.notificationQueue := by
  unfold ListenerWorld.addListener
  simp only [addListener_loop]

theorem addListener_notified (c l : Nat) (tracked : List String) (w : ListenerWorld) :
    (w.addListener c l tracked).notified = w.notified := by
  unfold ListenerWorld.addListener
  simp only [addListener_loop]

theorem addListener_trackedKeys (c l : Nat) (tracked : List String) (w : ListenerWorld)
    (l1 c1 : Nat) :
    (w.addListener c l tracked).trackedKeys l1 c1
      = if l1 = l ∧ c1 = c then mergeArray (w.trackedKeys l c) tracked
        else w.trackedKeys l1 c1 := by
  unfold ListenerWorld.addListener
  simp only [addListener_loop]
  unfold ListenerWorld.trackedKeys
  by_cases hl : l1 = l
  · subst hl
    by_cases hc : c1 = c
    · subst hc
      simp [setAt, stdMapFind_assign]
    · have hc2 : ¬ c = c1 := fun e => hc e.symm
      simp [setAt, stdMapFind_assign, hc, hc2]
  · simp [setAt, hl]

theorem removeListener_keyListeners (c l : Nat) (w : ListenerWorld) (c1 : Nat)
    (k : String) :
    (w.removeListener c l).keyListeners c1 k
      = if c1 = c ∧ k ∈ w.trackedKeys l c then removeAllInstancesOf (w.keyListeners c k) l
        else w.keyListeners c1 k := by
  unfold ListenerWorld.removeListener
  simp only [removeListener_loop]
  exact foldl_setAt2 (fun xs => removeAllInstancesOf xs l)
    (fun xs => removeAllInstancesOf_idem xs l) c (w.trackedKeys l c) w.keyListeners c1 k

theorem removeListener_notificationQueue (c l : Nat) (w : ListenerWorld) (c1 : Nat)
    (k : String) :
    (w.removeListener c l).notificationQueue c1 k
      = if c1 = c ∧ k ∈ w.trackedKeys l c
        then removeAllInstancesOf (w.notificationQueue c k) l
        else w.notificationQueue c1 k := by
  unfold ListenerWorld.removeListener
  simp only [removeListener_loop]
  exact foldl_setAt2 (fun xs => removeAllInstancesOf xs l)
    (fun xs => removeAllInstancesOf_idem xs l) c (w.trackedKeys l c) w.notificationQueue c1 k

theorem removeListener_notified (c l : Nat) (w : ListenerWorld) :
    (w.removeListener c l).notified = w.notified := by
  unfold ListenerWorld.removeListener
  simp only [removeListener_loop]

theorem removeListener_trackedKeys (c l : Nat) (w : ListenerWorld) (l1 c1 : Nat) :
    (w.removeListener c l).trackedKeys l1 c1
      = if l1 = l ∧ c1 = c then [] else w.trackedKeys l1 c1 := by
  unfold ListenerWorld.removeListener
  simp only [removeListener_loop]
  unfold ListenerWorld.trackedKeys
  by_cases hl : l1 = l
  · subst hl
    by_cases hc : c1 = c
    · subst hc
      simp [setAt, stdMapFind_erase]
    · have hc2 : ¬ c = c1 := fun e => hc e.symm
      simp [setAt, stdMapFind_erase, hc, hc2]
  · simp [setAt, hl]

theorem consistent_run (w : ListenerWorld)
    (h : ∀ c l k, l ∈ w.keyListeners c k ↔ k ∈ w.trackedKeys l c) (e : ListenerCall) :
    ∀ c l k, l ∈ (e.run w).keyListeners c k ↔ k ∈ (e.run w).trackedKeys l c := by
  intro c1 l1 k
  cases e with
  | add c l tracked =>
    simp only [ListenerCall.run]
    rw [addListener_keyListeners, addListener_trackedKeys]
    by_cases hc : c1 = c
    · subst hc
      by_cases hk : k ∈ tracked
      · by_cases hl : l1 = l
        · subst hl
          simp [hk, mem_addIfNotAlreadyThere, mem_mergeArray]
        · simp [hk, hl, mem_addIfNotAlreadyThere, h]
      · by_cases hl : l1 = l
        · subst hl
          simp [hk, mem_mergeArray, h]
        · simp [hk, hl, h]
    · simp [hc, h]
  | remove c l =>
    simp only [ListenerCall.run]
    rw [removeListener_keyListeners, removeListener_trackedKeys]
    by_cases hc : c1 = c
    · subst hc
      by_cases hl : l1 = l
      · subst hl
        by_cases hk : k ∈ w.trackedKeys l1 c1
        · simp [hk, mem_removeAllInstancesOf]
        · simp [hk, h]
      · by_cases hk : k ∈ w.trackedKeys l c1
        · simp [hk, hl, mem_removeAllInstancesOf, h]
        · simp [hk, hl, h]
    · simp [hc, h]

theorem consistent_foldl (calls : List ListenerCall) (w : ListenerWorld)
    (h : ∀ c l k, l ∈ w.keyListeners c k ↔ k ∈ w.trackedKeys l c) :
    ∀ c l k, l ∈ (calls.foldl ListenerCall.run w).keyListeners c k
      ↔ k ∈ (calls.foldl ListenerCall.run w).trackedKeys l c := by
  induction calls generalizing w with
  | nil => exact h
  | cons e rest ih => exact ih _ (consistent_run w h e)

theorem listenerWorldAfter_consistent (calls : List ListenerCall) (c l : Nat)
    (k : String) :
    l ∈ (listenerWorldAfter calls).keyListeners c k
      ↔ k ∈ (listenerWorldAfter calls).trackedKeys l c := by
  unfold listenerWorldAfter
  apply consistent_foldl
  intro c l k
  simp [ListenerWorld.initial, ListenerWorld.trackedKeys, stdMapFind]

/-- C5: in every state reached by `addListener` and `removeListener` calls, a listener
is in the listener list of a `ConfigFile` for a key exactly when the key is in the key
list that the listener records for that `ConfigFile`. -/
theorem keyListeners_iff_trackedKeys (calls : List ListenerCall) (c l : Nat) (k : String) :
    l ∈ (listenerWorldAfter calls).keyListeners c k
      ↔ k ∈ (listenerWorldAfter calls).trackedKeys l c :=
  listenerWorldAfter_consistent calls c l k

theorem tidy_run (w : ListenerWorld)
    (h : ∀ c k, (w.keyListeners c k).Nodup ∧ w.notificationQueue c k = [])
    (e : ListenerCall) :
    ∀ c k, ((e.run w).keyListeners c k).Nodup ∧ (e.run w).notificationQueue c k = [] := by
  intro c1 k
  cases e with
  | add c l tracked =>
    simp only [ListenerCall.run]
    rw [addListener_keyListeners, addListener_notificationQueue]
    refine ⟨?_, (h c1 k).2⟩
    split
    · exact nodup_addIfNotAlreadyThere _ _ (h c k).1
    · exact (h c1 k).1
  | remove c l =>
    simp only [ListenerCall.run]
    rw [removeListener_keyListeners, removeListener_notificationQueue]
    constructor
    · split
      · exact nodup_removeAllInstancesOf _ _ (h c k).1
      · exact (h c1 k).1
    · split
      · rw [(h c k).2]; rfl
      · exact (h c1 k).2

theorem tidy_foldl (calls : List ListenerCall) (w : ListenerWorld)
    (h : ∀ c k, (w.keyListeners c k).Nodup ∧ w.notificationQueue c k = []) :
    ∀ c k, ((calls.foldl ListenerCall.run w).keyListeners c k).Nodup
      ∧ (calls.foldl ListenerCall.run w).notificationQueue c k = [] := by
  induction calls generalizing w with
  | nil => exact h
  | cons e rest ih => exact ih _ (tidy_run w h e)

theorem listenerWorldAfter_tidy (calls : List ListenerCall) (c : Nat) (k : String) :
    ((listenerWorldAfter calls).keyListeners c k).Nodup
      ∧ (listenerWorldAfter calls).notificationQueue c k = [] := by
  unfold listenerWorldAfter
  apply tidy_foldl
  intro c k
  simp [ListenerWorld.initial]

theorem reverse_eq_getLast_cons {α : Type} (q : List α) (hq : q ≠ []) :
    q.reverse = q.getLast hq :: q.dropLast.reverse := by
  conv_lhs => rw [← List.dropLast_append_getLast hq]
  simp

theorem notifyLoop_idle (cb : Callback) (hcb : ∀ l k w, cb l k w = w) (c : Nat)
    (key : String) (fuel : Nat) (w : ListenerWorld)
    (hfuel : (w.notificationQueue c key).length ≤ fuel) :
    ∃ w1, ListenerWorld.notifyLoop cb c key fuel w = some w1
      ∧ w1.notified
          = w.notified ++ (w.notificationQueue c key).reverse.map (fun l => (l, key))
      ∧ w1.keyListeners = w.keyListeners ∧ w1.configKeyMap = w.configKeyMap
      ∧ w1.notificationQueue c key = [] := by
  induction fuel generalizing w with
  | zero =>
    have hq : w.notificationQueue c key = [] := List.length_eq_zero.mp (Nat.le_zero.mp hfuel)
    refine ⟨w, ?_, ?_, rfl, rfl, hq⟩
    · unfold ListenerWorld.notifyLoop
      simp [hq]
    · simp [hq]
  | succ n ih =>
    cases hq : w.notificationQueue c key with
    | nil =>
      refine ⟨w, ?_, ?_, rfl, rfl, hq⟩
      · unfold ListenerWorld.notifyLoop
        simp [hq]
      · simp
    | cons x xs =>
      have hne : x :: xs ≠ [] := List.cons_ne_nil x xs
      unfold ListenerWorld.notifyLoop
      simp only [hq, hcb]
      have hlen : (x :: xs).dropLast.length ≤ n := by
        rw [hq] at hfuel
        simp only [List.length_dropLast, List.length_cons] at hfuel ⊢
        omega
      obtain ⟨w1, h1, h2, h3, h4, h5⟩ := ih
        { w with
          notificationQueue := setAt2 w.notificationQueue c key (x :: xs).dropLast
          notified := w.notified ++ [((x :: xs).getLast hne, key)] }
        (by simpa [setAt2, setAt] using hlen)
      refine ⟨w1, h1, ?_, h3, h4, h5⟩
      rw [h2, reverse_eq_getLast_cons (x :: xs) hne]
      simp [setAt2, setAt]

theorem count_map_pair (key : String) (xs : List Nat) (l : Nat) :
    (xs.map (fun a => (a, key))).count (l, key) = xs.count l := by
  induction xs with
  | nil => rfl
  | cons a rest ih =>
    by_cases h : a = l
    · subst h
      simp [ih]
    · have h1 : ¬ l = a := fun e => h e.symm
      have h2 : ¬ (l, key) = (a, key) := fun e => h1 (congrArg Prod.fst e)
      rw [List.map_cons, List.count_cons_of_ne h2, List.count_cons_of_ne h1, ih]

/-- C2: in a state reached by `addListener` and `removeListener` calls, with callbacks
that leave the listener data alone, `notifyListeners (key)` ends and calls
`configValueChanged (key)` once on each listener that tracks `key` for this
`ConfigFile`, not at all on any other listener, and with no other key. -/
theorem notifyListeners_once_per_subscriber (cb : Callback)
    (hcb : ∀ l k w, cb l k w = w) (calls : List ListenerCall) (c : Nat) (key : String)
    (fuel : Nat)
    (hfuel : ((listenerWorldAfter calls).keyListeners c key).length ≤ fuel) :
    ∃ w1 log,
      (listenerWorldAfter calls).notifyListeners cb c key fuel = some w1
        ∧ w1.notified = (listenerWorldAfter calls).notified ++ log
        ∧ (∀ l, log.count (l, key)
            = if key ∈ (listenerWorldAfter calls).trackedKeys l c then 1 else 0)
        ∧ (∀ l k, (l, k) ∈ log → k = key) := by
  obtain ⟨hnodup, hqueue⟩ := listenerWorldAfter_tidy calls c key
  have hq : ({ listenerWorldAfter calls with
        notificationQueue :=
          setAt2 (listenerWorldAfter calls).notificationQueue c key
            ((listenerWorldAfter calls).notificationQueue c key
              ++ (listenerWorldAfter calls).keyListeners c key) } : ListenerWorld
      ).notificationQueue c key = (listenerWorldAfter calls).keyListeners c key := by
    simp [setAt2, setAt, hqueue]
  obtain ⟨w1, h1, h2, -, -, -⟩ := notifyLoop_idle cb hcb c key fuel
    { listenerWorldAfter calls with
      notificationQueue :=
        setAt2 (listenerWorldAfter calls).notificationQueue c key
          ((listenerWorldAfter calls).notificationQueue c key
            ++ (listenerWorldAfter calls).keyListeners c key) }
    (by rw [hq]; exact hfuel)
  rw [hq] at h2
  refine ⟨w1, _, h1, h2, ?_, ?_⟩
  · intro l
    rw [count_map_pair, List.count_reverse, List.count_eq_of_nodup hnodup]
    by_cases hl : l ∈ (listenerWorldAfter calls).keyListeners c key
    · simp [hl, (listenerWorldAfter_consistent calls c l key).mp hl]
    · have : key ∉ (listenerWorldAfter calls).trackedKeys l c :=
        fun hk => hl ((listenerWorldAfter_consistent calls c l key).mpr hk)
      simp [hl, this]
  · intro l k hmem
    obtain ⟨a, -, ha⟩ := List.mem_map.mp hmem
    exact (congrArg Prod.snd ha).symm

/-- Witness of C2: key `a` of the sample subscriptions, with idle callbacks. -/
theorem notifyListeners_once_per_subscriber_witness :
    (∀ l k w, idleCallback l k w = w)
      ∧ ((listenerWorldAfter sampleCalls).keyListeners 0 "a").length ≤ 2
      ∧ ∃ w1 log,
          (listenerWorldAfter sampleCalls).notifyListeners idleCallback 0 "a" 2 = some w1
            ∧ w1.notified = (listenerWorldAfter sampleCalls).notified ++ log
            ∧ (∀ l, log.count (l, "a")
                = if "a" ∈ (listenerWorldAfter sampleCalls).trackedKeys l 0 then 1 else 0)
            ∧ (∀ l k, (l, k) ∈ log → k = "a") :=
  ⟨fun _ _ _ => rfl, by decide,
    notifyListeners_once_per_subscriber idleCallback (fun _ _ _ => rfl) sampleCalls 0 "a" 2
      (by decide)⟩

/-! ## Shared resources: Handler construction and destruction -/

theorem handlersOf_append (hs : List (Nat × String)) (h : Nat) (key k : String) :
    handlersOf (hs ++ [(h, key)]) k = handlersOf hs k ++ (if key = k then [h] else []) := by
  unfold handlersOf
  by_cases hk : key = k
  · simp [List.filter_append, hk]
  · simp [List.filter_append, hk]

theorem handlersOf_remove (hs : List (Nat × String)) (h : Nat) (k : String) :
    handlersOf (hs.filter (fun e => decide (e.1 ≠ h))) k
      = removeAllInstancesOf (handlersOf hs k) h := by
  unfold handlersOf removeAllInstancesOf
  induction hs with
  | nil => rfl
  | cons e rest ih =>
    obtain ⟨a, b⟩ := e
    simp only [ne_eq, decide_not, List.filter_filter] at ih
    by_cases h1 : a = h <;> by_cases h2 : b = k <;> simp [List.filter_cons, h1, h2, ih]

theorem mem_handlersOf (hs : List (Nat × String)) (h : Nat) (k : String) :
    h ∈ handlersOf hs k ↔ (h, k) ∈ hs := by
  unfold handlersOf
  simp only [List.mem_map, List.mem_filter, decide_eq_true_eq]
  constructor
  · rintro ⟨⟨a, b⟩, ⟨hmem, hb⟩, ha⟩
    simp only at hb ha
    subst hb; subst ha
    exact hmem
  · intro hmem
    exact ⟨(h, k), ⟨hmem, rfl⟩, rfl⟩

theorem not_mem_other_key (hs : List (Nat × String)) (hnodup : (hs.map Prod.fst).Nodup)
    (h : Nat) (key k : String) (hmem : (h, key) ∈ hs) (hk : k ≠ key) : (h, k) ∉ hs := by
  intro hmem2
  have := List.inj_on_of_nodup_map hnodup hmem hmem2 rfl
  exact hk (congrArg Prod.snd this).symm

theorem handlersOf_remove_other (hs : List (Nat × String))
    (hnodup : (hs.map Prod.fst).Nodup) (h : Nat) (key k : String) (hmem : (h, key) ∈ hs)
    (hk : k ≠ key) :
    handlersOf (hs.filter (fun e => decide (e.1 ≠ h))) k = handlersOf hs k := by
  rw [handlersOf_remove]
  unfold removeAllInstancesOf
  apply List.filter_eq_self.mpr
  intro a ha
  have hne : a ≠ h := by
    rintro rfl
    exact not_mem_other_key hs hnodup a key k hmem hk ((mem_handlersOf hs a k).mp ha)
  simpa using hne

theorem handlerConstruct_of_some (w : ResourceWorld) (this : Nat) (key : String) (r : Nat)
    (hr : w.resourceMap key = some r) :
    w.handlerConstruct this key
      = { w with
          resourceHandlers :=
            setAt w.resourceHandlers r (addIfNotAlreadyThere (w.resourceHandlers r) this) } := by
  unfold ResourceWorld.handlerConstruct ResourceWorld.getClassResource
  simp only [hr]

theorem handlerConstruct_of_none (w : ResourceWorld) (this : Nat) (key : String)
    (hr : w.resourceMap key = none) :
    w.handlerConstruct this key
      = { resourceMap := setAt w.resourceMap key (some w.nextAddress)
          resourceHandlers := setAt w.resourceHandlers w.nextAddress [this]
          allocated := w.allocated ++ [(w.nextAddress, key)]
          nextAddress := w.nextAddress + 1
          created := w.created ++ [key] } := by
  unfold ResourceWorld.handlerConstruct ResourceWorld.getClassResource
    ResourceWorld.createResource ResourceWorld.construct ResourceWorld.scopedPointerAssign
  simp only [hr]
  congr 1
  funext a
  by_cases ha : a = w.nextAddress
  · simp [setAt, ha, addIfNotAlreadyThere]
  · simp [setAt, ha]

theorem handlerDestroy_of_some (w : ResourceWorld) (this : Nat) (key : String) (r : Nat)
    (hr : w.resourceMap key = some r) :
    w.handlerDestroy this key
      = if (removeAllInstancesOf (w.resourceHandlers r) this).isEmpty then
          some
            { w with
              resourceMap := setAt w.resourceMap key none
              resourceHandlers :=
                setAt w.resourceHandlers r (removeAllInstancesOf (w.resourceHandlers r) this)
              allocated := w.allocated.filter (fun o => decide (o.1 ≠ r)) }
        else
          some
            { w with
              resourceHandlers :=
                setAt w.resourceHandlers r
                  (removeAllInstancesOf (w.resourceHandlers r) this) } := by
  unfold ResourceWorld.handlerDestroy ResourceWorld.getClassResource
    ResourceWorld.scopedPointerAssign
  simp only [hr]
  split <;> simp

theorem tracks_construct (w : ResourceWorld) (hs : List (Nat × String))
    (ht : w.Tracks hs) (h : Nat) (key : String) (hnew : h ∉ hs.map Prod.fst) :
    (w.handlerConstruct h key).Tracks (hs ++ [(h, key)]) := by
  have hnodup : ((hs ++ [(h, key)]).map Prod.fst).Nodup := by
    rw [List.map_append, List.nodup_append]
    refine ⟨ht.nodup, by simp, ?_⟩
    intro a ha hb
    simp only [List.map_cons, List.map_nil, List.mem_singleton] at hb
    exact hnew (hb ▸ ha)
  have hnot : ∀ k, h ∉ handlersOf hs k := fun k hmem =>
    hnew (List.mem_map.mpr ⟨(h, k), (mem_handlersOf hs h k).mp hmem, rfl⟩)
  cases hr : w.resourceMap key with
  | some r =>
    rw [handlerConstruct_of_some w h key r hr]
    refine ⟨hnodup, ?_, ?_, ht.injective, ht.bounded⟩
    · intro k hk a hmem
      rcases List.mem_append.mp hmem with hin | hin
      · exact ht.unregistered k hk a hin
      · simp only [List.mem_singleton, Prod.mk.injEq] at hin
        have hk2 : w.resourceMap k = none := hk
        rw [hin.2, hr] at hk2
        cases hk2
    · intro k r1 hk
      simp only at hk ⊢
      rw [handlersOf_append]
      by_cases hkk : key = k
      · subst hkk
        have hrr : r1 = r := by
          rw [hr] at hk
          exact (Option.some.inj hk).symm
        subst hrr
        have hreg := ht.registered key r1 hr
        refine ⟨?_, by simp⟩
        simp only [setAt, if_true]
        rw [hreg.1]
        unfold addIfNotAlreadyThere
        simp [hnot key]
      · have hrr : r1 ≠ r := fun e => hkk (ht.injective key k r hr (e ▸ hk))
        have hreg := ht.registered k r1 hk
        simp only [setAt, hrr, if_false, hkk, List.append_nil]
        exact hreg
  | none =>
    rw [handlerConstruct_of_none w h key hr]
    refine ⟨hnodup, ?_, ?_, ?_, ?_⟩
    · intro k hk a hmem
      simp only [setAt] at hk
      by_cases hkk : k = key
      · simp [hkk] at hk
      · simp only [hkk, if_false] at hk
        rcases List.mem_append.mp hmem with hin | hin
        · exact ht.unregistered k hk a hin
        · simp only [List.mem_singleton, Prod.mk.injEq] at hin
          exact hkk hin.2
    · intro k r1 hk
      simp only [setAt] at hk ⊢
      rw [handlersOf_append]
      by_cases hkk : k = key
      · subst hkk
        simp only [if_true] at hk
        have hrr : r1 = w.nextAddress := (Option.some.inj hk).symm
        subst hrr
        have hempty : handlersOf hs k = [] := by
          apply List.eq_nil_iff_forall_not_mem.mpr
          intro a ha
          exact ht.unregistered k hr a ((mem_handlersOf hs a k).mp ha)
        simp [hempty]
      · have hkk2 : ¬ key = k := fun e => hkk e.symm
        simp only [hkk, if_false] at hk
        have hlt := ht.bounded k r1 hk
        have hrr : r1 ≠ w.nextAddress := Nat.ne_of_lt hlt
        simp only [hrr, if_false, hkk2, List.append_nil]
        exact ht.registered k r1 hk
    · intro k1 k2 r1 h1 h2
      simp only [setAt] at h1 h2
      by_cases e1 : k1 = key <;> by_cases e2 : k2 = key
      · rw [e1, e2]
      · simp only [e1, if_true, e2, if_false] at h1 h2
        have := ht.bounded k2 r1 h2
        rw [← Option.some.inj h1] at this
        exact absurd this (Nat.lt_irrefl _)
      · simp only [e1, if_false, e2, if_true] at h1 h2
        have := ht.bounded k1 r1 h1
        rw [← Option.some.inj h2] at this
        exact absurd this (Nat.lt_irrefl _)
      · simp only [e1, e2, if_false] at h1 h2
        exact ht.injective k1 k2 r1 h1 h2
    · intro k r1 hk
      simp only [setAt] at hk ⊢
      by_cases hkk : k = key
      · simp only [hkk, if_true] at hk
        rw [← Option.some.inj hk]
        exact Nat.lt_succ_self _
      · simp only [hkk, if_false] at hk
        exact Nat.lt_succ_of_lt (ht.bounded k r1 hk)

theorem tracks_destroy (w : ResourceWorld) (hs : List (Nat × String))
    (ht : w.Tracks hs) (h : Nat) (key : String) (hmem : (h, key) ∈ hs) :
    ∃ w1, w.handlerDestroy h key = some w1
      ∧ w1.Tracks (hs.filter (fun e => decide (e.1 ≠ h))) := by
  have hnodup : ((hs.filter (fun e => decide (e.1 ≠ h))).map Prod.fst).Nodup :=
    (List.filter_sublist hs).map Prod.fst |>.nodup ht.nodup
  cases hr : w.resourceMap key with
  | none => exact absurd hmem (ht.unregistered key hr h)
  | some r =>
    have hreg := ht.registered key r hr
    have hrem : removeAllInstancesOf (w.resourceHandlers r) h
        = handlersOf (hs.filter (fun e => decide (e.1 ≠ h))) key := by
      rw [handlersOf_remove, hreg.1]
    have hother : ∀ k r1, w.resourceMap k = some r1 → k ≠ key →
        w.resourceHandlers r1 = handlersOf (hs.filter (fun e => decide (e.1 ≠ h))) k
          ∧ handlersOf (hs.filter (fun e => decide (e.1 ≠ h))) k ≠ [] := by
      intro k r1 hk hkk
      rw [handlersOf_remove_other hs ht.nodup h key k hmem hkk]
      exact ht.registered k r1 hk
    rw [handlerDestroy_of_some w h key r hr]
    by_cases hempty : (removeAllInstancesOf (w.resourceHandlers r) h).isEmpty = true
    · rw [if_pos hempty]
      refine ⟨_, rfl, hnodup, ?_, ?_, ?_, ?_⟩
      · intro k hk a hin
        simp only [setAt] at hk
        by_cases hkk : k = key
        · subst hkk
          have ha : a ∈ handlersOf (hs.filter (fun e => decide (e.1 ≠ h))) k :=
            (mem_handlersOf _ a k).mpr hin
          rw [← hrem, List.isEmpty_iff.mp hempty] at ha
          cases ha
        · simp only [hkk, if_false] at hk
          exact ht.unregistered k hk a (List.mem_of_mem_filter hin)
      · intro k r1 hk
        simp only [setAt] at hk ⊢
        by_cases hkk : k = key
        · simp [hkk] at hk
        · simp only [hkk, if_false] at hk
          have hrr : r1 ≠ r := fun e => hkk (ht.injective k key r (e ▸ hk) hr)
          simp only [hrr, if_false]
          exact hother k r1 hk hkk
      · intro k1 k2 r1 h1 h2
        simp only [setAt] at h1 h2
        by_cases e1 : k1 = key
        · simp [e1] at h1
        · by_cases e2 : k2 = key
          · simp [e2] at h2
          · simp only [e1, e2, if_false] at h1 h2
            exact ht.injective k1 k2 r1 h1 h2
      · intro k r1 hk
        simp only [setAt] at hk ⊢
        by_cases hkk : k = key
        · simp [hkk] at hk
        · simp only [hkk, if_false] at hk
          exact ht.bounded k r1 hk
    · rw [if_neg hempty]
      refine ⟨_, rfl, hnodup, ?_, ?_, ht.injective, ht.bounded⟩
      · intro k hk a hin
        exact ht.unregistered k hk a (List.mem_of_mem_filter hin)
      · intro k r1 hk
        simp only [setAt] at hk ⊢
        by_cases hkk : k = key
        · subst hkk
          have hrr : r1 = r := by
            have hk2 : w.resourceMap k = some r1 := hk
            rw [hr] at hk2
            exact (Option.some.inj hk2).symm
          subst hrr
          simp only [if_true]
          refine ⟨hrem, ?_⟩
          rw [← hrem]
          intro hnil
          exact hempty (by rw [hnil]; rfl)
        · have hk2 : w.resourceMap k = some r1 := hk
          have hrr : r1 ≠ r := fun e => hkk (ht.injective k key r (e ▸ hk2) hr)
          simp only [hrr, if_false]
          exact hother k r1 hk2 hkk

theorem tracks_initial : ResourceWorld.initial.Tracks [] :=
  { nodup := List.nodup_nil
    unregistered := fun _ _ _ hmem => nomatch hmem
    registered := fun _ _ hr => nomatch hr
    injective := fun _ _ _ hr => nomatch hr
    bounded := fun _ _ hr => nomatch hr }

theorem tracks_run (events : List HandlerEvent) (w : ResourceWorld)
    (hs : List (Nat × String)) (ht : w.Tracks hs)
    (hposs : possibleEvents hs events = true) :
    ∃ w1, runHandlerEvents w events = some w1 ∧ w1.Tracks (handlersAfter hs events) := by
  induction events generalizing w hs with
  | nil => exact ⟨w, rfl, ht⟩
  | cons e rest ih =>
    simp only [possibleEvents, Bool.and_eq_true] at hposs
    obtain ⟨he, hrest⟩ := hposs
    cases e with
    | construct h key =>
      simp only [HandlerEvent.possible, decide_eq_true_eq] at he
      have hstep := tracks_construct w hs ht h key he
      obtain ⟨w1, h1, h2⟩ := ih (w.handlerConstruct h key) _ hstep hrest
      exact ⟨w1, by simpa [runHandlerEvents, HandlerEvent.run] using h1, h2⟩
    | destroy h key =>
      simp only [HandlerEvent.possible, decide_eq_true_eq] at he
      obtain ⟨w0, h0, hstep⟩ := tracks_destroy w hs ht h key he
      obtain ⟨w1, h1, h2⟩ := ih w0 _ hstep hrest
      exact ⟨w1, by simpa [runHandlerEvents, HandlerEvent.run, h0] using h1, h2⟩

/-- C3: after any possible sequence of Handler constructions and destructions, run
from program start, every destructor has found its resource, and for each key a
resource is registered exactly when a Handler of that key exists; its handler list
holds the Handlers of the key that exist. -/
theorem resource_registered_iff_handler_alive (events : List HandlerEvent)
    (hposs : possibleEvents [] events = true) :
    ∃ w, runHandlerEvents ResourceWorld.initial events = some w
      ∧ (∀ key, (w.resourceMap key).isSome = true
          ↔ ∃ h, (h, key) ∈ handlersAfter [] events)
      ∧ (∀ key r, w.resourceMap key = some r →
          w.resourceHandlers r = handlersOf (handlersAfter [] events) key) := by
  obtain ⟨w, hrun, ht⟩ := tracks_run events ResourceWorld.initial [] tracks_initial hposs
  refine ⟨w, hrun, ?_, fun key r hr => (ht.registered key r hr).1⟩
  intro key
  cases hr : w.resourceMap key with
  | none =>
    simp only [Option.isSome_none, Bool.false_eq_true, false_iff, not_exists]
    exact ht.unregistered key hr
  | some r =>
    simp only [Option.isSome_some, true_iff]
    obtain ⟨a, rest, hcons⟩ := List.exists_cons_of_ne_nil (ht.registered key r hr).2
    exact ⟨a, (mem_handlersOf _ a key).mp (by rw [hcons]; exact List.mem_cons_self a rest)⟩

/-- Witness of C3: after the sample events the resource `wifi`, whose Handler exists,
is registered and the resource `theme`, whose Handlers are destroyed, is not. -/
theorem resource_registered_iff_handler_alive_witness :
    possibleEvents [] sampleEvents = true
      ∧ ∃ w, runHandlerEvents ResourceWorld.initial sampleEvents = some w
          ∧ (∀ key, (w.resourceMap key).isSome = true
              ↔ ∃ h, (h, key) ∈ handlersAfter [] sampleEvents)
          ∧ (∀ key r, w.resourceMap key = some r →
              w.resourceHandlers r = handlersOf (handlersAfter [] sampleEvents) key) :=
  ⟨by decide, resource_registered_iff_handler_alive sampleEvents (by decide)⟩

theorem owned_construct (w : ResourceWorld) (ho : w.Owned) (h : Nat) (key : String) :
    (w.handlerConstruct h key).Owned := by
  cases hr : w.resourceMap key with
  | some r =>
    rw [handlerConstruct_of_some w h key r hr]
    exact ⟨ho.nodup, ho.isRegistered, ho.bounded⟩
  | none =>
    rw [handlerConstruct_of_none w h key hr]
    refine ⟨?_, ?_, ?_⟩
    · simp only [List.map_append, List.map_cons, List.map_nil]
      rw [List.nodup_append]
      refine ⟨ho.nodup, List.nodup_singleton _, ?_⟩
      intro a ha hb
      rw [List.mem_singleton] at hb
      obtain ⟨⟨a1, k1⟩, hmem, rfl⟩ := List.mem_map.mp ha
      have := ho.bounded a1 k1 hmem
      simp only at hb
      omega
    · intro a k hmem
      simp only [setAt]
      rcases List.mem_append.mp hmem with hin | hin
      · have hk := ho.isRegistered a k hin
        have hkk : k ≠ key := by
          rintro rfl
          rw [hr] at hk
          cases hk
        simp only [hkk, if_false]
        exact hk
      · simp only [List.mem_singleton, Prod.mk.injEq] at hin
        simp [hin.1, hin.2]
    · intro a k hmem
      simp only
      rcases List.mem_append.mp hmem with hin | hin
      · exact Nat.lt_succ_of_lt (ho.bounded a k hin)
      · simp only [List.mem_singleton, Prod.mk.injEq] at hin
        rw [hin.1]
        exact Nat.lt_succ_self _

theorem owned_destroy (w : ResourceWorld) (ho : w.Owned) (h : Nat) (key : String)
    (w1 : ResourceWorld) (hrun : w.handlerDestroy h key = some w1) : w1.Owned := by
  cases hr : w.resourceMap key with
  | none =>
    unfold ResourceWorld.handlerDestroy ResourceWorld.getClassResource at hrun
    simp [hr] at hrun
  | some r =>
    rw [handlerDestroy_of_some w h key r hr] at hrun
    by_cases hempty : (removeAllInstancesOf (w.resourceHandlers r) h).isEmpty = true
    · rw [if_pos hempty] at hrun
      rw [← Option.some.inj hrun]
      refine ⟨?_, ?_, ?_⟩
      · exact ((List.filter_sublist w.allocated).map Prod.fst).nodup ho.nodup
      · intro a k hmem
        simp only [List.mem_filter, decide_eq_true_eq] at hmem
        have hk := ho.isRegistered a k hmem.1
        have hkk : k ≠ key := by
          rintro rfl
          rw [hr] at hk
          exact hmem.2 (Option.some.inj hk).symm
        simp only [setAt, hkk, if_false]
        exact hk
      · intro a k hmem
        exact ho.bounded a k (List.mem_of_mem_filter hmem)
    · rw [if_neg hempty] at hrun
      rw [← Option.some.inj hrun]
      exact ⟨ho.nodup, ho.isRegistered, ho.bounded⟩

theorem owned_run (events : List HandlerEvent) (w w1 : ResourceWorld) (ho : w.Owned)
    (hrun : runHandlerEvents w events = some w1) : w1.Owned := by
  induction events generalizing w with
  | nil =>
    rw [← Option.some.inj hrun]
    exact ho
  | cons e rest ih =>
    cases e with
    | construct h key =>
      simp only [runHandlerEvents, HandlerEvent.run] at hrun
      exact ih _ (owned_construct w ho h key) hrun
    | destroy h key =>
      simp only [runHandlerEvents, HandlerEvent.run] at hrun
      cases hd : w.handlerDestroy h key with
      | none => simp [hd] at hrun
      | some w0 =>
        simp only [hd] at hrun
        exact ih w0 (owned_destroy w ho h key w0 hd) hrun

theorem owned_initial : ResourceWorld.initial.Owned :=
  { nodup := List.nodup_nil
    isRegistered := fun _ _ hmem => nomatch hmem
    bounded := fun _ _ hmem => nomatch hmem }

theorem owned_at_most_one (w : ResourceWorld) (ho : w.Owned) (key : String) :
    (w.allocated.filter (fun o => decide (o.2 = key))).length ≤ 1 := by
  have hnodup : (w.allocated.filter (fun o => decide (o.2 = key))).Nodup :=
    (List.filter_sublist w.allocated).nodup (List.Nodup.of_map Prod.fst ho.nodup)
  have hsame : ∀ x ∈ w.allocated.filter (fun o => decide (o.2 = key)),
      w.resourceMap key = some x.1 ∧ x.2 = key := by
    intro x hx
    simp only [List.mem_filter, decide_eq_true_eq] at hx
    obtain ⟨a, k⟩ := x
    simp only at hx
    obtain ⟨hmem, rfl⟩ := hx
    exact ⟨ho.isRegistered a k hmem, rfl⟩
  match hl : w.allocated.filter (fun o => decide (o.2 = key)) with
  | [] => rw [hl]; simp
  | [_] => rw [hl]; simp
  | x :: y :: rest =>
    rw [hl] at hnodup hsame
    have hx := hsame x (by simp)
    have hy := hsame y (by simp)
    have hxy : x = y := by
      obtain ⟨a, k⟩ := x
      obtain ⟨b, k2⟩ := y
      simp only at hx hy
      have hab : a = b := by
        have := hx.1.symm.trans hy.1
        exact Option.some.inj this
      rw [hab, hx.2, hy.2]
    rw [hxy] at hnodup
    simp at hnodup

/-- C4: the Handler constructor calls `createResource` exactly when no resource is
registered under the key; a registered resource is reused (the registry and the
resource objects stay as they are and the Handler joins its handler list); and in
every state reached from program start at most one resource object exists per key. -/
theorem handlerConstruct_creates_iff_unregistered (w : ResourceWorld) (this : Nat)
    (key : String) :
    (w.handlerConstruct this key).created
        = w.created ++ (if w.resourceMap key = none then [key] else [])
      ∧ (∀ r, w.resourceMap key = some r →
          (w.handlerConstruct this key).resourceMap = w.resourceMap
            ∧ (w.handlerConstruct this key).allocated = w.allocated
            ∧ this ∈ (w.handlerConstruct this key).resourceHandlers r)
      ∧ (∀ events w1, runHandlerEvents ResourceWorld.initial events = some w1 →
          ∀ k, (w1.allocated.filter (fun o => decide (o.2 = k))).length ≤ 1) := by
  refine ⟨?_, ?_, ?_⟩
  · cases hr : w.resourceMap key with
    | some r => rw [handlerConstruct_of_some w this key r hr]; simp
    | none => rw [handlerConstruct_of_none w this key hr]; simp
  · intro r hr
    rw [handlerConstruct_of_some w this key r hr]
    refine ⟨rfl, rfl, ?_⟩
    simp [setAt, mem_addIfNotAlreadyThere]
  · intro events w1 hrun k
    exact owned_at_most_one w1 (owned_run events _ w1 owned_initial hrun) k

/-- Witness of C4: the second Handler of `theme` reuses resource 0 and the creation
function has run once; after the sample events one `wifi` resource exists. -/
theorem handlerConstruct_creates_iff_unregistered_witness :
    (ResourceWorld.initial.handlerConstruct 10 "theme").resourceMap "theme" = some 0
      ∧ ((ResourceWorld.initial.handlerConstruct 10 "theme").handlerConstruct 12
          "theme").created = ["theme"]
      ∧ 12 ∈ ((ResourceWorld.initial.handlerConstruct 10 "theme").handlerConstruct 12
          "theme").resourceHandlers 0
      ∧ ∃ w1, runHandlerEvents ResourceWorld.initial sampleEvents = some w1
          ∧ (w1.allocated.filter (fun o => decide (o.2 = "wifi"))).length ≤ 1 :=
  ⟨rfl,
    (handlerConstruct_creates_iff_unregistered
      (ResourceWorld.initial.handlerConstruct 10 "theme") 12 "theme").1.trans rfl,
    ((handlerConstruct_creates_iff_unregistered
      (ResourceWorld.initial.handlerConstruct 10 "theme") 12 "theme").2.1 0 rfl).2.2,
    ⟨_, rfl,
      (handlerConstruct_creates_iff_unregistered ResourceWorld.initial 0 "").2.2
        sampleEvents _ rfl "wifi"⟩⟩

/-! ## Listeners: removal, repeated calls and destruction -/

theorem setAt_self {α β : Type} [DecidableEq α] (f : α → β) (a : α) :
    setAt f a (f a) = f := by
  funext x
  unfold setAt
  by_cases h : x = a
  · simp [h]
  · simp [h]

theorem setAt_setAt {α β : Type} [DecidableEq α] (f : α → β) (a : α) (b1 b2 : β) :
    setAt (setAt f a b1) a b2 = setAt f a b2 := by
  funext x
  unfold setAt
  by_cases h : x = a
  · simp [h]
  · simp [h]

theorem addListener_configKeyMap (c l : Nat) (tracked : List String) (w : ListenerWorld) :
    (w.addListener c l tracked).configKeyMap
      = setAt w.configKeyMap l
          (stdMapAssign (w.configKeyMap l) c (mergeArray (w.trackedKeys l c) tracked)) := by
  unfold ListenerWorld.addListener
  simp only [addListener_loop]

theorem removeListener_configKeyMap (c l : Nat) (w : ListenerWorld) :
    (w.removeListener c l).configKeyMap
      = setAt w.configKeyMap l (stdMapErase (w.configKeyMap l) c) := by
  unfold ListenerWorld.removeListener
  simp only [removeListener_loop]

theorem listenerWorld_ext (v w : ListenerWorld) (h1 : v.keyListeners = w.keyListeners)
    (h2 : v.notificationQueue = w.notificationQueue) (h3 : v.configKeyMap = w.configKeyMap)
    (h4 : v.notified = w.notified) : v = w := by
  cases v
  cases w
  simp only at h1 h2 h3 h4
  subst h1 h2 h3 h4
  rfl

/-- C11: after `removeListener (l)` on a `ConfigFile`, in any state reached by
`addListener` and `removeListener` calls, `l` is in no listener list of that
`ConfigFile` and `l`'s tracked-key map has no entry for it. -/
theorem removeListener_removes_everywhere (calls : List ListenerCall) (c l : Nat) :
    (∀ k, l ∉ ((listenerWorldAfter calls).removeListener c l).keyListeners c k)
      ∧ stdMapFind (((listenerWorldAfter calls).removeListener c l).configKeyMap l) c
          = none := by
  constructor
  · intro k
    rw [removeListener_keyListeners]
    by_cases hk : k ∈ (listenerWorldAfter calls).trackedKeys l c
    · simp [hk, mem_removeAllInstancesOf]
    · simp only [hk, and_false, if_false]
      exact fun hl => hk ((listenerWorldAfter_consistent calls c l k).mp hl)
  · rw [removeListener_configKeyMap]
    simp [setAt, stdMapFind_erase]

theorem addIfNotAlreadyThere_of_mem {α : Type} [DecidableEq α] (xs : List α) (x : α)
    (h : x ∈ xs) : addIfNotAlreadyThere xs x = xs := by
  unfold addIfNotAlreadyThere
  simp [h]

theorem mergeArray_of_subset (xs other : List String) (h : ∀ k ∈ other, k ∈ xs) :
    mergeArray xs other = xs := by
  unfold mergeArray
  induction other generalizing xs with
  | nil => rfl
  | cons o rest ih =>
    rw [List.foldl_cons, addIfNotAlreadyThere_of_mem xs o (h o (by simp))]
    exact ih xs (fun k hk => h k (List.mem_cons_of_mem _ hk))

theorem mergeArray_idem (xs other : List String) :
    mergeArray (mergeArray xs other) other = mergeArray xs other :=
  mergeArray_of_subset _ _ (fun k hk => (mem_mergeArray xs other k).mpr (Or.inr hk))

theorem stdMapAssign_idem {β : Type} (m : List (Nat × β)) (key : Nat) (value : β) :
    stdMapAssign (stdMapAssign m key value) key value = stdMapAssign m key value := by
  induction m with
  | nil => simp [stdMapAssign]
  | cons e rest ih =>
    obtain ⟨a, v⟩ := e
    by_cases h1 : key < a
    · simp [stdMapAssign, h1]
    · by_cases h2 : a = key
      · subst h2
        simp [stdMapAssign]
      · simp [stdMapAssign, h1, h2, ih]

theorem stdMapErase_of_find_none {β : Type} (m : List (Nat × β)) (key : Nat)
    (h : stdMapFind m key = none) : stdMapErase m key = m := by
  unfold stdMapErase
  induction m with
  | nil => rfl
  | cons e rest ih =>
    obtain ⟨a, v⟩ := e
    by_cases h2 : a = key
    · simp [stdMapFind, h2] at h
    · simp only [stdMapFind, if_neg h2] at h
      rw [List.filter_cons_of_pos (by simp [h2]), ih h]

/-- C14: `addListener` is idempotent: a second call with the same listener and key
list leaves the listener data, the listener's tracked-key map and every listener list
in particular, as the first call left it. -/
theorem addListener_idempotent (c l : Nat) (tracked : List String) (w : ListenerWorld) :
    ((w.addListener c l tracked).addListener c l tracked) = w.addListener c l tracked := by
  apply listenerWorld_ext
  · funext c1 k
    rw [addListener_keyListeners c l tracked (w.addListener c l tracked)]
    by_cases h : c1 = c ∧ k ∈ tracked
    · rw [if_pos h]
      obtain ⟨rfl, hk⟩ := h
      rw [addListener_keyListeners, if_pos ⟨rfl, hk⟩]
      exact addIfNotAlreadyThere_idem (w.keyListeners c1 k) l
    · rw [if_neg h]
  · rw [addListener_notificationQueue]
  · rw [addListener_configKeyMap, addListener_trackedKeys, addListener_configKeyMap]
    simp only [and_self, if_true, mergeArray_idem]
    have hl : setAt w.configKeyMap l
        (stdMapAssign (w.configKeyMap l) c (mergeArray (w.trackedKeys l c) tracked)) l
        = stdMapAssign (w.configKeyMap l) c (mergeArray (w.trackedKeys l c) tracked) := by
      simp [setAt]
    rw [hl, stdMapAssign_idem, setAt_setAt w.configKeyMap l]
  · rw [addListener_notified]

theorem removeListener_of_no_entry (c l : Nat) (w : ListenerWorld)
    (h : stdMapFind (w.configKeyMap l) c = none) : w.removeListener c l = w := by
  have ht : w.trackedKeys l c = [] := by
    unfold ListenerWorld.trackedKeys
    rw [h]
    rfl
  apply listenerWorld_ext
  · funext c1 k
    rw [removeListener_keyListeners, ht]
    simp
  · funext c1 k
    rw [removeListener_notificationQueue, ht]
    simp
  · rw [removeListener_configKeyMap, stdMapErase_of_find_none _ _ h, setAt_self]
  · rw [removeListener_notified]

theorem no_entry_run (c l : Nat) (w : ListenerWorld)
    (h : stdMapFind (w.configKeyMap l) c = none) (e : ListenerCall)
    (he : ∀ tracked, e ≠ ListenerCall.add c l tracked) :
    stdMapFind ((e.run w).configKeyMap l) c = none := by
  cases e with
  | add c1 l1 tracked =>
    simp only [ListenerCall.run]
    rw [addListener_configKeyMap]
    by_cases hl : l = l1
    · subst hl
      have hc : ¬ c1 = c := by
        rintro rfl
        exact he tracked rfl
      simp [setAt, stdMapFind_assign, hc, h]
    · simp [setAt, hl, h]
  | remove c1 l1 =>
    simp only [ListenerCall.run]
    rw [removeListener_configKeyMap]
    by_cases hl : l = l1
    · subst hl
      simp [setAt, stdMapFind_erase, h]
    · simp [setAt, hl, h]

theorem no_entry_foldl (c l : Nat) (calls : List ListenerCall) (w : ListenerWorld)
    (h : stdMapFind (w.configKeyMap l) c = none)
    (hcalls : ∀ tracked, ListenerCall.add c l tracked ∉ calls) :
    stdMapFind ((calls.foldl ListenerCall.run w).configKeyMap l) c = none := by
  induction calls generalizing w with
  | nil => exact h
  | cons e rest ih =>
    rw [List.foldl_cons]
    apply ih
    · apply no_entry_run c l w h e
      intro tracked heq
      exact hcalls tracked (heq ▸ List.mem_cons_self _ _)
    · intro tracked hmem
      exact hcalls tracked (List.mem_cons_of_mem _ hmem)

/-- C15: a second `removeListener (l)` directly after a first one changes nothing,
and neither does a `removeListener (l)` for a listener whose tracked-key map has no
entry for the `ConfigFile`, as it is for a listener that was never added to it. -/
theorem removeListener_repeated (c l : Nat) (w : ListenerWorld) :
    (w.removeListener c l).removeListener c l = w.removeListener c l
      ∧ (stdMapFind (w.configKeyMap l) c = none → w.removeListener c l = w)
      ∧ (∀ calls : List ListenerCall, (∀ tracked, ListenerCall.add c l tracked ∉ calls) →
          (listenerWorldAfter calls).removeListener c l = listenerWorldAfter calls) := by
  refine ⟨?_, removeListener_of_no_entry c l w, ?_⟩
  · apply removeListener_of_no_entry
    rw [removeListener_configKeyMap]
    simp [setAt, stdMapFind_erase]
  · intro calls hcalls
    apply removeListener_of_no_entry
    exact no_entry_foldl c l calls ListenerWorld.initial rfl hcalls

/-- Witness of C15: listener 4 was never added by the sample calls, so removing it
from the `ConfigFile` at address 0 changes nothing. -/
theorem removeListener_repeated_witness :
    (∀ tracked, ListenerCall.add 0 4 tracked ∉ sampleCalls)
      ∧ (listenerWorldAfter sampleCalls).removeListener 0 4 = listenerWorldAfter sampleCalls :=
  ⟨by simp [sampleCalls],
    (removeListener_repeated 0 4 ListenerWorld.initial).2.2 sampleCalls
      (by simp [sampleCalls])⟩

theorem stdMapErase_head_length {β : Type} (entry : Nat × β) (rest : List (Nat × β)) :
    (stdMapErase (entry :: rest) entry.1).length ≤ rest.length := by
  unfold stdMapErase
  rw [List.filter_cons_of_neg (by simp)]
  exact List.length_filter_le _ _

theorem listenerDestructor_ends (l : Nat) (fuel : Nat) (w : ListenerWorld)
    (hfuel : (w.configKeyMap l).length ≤ fuel)
    (hcons : ∀ c m k, m ∈ w.keyListeners c k ↔ k ∈ w.trackedKeys m c) :
    ∃ w1, w.listenerDestructor l fuel = some w1 ∧ w1.configKeyMap l = []
      ∧ (∀ c m k, m ∈ w1.keyListeners c k ↔ k ∈ w1.trackedKeys m c) := by
  induction fuel generalizing w with
  | zero =>
    have hm : w.configKeyMap l = [] := List.length_eq_zero.mp (Nat.le_zero.mp hfuel)
    refine ⟨w, ?_, hm, hcons⟩
    unfold ListenerWorld.listenerDestructor
    simp [hm]
  | succ n ih =>
    cases hm : w.configKeyMap l with
    | nil =>
      refine ⟨w, ?_, hm, hcons⟩
      unfold ListenerWorld.listenerDestructor
      simp [hm]
    | cons entry rest =>
      have hlen : ((w.removeListener entry.1 l).configKeyMap l).length ≤ n := by
        rw [removeListener_configKeyMap]
        simp only [setAt, if_true, hm]
        have h1 := stdMapErase_head_length entry rest
        rw [hm] at hfuel
        simp only [List.length_cons] at hfuel
        omega
      obtain ⟨w1, h1, h2, h3⟩ := ih (w.removeListener entry.1 l) hlen
        (consistent_run w hcons (ListenerCall.remove entry.1 l))
      refine ⟨w1, ?_, h2, h3⟩
      unfold ListenerWorld.listenerDestructor
      simp only [hm]
      exact h1

/-- C13: in any state reached by `addListener` and `removeListener` calls, the
removal loop of the `Listener` destructor ends, within as many iterations as the
listener tracks `ConfigFile` objects; afterwards its tracked-key map is empty and the
listener is in no listener list of any `ConfigFile`. -/
theorem listenerDestructor_removes_all (calls : List ListenerCall) (l fuel : Nat)
    (hfuel : ((listenerWorldAfter calls).configKeyMap l).length ≤ fuel) :
    ∃ w1, (listenerWorldAfter calls).listenerDestructor l fuel = some w1
      ∧ w1.configKeyMap l = []
      ∧ ∀ c k, l ∉ w1.keyListeners c k := by
  obtain ⟨w1, h1, h2, h3⟩ := listenerDestructor_ends l fuel (listenerWorldAfter calls) hfuel
    (fun c m k => listenerWorldAfter_consistent calls c m k)
  refine ⟨w1, h1, h2, ?_⟩
  intro c k hmem
  have := (h3 c l k).mp hmem
  simp [ListenerWorld.trackedKeys, h2, stdMapFind] at this

/-- Witness of C13: listener 1 of the sample calls, which also tracks key `z` of the
`ConfigFile` at address 1, is destroyed in two iterations. -/
theorem listenerDestructor_removes_all_witness :
    ((listenerWorldAfter (sampleCalls ++ [.add 1 1 ["z"]])).configKeyMap 1).length ≤ 2
      ∧ ∃ w1, (listenerWorldAfter (sampleCalls ++ [.add 1 1 ["z"]])).listenerDestructor 1 2
            = some w1
          ∧ w1.configKeyMap 1 = []
          ∧ ∀ c k, 1 ∉ w1.keyListeners c k :=
  ⟨by decide,
    listenerDestructor_removes_all (sampleCalls ++ [.add 1 1 ["z"]]) 1 2 (by decide)⟩

/-! ## Listeners: removal during a notification -/

theorem queue_run (c : Nat) (key : String) (w : ListenerWorld)
    (hq : w.QueueTracked c key) (e : ListenerCall) :
    (e.run w).QueueTracked c key
      ∧ (∀ x, x ∈ (e.run w).notificationQueue c key → x ∈ w.notificationQueue c key)
      ∧ ((e.run w).notificationQueue c key).length ≤ (w.notificationQueue c key).length
      ∧ (e.run w).notified = w.notified
      ∧ (∀ m, e = ListenerCall.remove c m → m ∉ (e.run w).notificationQueue c key) := by
  cases e with
  | add c1 l1 tracked =>
    simp only [ListenerCall.run]
    refine ⟨?_, ?_, ?_, addListener_notified c1 l1 tracked w, ?_⟩
    · intro m hm
      rw [addListener_notificationQueue] at hm
      rw [addListener_trackedKeys]
      by_cases h : m = l1 ∧ c = c1
      · rw [if_pos h, mem_mergeArray]
        obtain ⟨rfl, rfl⟩ := h
        exact Or.inl (hq m hm)
      · rw [if_neg h]
        exact hq m hm
    · intro x hx
      rw [addListener_notificationQueue] at hx
      exact hx
    · rw [addListener_notificationQueue]
    · intro m hm
      cases hm
  | remove c1 l1 =>
    simp only [ListenerCall.run]
    have hsub : ∀ x, x ∈ (w.removeListener c1 l1).notificationQueue c key →
        x ∈ w.notificationQueue c key := by
      intro x hx
      rw [removeListener_notificationQueue] at hx
      split at hx
      · rename_i h
        rw [← h.1] at hx
        exact ((mem_removeAllInstancesOf _ _ _).mp hx).1
      · exact hx
    have hgone : c = c1 → l1 ∉ (w.removeListener c1 l1).notificationQueue c key := by
      rintro rfl hmem
      have hin := hsub l1 hmem
      have hk := hq l1 hin
      rw [removeListener_notificationQueue, if_pos ⟨rfl, hk⟩] at hmem
      exact ((mem_removeAllInstancesOf _ _ _).mp hmem).2 rfl
    refine ⟨?_, hsub, ?_, removeListener_notified c1 l1 w, ?_⟩
    · intro m hm
      rw [removeListener_trackedKeys]
      by_cases h : m = l1 ∧ c = c1
      · obtain ⟨rfl, hc⟩ := h
        exact absurd hm (hgone hc)
      · rw [if_neg h]
        exact hq m (hsub m hm)
    · rw [removeListener_notificationQueue]
      split
      · rename_i h
        rw [← h.1]
        exact List.length_filter_le _ _
      · exact Nat.le_refl _
    · intro m hm
      injection hm with h1 h2
      subst h1 h2
      exact hgone rfl

theorem queue_foldl (c : Nat) (key : String) (calls : List ListenerCall)
    (w : ListenerWorld) (hq : w.QueueTracked c key) :
    (calls.foldl ListenerCall.run w).QueueTracked c key
      ∧ (∀ x, x ∈ (calls.foldl ListenerCall.run w).notificationQueue c key →
          x ∈ w.notificationQueue c key)
      ∧ ((calls.foldl ListenerCall.run w).notificationQueue c key).length
          ≤ (w.notificationQueue c key).length
      ∧ (calls.foldl ListenerCall.run w).notified = w.notified
      ∧ (∀ m, ListenerCall.remove c m ∈ calls →
          m ∉ (calls.foldl ListenerCall.run w).notificationQueue c key) := by
  induction calls generalizing w with
  | nil => exact ⟨hq, fun _ hx => hx, Nat.le_refl _, rfl, fun _ hm => nomatch hm⟩
  | cons e rest ih =>
    obtain ⟨a1, a2, a3, a4, a5⟩ := queue_run c key w hq e
    obtain ⟨b1, b2, b3, b4, b5⟩ := ih (e.run w) a1
    rw [List.foldl_cons]
    refine ⟨b1, fun x hx => a2 x (b2 x hx), Nat.le_trans b3 a3, b4.trans a4, ?_⟩
    intro m hm
    rcases List.mem_cons.mp hm with heq | hin
    · exact fun hmem => a5 m heq.symm (b2 m hmem)
    · exact b5 m hin

theorem notifyTrace_cons (cb : Callback) (c : Nat) (key : String) (n : Nat)
    (w : ListenerWorld) (x : Nat) (xs : List Nat)
    (hm : w.notificationQueue c key = x :: xs) :
    ListenerWorld.notifyTrace cb c key (n + 1) w
      = ((x :: xs).getLast (List.cons_ne_nil x xs),
          ({ w with
            notificationQueue := setAt2 w.notificationQueue c key (x :: xs).dropLast
            notified := w.notified ++ [((x :: xs).getLast (List.cons_ne_nil x xs), key)] }
            : ListenerWorld))
        :: ListenerWorld.notifyTrace cb c key n
            (cb ((x :: xs).getLast (List.cons_ne_nil x xs)) key
              { w with
                notificationQueue := setAt2 w.notificationQueue c key (x :: xs).dropLast
                notified :=
                  w.notified ++ [((x :: xs).getLast (List.cons_ne_nil x xs), key)] }) := by
  rw [ListenerWorld.notifyTrace]
  simp only [hm]

theorem notifyTrace_nil (cb : Callback) (c : Nat) (key : String) (n : Nat)
    (w : ListenerWorld) (hm : w.notificationQueue c key = []) :
    ListenerWorld.notifyTrace cb c key n w = [] := by
  rw [ListenerWorld.notifyTrace]
  simp only [hm]

theorem notifyLoop_traced (script : Nat → String → ListenerWorld → List ListenerCall)
    (c : Nat) (key : String) (fuel : Nat) (w : ListenerWorld)
    (hq : w.QueueTracked c key) (hfuel : (w.notificationQueue c key).length ≤ fuel) :
    ∃ w1,
      ListenerWorld.notifyLoop (scriptedCallback script) c key fuel w = some w1
        ∧ w1.notified = w.notified
            ++ (ListenerWorld.notifyTrace (scriptedCallback script) c key fuel w).map
                (fun e => (e.1, key))
        ∧ (∀ e ∈ ListenerWorld.notifyTrace (scriptedCallback script) c key fuel w,
            e.1 ∈ w.notificationQueue c key)
        ∧ (∀ pre a v post,
            ListenerWorld.notifyTrace (scriptedCallback script) c key fuel w
              = pre ++ (a, v) :: post →
            v.notified = w.notified ++ pre.map (fun e => (e.1, key)) ++ [(a, key)]
              ∧ (∃ n, ListenerWorld.notifyLoop (scriptedCallback script) c key n
                    (scriptedCallback script a key v) = some w1)
              ∧ ∀ m, ListenerCall.remove c m ∈ script a key v → ∀ e ∈ post, e.1 ≠ m) := by
  induction fuel generalizing w with
  | zero =>
    have hm : w.notificationQueue c key = [] := List.length_eq_zero.mp (Nat.le_zero.mp hfuel)
    rw [notifyTrace_nil _ c key 0 w hm]
    refine ⟨w, ?_, by simp, fun e he => absurd he (List.not_mem_nil e), ?_⟩
    · unfold ListenerWorld.notifyLoop
      simp [hm]
    · intro pre a v post h
      exact absurd h (by simp)
  | succ n ih =>
    cases hm : w.notificationQueue c key with
    | nil =>
      rw [notifyTrace_nil _ c key (n + 1) w hm]
      refine ⟨w, ?_, by simp, fun e he => absurd he (List.not_mem_nil e), ?_⟩
      · unfold ListenerWorld.notifyLoop
        simp [hm]
      · intro pre a v post h
        exact absurd h (by simp)
    | cons x xs =>
      have hne : x :: xs ≠ [] := List.cons_ne_nil x xs
      have hq2 : ({ w with
            notificationQueue := setAt2 w.notificationQueue c key (x :: xs).dropLast
            notified := w.notified ++ [((x :: xs).getLast hne, key)] } : ListenerWorld
          ).QueueTracked c key := by
        intro m hmem
        have hmem2 : m ∈ (x :: xs).dropLast := by simpa [setAt2, setAt] using hmem
        have hmem3 : m ∈ w.notificationQueue c key := by
          rw [hm]
          exact List.mem_of_mem_dropLast hmem2
        exact hq m hmem3
      have hqueue2 : ({ w with
            notificationQueue := setAt2 w.notificationQueue c key (x :: xs).dropLast
            notified := w.notified ++ [((x :: xs).getLast hne, key)] } : ListenerWorld
          ).notificationQueue c key = (x :: xs).dropLast := by
        simp [setAt2, setAt]
      obtain ⟨b1, b2, b3, b4, b5⟩ := queue_foldl c key
        (script ((x :: xs).getLast hne) key
          { w with
            notificationQueue := setAt2 w.notificationQueue c key (x :: xs).dropLast
            notified := w.notified ++ [((x :: xs).getLast hne, key)] })
        { w with
          notificationQueue := setAt2 w.notificationQueue c key (x :: xs).dropLast
          notified := w.notified ++ [((x :: xs).getLast hne, key)] }
        hq2
      rw [hqueue2] at b2 b3
      have hlen : (x :: xs).dropLast.length ≤ n := by
        rw [hm] at hfuel
        simp only [List.length_dropLast, List.length_cons] at hfuel ⊢
        omega
      obtain ⟨w1, h1, h2, h3, h4⟩ := ih _ b1 (Nat.le_trans b3 hlen)
      rw [notifyTrace_cons _ c key n w x xs hm]
      refine ⟨w1, ?_, ?_, ?_, ?_⟩
      · unfold ListenerWorld.notifyLoop
        simp only [hm]
        exact h1
      · have h2a : w1.notified = (w.notified ++ [((x :: xs).getLast hne, key)])
            ++ (ListenerWorld.notifyTrace (scriptedCallback script) c key n
                (scriptedCallback script ((x :: xs).getLast hne) key
                  { w with
                    notificationQueue :=
                      setAt2 w.notificationQueue c key (x :: xs).dropLast
                    notified := w.notified ++ [((x :: xs).getLast hne, key)] })).map
                (fun e => (e.1, key)) := by
          rw [h2]
          exact congrArg (fun l => l ++ _) b4
        rw [h2a, List.map_cons, List.append_assoc]
        rfl
      · intro e he
        rcases List.mem_cons.mp he with rfl | hin
        · exact List.getLast_mem hne
        · exact List.mem_of_mem_dropLast (b2 _ (h3 e hin))
      · intro pre a v post hsplit
        cases pre with
        | nil =>
          simp only [List.nil_append, List.cons.injEq, Prod.mk.injEq] at hsplit
          obtain ⟨⟨ha, hv⟩, hpost⟩ := hsplit
          subst hpost
          subst hv
          subst ha
          refine ⟨by simp, ⟨n, h1⟩, ?_⟩
          intro m hrem e he hem
          have hgone := b5 m hrem
          exact hgone (hem ▸ h3 e he)
        | cons p pre1 =>
          simp only [List.cons_append, List.cons.injEq] at hsplit
          obtain ⟨hp, hrest⟩ := hsplit
          obtain ⟨c1, c2, c3⟩ := h4 pre1 a v post hrest
          refine ⟨?_, c2, c3⟩
          rw [c1]
          rw [b4, ← hp]
          simp

/-- C12: in a state reached by `addListener` and `removeListener` calls,
`notifyListeners (key)` is run with callbacks that make `addListener` and
`removeListener` calls, chosen from the listener data they find, and notify nobody.
The notification ends. Its calls of `configValueChanged` are those of the trace, each
with the listener data `v` that the callback found: the log of `v` ends with this
call, and the loop continued from what the callback made of `v` gives the final
state. Whenever the callback of a listener `a`, run on `v`, calls `removeListener`
for a listener `m` on this `ConfigFile`, no later call of this notification is a call
of `m`. -/
theorem notifyListeners_removed_not_notified
    (script : Nat → String → ListenerWorld → List ListenerCall)
    (calls : List ListenerCall) (c : Nat) (key : String) (fuel : Nat)
    (hfuel : ((listenerWorldAfter calls).keyListeners c key).length ≤ fuel) :
    ∃ w1,
      (listenerWorldAfter calls).notifyListeners (scriptedCallback script) c key fuel
          = some w1
        ∧ w1.notified = (listenerWorldAfter calls).notified
            ++ ((listenerWorldAfter calls).notifyListenersTrace (scriptedCallback script)
                c key fuel).map (fun e => (e.1, key))
        ∧ (∀ pre a v post,
            (listenerWorldAfter calls).notifyListenersTrace (scriptedCallback script)
                c key fuel = pre ++ (a, v) :: post →
            v.notified = (listenerWorldAfter calls).notified
                ++ pre.map (fun e => (e.1, key)) ++ [(a, key)]
              ∧ (∃ n, ListenerWorld.notifyLoop (scriptedCallback script) c key n
                    (scriptedCallback script a key v) = some w1)
              ∧ ∀ m, ListenerCall.remove c m ∈ script a key v → ∀ e ∈ post, e.1 ≠ m) := by
  obtain ⟨-, hqueue⟩ := listenerWorldAfter_tidy calls c key
  have hq0 : ({ listenerWorldAfter calls with
        notificationQueue :=
          setAt2 (listenerWorldAfter calls).notificationQueue c key
            ((listenerWorldAfter calls).notificationQueue c key
              ++ (listenerWorldAfter calls).keyListeners c key) } : ListenerWorld
      ).notificationQueue c key = (listenerWorldAfter calls).keyListeners c key := by
    simp [setAt2, setAt, hqueue]
  have hq : ({ listenerWorldAfter calls with
        notificationQueue :=
          setAt2 (listenerWorldAfter calls).notificationQueue c key
            ((listenerWorldAfter calls).notificationQueue c key
              ++ (listenerWorldAfter calls).keyListeners c key) } : ListenerWorld
      ).QueueTracked c key := by
    intro m hmem
    rw [hq0] at hmem
    exact (listenerWorldAfter_consistent calls c m key).mp hmem
  obtain ⟨w1, h1, h2, -, h4⟩ := notifyLoop_traced script c key fuel _ hq
    (by rw [hq0]; exact hfuel)
  exact ⟨w1, h1, h2, h4⟩

/-- Witness of C12: listener 2, notified of `a` first, destroys listener 1, which
removes itself from the `ConfigFile` objects it tracks at that moment. The one call
of the notification is that of listener 2, the callback made `removeListener (1)` on
the `ConfigFile` at address 0 in the state it ran in, and listener 1 is not called. -/
theorem notifyListeners_removed_not_notified_witness :
    ((listenerWorldAfter sampleCalls).keyListeners 0 "a").length ≤ 2
      ∧ ((listenerWorldAfter sampleCalls).notifyListeners
            (scriptedCallback destroyingScript) 0 "a" 2).map (fun w => w.notified)
          = some [(2, "a")]
      ∧ ((listenerWorldAfter sampleCalls).notifyListenersTrace
            (scriptedCallback destroyingScript) 0 "a" 2).map
            (fun e => (e.1, decide (ListenerCall.remove 0 1 ∈ destroyingScript e.1 "a" e.2)))
          = [(2, true)]
      ∧ (∃ v, ListenerCall.remove 0 1 ∉ destroyingScript 2 "a" v)
      ∧ ∃ w1,
          (listenerWorldAfter sampleCalls).notifyListeners
              (scriptedCallback destroyingScript) 0 "a" 2 = some w1
            ∧ w1.notified = (listenerWorldAfter sampleCalls).notified
                ++ ((listenerWorldAfter sampleCalls).notifyListenersTrace
                    (scriptedCallback destroyingScript) 0 "a" 2).map (fun e => (e.1, "a"))
            ∧ (∀ pre a v post,
                (listenerWorldAfter sampleCalls).notifyListenersTrace
                    (scriptedCallback destroyingScript) 0 "a" 2 = pre ++ (a, v) :: post →
                v.notified = (listenerWorldAfter sampleCalls).notified
                    ++ pre.map (fun e => (e.1, "a")) ++ [(a, "a")]
                  ∧ (∃ n, ListenerWorld.notifyLoop (scriptedCallback destroyingScript) 0 "a" n
                        (scriptedCallback destroyingScript a "a" v) = some w1)
                  ∧ ∀ m, ListenerCall.remove 0 m ∈ destroyingScript a "a" v →
                      ∀ e ∈ post, e.1 ≠ m) :=
  ⟨by decide, rfl, by decide, ⟨ListenerWorld.initial, by decide⟩,
    notifyListeners_removed_not_notified destroyingScript sampleCalls 0 "a" 2 (by decide)⟩

/-! ## Listeners: `loadAllConfigProperties` -/

theorem mem_stdMapAssign {β : Type} (m : List (Nat × β)) (key : Nat) (value : β)
    (e : Nat × β) (h : e ∈ stdMapAssign m key value) : e = (key, value) ∨ e ∈ m := by
  induction m with
  | nil =>
    simp only [stdMapAssign, List.mem_singleton] at h
    exact Or.inl h
  | cons x rest ih =>
    obtain ⟨a, v⟩ := x
    unfold stdMapAssign at h
    by_cases h1 : key < a
    · rw [if_pos h1] at h
      rcases List.mem_cons.mp h with h | h
      · exact Or.inl h
      · exact Or.inr h
    · rw [if_neg h1] at h
      by_cases h2 : a = key
      · rw [if_pos h2] at h
        rcases List.mem_cons.mp h with h | h
        · exact Or.inl h
        · exact Or.inr (List.mem_cons_of_mem _ h)
      · rw [if_neg h2] at h
        rcases List.mem_cons.mp h with h | h
        · exact Or.inr (h ▸ List.mem_cons_self _ _)
        · rcases ih h with h | h
          · exact Or.inl h
          · exact Or.inr (List.mem_cons_of_mem _ h)

theorem stdMapAssign_ordered {β : Type} (m : List (Nat × β)) (key : Nat) (value : β)
    (h : m.Pairwise (fun a b => a.1 < b.1)) :
    (stdMapAssign m key value).Pairwise (fun a b => a.1 < b.1) := by
  induction m with
  | nil => simp [stdMapAssign]
  | cons x rest ih =>
    obtain ⟨a, v⟩ := x
    rw [List.pairwise_cons] at h
    unfold stdMapAssign
    by_cases h1 : key < a
    · rw [if_pos h1, List.pairwise_cons, List.pairwise_cons]
      refine ⟨?_, h.1, h.2⟩
      intro b hb
      rcases List.mem_cons.mp hb with hb | hb
      · rw [hb]
        exact h1
      · exact Nat.lt_trans h1 (h.1 b hb)
    · rw [if_neg h1]
      by_cases h2 : a = key
      · rw [if_pos h2, List.pairwise_cons]
        refine ⟨?_, h.2⟩
        intro b hb
        have := h.1 b hb
        simp only at this
        omega
      · rw [if_neg h2, List.pairwise_cons]
        refine ⟨?_, ih h.2⟩
        intro b hb
        rcases mem_stdMapAssign rest key value b hb with hb | hb
        · rw [hb]
          simp only
          omega
        · exact h.1 b hb

theorem stdMapFind_of_mem {β : Type} (m : List (Nat × β))
    (h : m.Pairwise (fun a b => a.1 < b.1)) (c : Nat) (v : β) :
    (c, v) ∈ m ↔ stdMapFind m c = some v := by
  induction m with
  | nil => simp [stdMapFind]
  | cons x rest ih =>
    obtain ⟨a, u⟩ := x
    rw [List.pairwise_cons] at h
    by_cases hac : a = c
    · subst hac
      simp only [stdMapFind, if_true, List.mem_cons, Prod.mk.injEq, true_and,
        Option.some.injEq]
      constructor
      · rintro (h1 | h1)
        · exact h1.symm
        · exact absurd (h.1 _ h1) (Nat.lt_irrefl _)
      · intro h1
        exact Or.inl h1.symm
    · simp only [stdMapFind, if_neg hac, List.mem_cons, Prod.mk.injEq]
      rw [← ih h.2]
      constructor
      · rintro (h1 | h1)
        · exact absurd h1.1.symm hac
        · exact h1
      · exact Or.inr

theorem nodup_mergeArray (xs other : List String) (h : xs.Nodup) :
    (mergeArray xs other).Nodup := by
  unfold mergeArray
  induction other generalizing xs with
  | nil => exact h
  | cons o rest ih =>
    rw [List.foldl_cons]
    exact ih _ (nodup_addIfNotAlreadyThere xs o h)

theorem nodup_trackedKeys (w : ListenerWorld) (h : w.KeyMapsOrdered) (l c : Nat) :
    (w.trackedKeys l c).Nodup := by
  unfold ListenerWorld.trackedKeys
  cases hf : stdMapFind (w.configKeyMap l) c with
  | none => exact List.nodup_nil
  | some v => exact (h l).2 (c, v) ((stdMapFind_of_mem _ (h l).1 c v).mpr hf)

theorem keyMapsOrdered_run (w : ListenerWorld) (h : w.KeyMapsOrdered) (e : ListenerCall) :
    (e.run w).KeyMapsOrdered := by
  intro l1
  cases e with
  | add c l tracked =>
    simp only [ListenerCall.run]
    rw [addListener_configKeyMap]
    by_cases hl : l1 = l
    · subst hl
      simp only [setAt, if_true]
      refine ⟨stdMapAssign_ordered _ _ _ (h l1).1, ?_⟩
      intro e he
      rcases mem_stdMapAssign _ _ _ e he with he | he
      · rw [he]
        exact nodup_mergeArray _ _ (nodup_trackedKeys w h l1 c)
      · exact (h l1).2 e he
    · simp only [setAt, if_neg hl]
      exact h l1
  | remove c l =>
    simp only [ListenerCall.run]
    rw [removeListener_configKeyMap]
    by_cases hl : l1 = l
    · subst hl
      simp only [setAt, if_true, stdMapErase]
      exact ⟨(h l1).1.filter _, fun e he => (h l1).2 e (List.mem_of_mem_filter he)⟩
    · simp only [setAt, if_neg hl]
      exact h l1

theorem keyMapsOrdered_foldl (calls : List ListenerCall) (w : ListenerWorld)
    (h : w.KeyMapsOrdered) : (calls.foldl ListenerCall.run w).KeyMapsOrdered := by
  induction calls generalizing w with
  | nil => exact h
  | cons e rest ih => exact ih _ (keyMapsOrdered_run w h e)

theorem listenerWorldAfter_ordered (calls : List ListenerCall) :
    (listenerWorldAfter calls).KeyMapsOrdered := by
  unfold listenerWorldAfter
  apply keyMapsOrdered_foldl
  intro l
  exact ⟨List.Pairwise.nil, fun e he => nomatch he⟩

theorem loadKeys_idle (cb : Callback) (hcb : ∀ l k w, cb l k w = w) (l : Nat)
    (keys : List String) (v : ListenerWorld) :
    keys.foldl
        (fun (u : ListenerWorld) key =>
          cb l key { u with notified := u.notified ++ [(l, key)] })
        v
      = { v with notified := v.notified ++ keys.map (fun k => (l, k)) } := by
  induction keys generalizing v with
  | nil => simp
  | cons k rest ih =>
    rw [List.foldl_cons, hcb, ih]
    simp

theorem loadAll_idle (cb : Callback) (hcb : ∀ l k w, cb l k w = w) (l : Nat)
    (entries : List (Nat × List String)) (v : ListenerWorld) :
    entries.foldl
        (fun (v : ListenerWorld) entry =>
          entry.2.foldl
            (fun (u : ListenerWorld) key =>
              cb l key { u with notified := u.notified ++ [(l, key)] })
            v)
        v
      = { v with
          notified := v.notified ++ (entries.map Prod.snd).flatten.map (fun k => (l, k)) } := by
  induction entries generalizing v with
  | nil => simp
  | cons e rest ih =>
    rw [List.foldl_cons, loadKeys_idle cb hcb, ih]
    simp

theorem count_map_listener (l : Nat) (keys : List String) (k : String) :
    (keys.map (fun x => (l, x))).count (l, k) = keys.count k := by
  induction keys with
  | nil => rfl
  | cons a rest ih =>
    by_cases h : k = a
    · subst h
      simp [ih]
    · have h2 : ¬ (l, k) = (l, a) := fun e => h (congrArg Prod.snd e)
      rw [List.map_cons, List.count_cons_of_ne h2, List.count_cons_of_ne h, ih]

theorem count_flatten_nodup (entries : List (Nat × List String)) (k : String)
    (h : ∀ e ∈ entries, e.2.Nodup) :
    (entries.map Prod.snd).flatten.count k
      = (entries.filter (fun e => decide (k ∈ e.2))).length := by
  induction entries with
  | nil => rfl
  | cons e rest ih =>
    have hrest := ih (fun x hx => h x (List.mem_cons_of_mem _ hx))
    rw [List.map_cons, List.flatten_cons, List.count_append, hrest,
      List.count_eq_of_nodup (h e (List.mem_cons_self _ _))]
    by_cases hk : k ∈ e.2
    · rw [List.filter_cons_of_pos (by simpa using hk)]
      simp [hk]
      omega
    · rw [List.filter_cons_of_neg (by simpa using hk)]
      simp [hk]

theorem mem_trackingFiles (w : ListenerWorld) (h : w.KeyMapsOrdered) (l c : Nat)
    (k : String) : c ∈ w.trackingFiles l k ↔ k ∈ w.trackedKeys l c := by
  unfold ListenerWorld.trackingFiles ListenerWorld.trackedKeys
  simp only [List.mem_map, List.mem_filter, decide_eq_true_eq]
  constructor
  · rintro ⟨⟨c1, v⟩, ⟨hmem, hk⟩, hc⟩
    simp only at hc hk
    subst hc
    rw [(stdMapFind_of_mem _ (h l).1 c1 v).mp hmem]
    exact hk
  · intro hk
    cases hf : stdMapFind (w.configKeyMap l) c with
    | none =>
      rw [hf] at hk
      exact absurd hk (List.not_mem_nil k)
    | some v =>
      rw [hf] at hk
      exact ⟨(c, v), ⟨(stdMapFind_of_mem _ (h l).1 c v).mpr hf, hk⟩, rfl⟩

theorem nodup_trackingFiles (w : ListenerWorld) (h : w.KeyMapsOrdered) (l : Nat)
    (k : String) : (w.trackingFiles l k).Nodup := by
  unfold ListenerWorld.trackingFiles
  have hall : ((w.configKeyMap l).map Prod.fst).Nodup := by
    have hp : ((w.configKeyMap l).map Prod.fst).Pairwise (fun a b => a < b) :=
      List.pairwise_map.mpr (h l).1
    exact hp.imp (fun hab => Nat.ne_of_lt hab)
  exact ((List.filter_sublist _).map Prod.fst).nodup hall

/-- C16, as stated, fails: listener 1 tracks key `a` for the `ConfigFile` objects at
addresses 0 and 1, and `loadAllConfigProperties` calls `configValueChanged` with `a`
twice. -/
theorem loadAllConfigProperties_shared_key_counterexample :
    "a" ∈ (listenerWorldAfter sharedKeyCalls).trackedKeys 1 0
      ∧ ((listenerWorldAfter sharedKeyCalls).loadAllConfigProperties idleCallback 1).notified
          = [(1, "a"), (1, "a")]
      ∧ (((listenerWorldAfter sharedKeyCalls).loadAllConfigProperties idleCallback
          1).notified).count (1, "a") = 2 :=
  ⟨by decide, rfl, by decide⟩

/-- C16, amended: in a state reached by `addListener` and `removeListener` calls, with
callbacks that leave the listener data alone, `loadAllConfigProperties` calls
`configValueChanged` of the listener only, once for every pair of a `ConfigFile` and a
key that the listener tracks for it: the number of calls with a key is the number of
`ConfigFile` objects for which the listener tracks that key, so one for a key tracked
for one `ConfigFile` and none for a key that is not tracked. -/
theorem loadAllConfigProperties_once_per_tracked_pair (cb : Callback)
    (hcb : ∀ l k w, cb l k w = w) (calls : List ListenerCall) (l : Nat) :
    ∃ log,
      ((listenerWorldAfter calls).loadAllConfigProperties cb l).notified
          = (listenerWorldAfter calls).notified ++ log
        ∧ (∀ p ∈ log, p.1 = l)
        ∧ (∀ k, log.count (l, k) = ((listenerWorldAfter calls).trackingFiles l k).length)
        ∧ (∀ k, ((listenerWorldAfter calls).trackingFiles l k).Nodup)
        ∧ (∀ k c, c ∈ (listenerWorldAfter calls).trackingFiles l k
            ↔ k ∈ (listenerWorldAfter calls).trackedKeys l c) := by
  have hord := listenerWorldAfter_ordered calls
  refine ⟨(((listenerWorldAfter calls).configKeyMap l).map Prod.snd).flatten.map
      (fun k => (l, k)), ?_, ?_, ?_, fun k => nodup_trackingFiles _ hord l k,
    fun k c => mem_trackingFiles _ hord l c k⟩
  · unfold ListenerWorld.loadAllConfigProperties
    rw [loadAll_idle cb hcb]
  · intro p hp
    obtain ⟨k, -, rfl⟩ := List.mem_map.mp hp
    rfl
  · intro k
    rw [count_map_listener, count_flatten_nodup _ k (hord l).2]
    simp [ListenerWorld.trackingFiles]

/-- Witness of the amended C16: listener 1 of the sample calls tracks `a` and `b` for
one `ConfigFile` and is called once with each. -/
theorem loadAllConfigProperties_once_per_tracked_pair_witness :
    (∀ l k w, idleCallback l k w = w)
      ∧ ((listenerWorldAfter sampleCalls).loadAllConfigProperties idleCallback 1).notified
          = [(1, "a"), (1, "b")]
      ∧ ∃ log,
          ((listenerWorldAfter sampleCalls).loadAllConfigProperties idleCallback 1).notified
              = (listenerWorldAfter sampleCalls).notified ++ log
            ∧ (∀ p ∈ log, p.1 = 1)
            ∧ (∀ k, log.count (1, k)
                = ((listenerWorldAfter sampleCalls).trackingFiles 1 k).length)
            ∧ (∀ k, ((listenerWorldAfter sampleCalls).trackingFiles 1 k).Nodup)
            ∧ (∀ k c, c ∈ (listenerWorldAfter sampleCalls).trackingFiles 1 k
                ↔ k ∈ (listenerWorldAfter sampleCalls).trackedKeys 1 c) :=
  ⟨fun _ _ _ => rfl, rfl,
    loadAllConfigProperties_once_per_tracked_pair idleCallback (fun _ _ _ => rfl)
      sampleCalls 1⟩

/-! ## The Configurable-based ConfigFile: `notifyConfigurables` -/

/-- C17 fails on the code: the `Configurable` at address 7 is registered twice for key
`a` of `config.json`, `registerConfigurable` adds it to the array both times, and
`notifyConfigurables` calls its `loadConfigProperties` twice. -/
theorem notifyConfigurables_registered_twice :
    (((ConfigurableWorld.initial.registerConfigurable "config.json" 7 ["a"]
        ).registerConfigurable "config.json" 7 ["a"]).configured "config.json" "a" = [7, 7])
      ∧ ((((ConfigurableWorld.initial.registerConfigurable "config.json" 7 ["a"]
          ).registerConfigurable "config.json" 7 ["a"]).notifyConfigurables
            (fun _ _ w => w) "config.json" "a").loaded = [(7, "a"), (7, "a")])
      ∧ ((ConfigurableWorld.initial.registerConfigurable "config.json" 7 ["a", "a"]
          ).notifyConfigurables (fun _ _ w => w) "config.json" "a").loaded
          = [(7, "a"), (7, "a")] :=
  ⟨rfl, rfl, rfl⟩

/-! ## ConfigFile: destruction, complete documents and typed access -/

/-- C18 fails on the code: the store of the scenario of the specification, with
`maxRows` 3, `theme` `light` and changes pending, is destroyed while no file exists.
`writeChanges`, called by a live object of the derived class with keys `maxRows` and
`theme`, writes both values. Called by the destructor, it reaches
`ConfigFile::getDataKeys`: when that is pure virtual the call is undefined and
nothing is written, and when it returns no key the empty object is written and the
flag is cleared, so the pending values are lost. This is so for every store with
pending changes: the destructor has no result with a pure virtual `getDataKeys`, and
otherwise writes what `writeChanges` writes for the keys of the base class. A store
without pending changes is destroyed without a call on the file. -/
theorem destructor_pending_changes_lost :
    (ConfigFile.writeChanges mainKeys { fileExists := false, replaceOk := true }
        mainStore).fileOps
      = [FileOp.create,
          FileOp.replaceWithText [("maxRows", Var.int 3), ("theme", Var.string "light")]]
      ∧ mainStore.fileChangesPending = true
      ∧ (ConfigFile.destructor none { fileExists := false, replaceOk := true }
          mainStore).isNone = true
      ∧ (ConfigFile.destructor (some []) { fileExists := false, replaceOk := true }
          mainStore).map (fun o => o.fileOps)
        = some [FileOp.create, FileOp.replaceWithText []]
      ∧ (ConfigFile.destructor (some []) { fileExists := false, replaceOk := true }
          mainStore).map (fun o => o.file.fileChangesPending) = some false
      ∧ (∀ (fs : FileAnswers) (f : ConfigFile),
          ConfigFile.destructor none fs { f with fileChangesPending := true } = none)
      ∧ (∀ (dataKeys : List DataKey) (fs : FileAnswers) (f : ConfigFile),
          ConfigFile.destructor (some dataKeys) fs { f with fileChangesPending := true }
            = some (ConfigFile.writeChanges dataKeys fs { f with fileChangesPending := true }))
      ∧ (∀ (ownDataKeys : Option (List DataKey)) (fs : FileAnswers) (f : ConfigFile),
          (ConfigFile.destructor ownDataKeys fs { f with fileChangesPending := false }).map
              (fun o => o.fileOps) = some []) :=
  ⟨rfl, rfl, rfl, rfl, rfl, fun _ _ => rfl, fun _ _ _ => rfl, fun _ _ _ => rfl⟩

theorem getProperty_of_exists (asset config : Var) (key : String) (s : ReadState)
    (h : ConfigFile.propertyExists config key = true) :
    ConfigFile.getProperty asset config key s = (config.getProperty key Var.void, s) := by
  unfold ConfigFile.getProperty
  simp [h]

theorem readDataKey_frame_of_exists (J : VarLib) (asset config : Var) (s : ReadState)
    (d : DataKey) (h : ConfigFile.propertyExists config d.keyString = true) :
    (ConfigFile.readDataKey J asset config s d).assetLoads = s.assetLoads
      ∧ (ConfigFile.readDataKey J asset config s d).defaultConfig = s.defaultConfig := by
  unfold ConfigFile.readDataKey
  rw [getProperty_of_exists asset config d.keyString s h]
  cases hd : d.dataType <;> exact ⟨rfl, rfl⟩

theorem readDataFromJson_frame_of_exists (J : VarLib) (asset config : Var)
    (dataKeys : List DataKey) (s : ReadState)
    (hall : ∀ d ∈ dataKeys, ConfigFile.propertyExists config d.keyString = true) :
    (ConfigFile.readDataFromJson J asset dataKeys config s).assetLoads = s.assetLoads
      ∧ (ConfigFile.readDataFromJson J asset dataKeys config s).defaultConfig
          = s.defaultConfig := by
  unfold ConfigFile.readDataFromJson
  induction dataKeys generalizing s with
  | nil => exact ⟨rfl, rfl⟩
  | cons d rest ih =>
    rw [List.foldl_cons]
    obtain ⟨h1, h2⟩ := readDataKey_frame_of_exists J asset config s d (hall d (by simp))
    obtain ⟨h3, h4⟩ := ih (ConfigFile.readDataKey J asset config s d)
      (fun x hx => hall x (List.mem_cons_of_mem _ hx))
    exact ⟨h3.trans h1, h4.trans h2⟩

/-- C19: when every key of the schema exists in the loaded document,
`readDataFromJson` gives every key the document's value, converted to the key's
declared type, never calls the loader of the default document, leaves the
`defaultConfig` argument as it was and leaves the pending-changes flag unchanged. -/
theorem readDataFromJson_all_present (J : VarLib) (asset config : Var)
    (dataKeys : List DataKey) (s : ReadState)
    (hall : ∀ d ∈ dataKeys, ConfigFile.propertyExists config d.keyString = true) :
    (∀ d ∈ dataKeys,
        (ConfigFile.readDataFromJson J asset dataKeys config s).file.holds J d
          (config.getProperty d.keyString Var.void))
      ∧ (ConfigFile.readDataFromJson J asset dataKeys config s).assetLoads = s.assetLoads
      ∧ (ConfigFile.readDataFromJson J asset dataKeys config s).defaultConfig
          = s.defaultConfig
      ∧ (ConfigFile.readDataFromJson J asset dataKeys config s).file.fileChangesPending
          = s.file.fileChangesPending := by
  obtain ⟨h1, h2⟩ := readDataFromJson_frame_of_exists J asset config dataKeys s hall
  refine ⟨?_, h1, h2, ?_⟩
  · intro d hd
    have h := readDataFromJson_holds J asset config dataKeys s d hd
    unfold resolvedProperty at h
    simpa [hall d hd] using h
  · rw [readDataFromJson_pending]
    have hany : dataKeys.any (fun d => !ConfigFile.propertyExists config d.keyString)
        = false := by
      rw [List.any_eq_false]
      intro d hd
      simp [hall d hd]
    simp [hany]

theorem mainDocument_complete :
    ∀ d ∈ mainKeys, ConfigFile.propertyExists mainDocument d.keyString = true := by
  decide

/-- Witness of C19: the complete document of the scenario is read into an empty store:
`maxRows` is the 5 of the document, the default document is never loaded and the store
stays clean. -/
theorem readDataFromJson_all_present_witness :
    (∀ d ∈ mainKeys, ConfigFile.propertyExists mainDocument d.keyString = true)
      ∧ (ConfigFile.readDataFromJson VarLib.unused mainDefaults mainKeys mainDocument
          { file := ConfigFile.empty, defaultConfig := Var.void, assetLoads := 0 }
          ).file.intValues "maxRows" = some 5
      ∧ (ConfigFile.readDataFromJson VarLib.unused mainDefaults mainKeys mainDocument
          { file := ConfigFile.empty, defaultConfig := Var.void, assetLoads := 0 }
          ).assetLoads = 0
      ∧ (ConfigFile.readDataFromJson VarLib.unused mainDefaults mainKeys mainDocument
          { file := ConfigFile.empty, defaultConfig := Var.void, assetLoads := 0 }
          ).file.fileChangesPending = false :=
  ⟨mainDocument_complete,
    (readDataFromJson_all_present VarLib.unused mainDefaults mainDocument mainKeys
      { file := ConfigFile.empty, defaultConfig := Var.void, assetLoads := 0 }
      mainDocument_complete).1 { keyString := "maxRows", dataType := .intType }
      (by simp [mainKeys]),
    (readDataFromJson_all_present VarLib.unused mainDefaults mainDocument mainKeys
      { file := ConfigFile.empty, defaultConfig := Var.void, assetLoads := 0 }
      mainDocument_complete).2.1,
    (readDataFromJson_all_present VarLib.unused mainDefaults mainDocument mainKeys
      { file := ConfigFile.empty, defaultConfig := Var.void, assetLoads := 0 }
      mainDocument_complete).2.2.2⟩

theorem mapEntry_mapStore (f : ConfigFile) (key : String) (v : ConfigValue) :
    (f.mapStore key v).mapEntry v.dataType key = some v := by
  cases v <;> simp [ConfigFile.mapStore, ConfigFile.mapEntry, ConfigValue.dataType, mapAssign]

theorem mapEntry_setConfigValue (f : ConfigFile) (key : String) (v : ConfigValue) :
    (f.setConfigValue key v).1.mapEntry v.dataType key = some v := by
  unfold ConfigFile.setConfigValue
  by_cases h : f.mapEntry v.dataType key = some v
  · rw [if_pos h]
    exact h
  · rw [if_neg h]
    have := mapEntry_mapStore f key v
    cases v <;> exact this

/-- C20: for a key whose declared type is `T` and a value of type `T`, after
`setConfigValue` with any first value and then with this second value,
`getConfigValue<T>` returns the second value. -/
theorem getConfigValue_after_two_sets (dataKeys : List DataKey) (f : ConfigFile)
    (key : String) (d : DataKey) (v1 v2 : ConfigValue)
    (hdecl : dataKeys.find? (fun x => decide (x.keyString = key)) = some d)
    (h2 : v2.dataType = d.dataType) :
    ConfigFile.getConfigValue dataKeys ((f.setConfigValue key v1).1.setConfigValue key v2).1
      key d.dataType = .ok v2 := by
  have hentry := mapEntry_setConfigValue (f.setConfigValue key v1).1 key v2
  unfold ConfigFile.getConfigValue
  rw [hdecl]
  simp only [ne_eq, not_true_eq_false, if_false]
  rw [← h2, hentry]

/-- Witness of C20: `maxRows` of the scenario is set to 4 and then to 6, and reads 6. -/
theorem getConfigValue_after_two_sets_witness :
    mainKeys.find? (fun x => decide (x.keyString = "maxRows"))
        = some { keyString := "maxRows", dataType := .intType }
      ∧ (ConfigValue.int 6).dataType = SupportedDataType.intType
      ∧ ConfigFile.getConfigValue mainKeys
          ((mainStore.setConfigValue "maxRows" (.int 4)).1.setConfigValue "maxRows"
            (.int 6)).1 "maxRows" .intType = .ok (.int 6) :=
  ⟨rfl, rfl,
    getConfigValue_after_two_sets mainKeys mainStore "maxRows"
      { keyString := "maxRows", dataType := .intType } (.int 4) (.int 6) rfl rfl⟩

/-! ## Utils: `median` -/

/-- C22: for values of a totally ordered type, `median (a, b, c)` is one of the three
arguments, two of the arguments are less than or equal to it and two of them are
greater than or equal to it. -/
theorem median_is_median {T : Type} [LinearOrder T] (a b c : T) :
    (median a b c = a ∨ median a b c = b ∨ median a b c = c)
      ∧ ((a ≤ median a b c ∧ b ≤ median a b c) ∨ (a ≤ median a b c ∧ c ≤ median a b c)
          ∨ (b ≤ median a b c ∧ c ≤ median a b c))
      ∧ ((median a b c ≤ a ∧ median a b c ≤ b) ∨ (median a b c ≤ a ∧ median a b c ≤ c)
          ∨ (median a b c ≤ b ∧ median a b c ≤ c)) := by
  unfold median
  by_cases h1 : a > b
  · rw [if_pos h1]
    by_cases h2 : b > c
    · rw [if_pos h2]
      exact ⟨Or.inr (Or.inl rfl), Or.inr (Or.inr ⟨le_refl b, le_of_lt h2⟩),
        Or.inl ⟨le_of_lt h1, le_refl b⟩⟩
    · rw [if_neg h2]
      by_cases h3 : a < c
      · rw [if_pos h3]
        exact ⟨Or.inl rfl, Or.inl ⟨le_refl a, le_of_lt h1⟩,
          Or.inr (Or.inl ⟨le_refl a, le_of_lt h3⟩)⟩
      · rw [if_neg h3]
        exact ⟨Or.inr (Or.inr rfl), Or.inr (Or.inr ⟨not_lt.mp h2, le_refl c⟩),
          Or.inr (Or.inl ⟨not_lt.mp h3, le_refl c⟩)⟩
  · rw [if_neg h1]
    by_cases h2 : a > c
    · rw [if_pos h2]
      exact ⟨Or.inl rfl, Or.inr (Or.inl ⟨le_refl a, le_of_lt h2⟩),
        Or.inl ⟨le_refl a, not_lt.mp h1⟩⟩
    · rw [if_neg h2]
      by_cases h3 : b < c
      · rw [if_pos h3]
        exact ⟨Or.inr (Or.inl rfl), Or.inl ⟨not_lt.mp h1, le_refl b⟩,
          Or.inr (Or.inr ⟨le_refl b, le_of_lt h3⟩)⟩
      · rw [if_neg h3]
        exact ⟨Or.inr (Or.inr rfl), Or.inr (Or.inl ⟨not_lt.mp h2, le_refl c⟩),
          Or.inr (Or.inr ⟨not_lt.mp h3, le_refl c⟩)⟩

/-! ## AppMenuComponent: folder indices -/

/-- C28: with at least one folder open, `getActiveFolderIndex` is an index of an open
folder, and it is the stored `activeFolderIndex` when that is such an index. -/
theorem getActiveFolderIndex_valid (m : AppMenuComponent) (hopen : 1 ≤ m.size) :
    (0 ≤ m.getActiveFolderIndex ∧ m.getActiveFolderIndex < m.size)
      ∧ (0 ≤ m.activeFolderIndex ∧ m.activeFolderIndex < m.size →
          m.getActiveFolderIndex = m.activeFolderIndex) := by
  unfold AppMenuComponent.getActiveFolderIndex median
  constructor
  · split_ifs <;> omega
  · intro h
    split_ifs <;> omega

/-- Witness of C28: two folders are open and the stored index is 5: the active folder
index is 1. -/
theorem getActiveFolderIndex_valid_witness :
    (1 : Int) ≤ AppMenuComponent.size
        { openFolders := [{ buttonCount := 3, selectedIndex := 0 },
            { buttonCount := 2, selectedIndex := 1 }], activeFolderIndex := 5 }
      ∧ AppMenuComponent.getActiveFolderIndex
          { openFolders := [{ buttonCount := 3, selectedIndex := 0 },
              { buttonCount := 2, selectedIndex := 1 }], activeFolderIndex := 5 } = 1
      ∧ (0 ≤ AppMenuComponent.getActiveFolderIndex
            { openFolders := [{ buttonCount := 3, selectedIndex := 0 },
                { buttonCount := 2, selectedIndex := 1 }], activeFolderIndex := 5 }
          ∧ AppMenuComponent.getActiveFolderIndex
              { openFolders := [{ buttonCount := 3, selectedIndex := 0 },
                  { buttonCount := 2, selectedIndex := 1 }], activeFolderIndex := 5 }
            < AppMenuComponent.size
              { openFolders := [{ buttonCount := 3, selectedIndex := 0 },
                  { buttonCount := 2, selectedIndex := 1 }], activeFolderIndex := 5 }) :=
  ⟨by decide, by decide,
    (getActiveFolderIndex_valid
      { openFolders := [{ buttonCount := 3, selectedIndex := 0 },
          { buttonCount := 2, selectedIndex := 1 }], activeFolderIndex := 5 }
      (by decide)).1⟩

theorem getUnchecked_length {α : Type} (xs : List α) :
    getUnchecked xs (xs.length : Int) = none := by
  unfold getUnchecked
  have h : ¬ ((xs.length : Int) < 0) := by omega
  rw [if_neg h]
  simp

/-- C24 fails on the code: for the index equal to the number of open folders, where no
folder exists, the test `index > openFolders.size ()` of `getFolderSelectedIndex` is
false and the method reads outside the folder list, while `getFolderSize` with its
test `index >= openFolders.size ()` returns -1 there. -/
theorem getFolderSelectedIndex_at_size (m : AppMenuComponent) :
    m.getFolderSelectedIndex m.size = none ∧ m.getFolderSize m.size = some (-1)
      ∧ AppMenuComponent.getFolderSelectedIndex
          { openFolders := [], activeFolderIndex := 0 } 0 = none := by
  refine ⟨?_, ?_, by decide⟩
  · unfold AppMenuComponent.getFolderSelectedIndex AppMenuComponent.size
    have h : ¬ (((m.openFolders.length : Int) < 0)
        ∨ (m.openFolders.length : Int) > (m.openFolders.length : Int)) := by omega
    rw [if_neg h, getUnchecked_length]
    rfl
  · unfold AppMenuComponent.getFolderSize
    simp

/-! ## Wifi::LibNM::ActiveConnection -/

/-- C23 fails on the code: `isConnectedAccessPoint` returns false for every active
connection and every access point, because it returns early whenever the connection
is not null and a null connection has the empty path; so it is false for a connection
and an access point that are not null and share a path. -/
theorem isConnectedAccessPoint_always_false (c : ActiveConnection) (accessPoint : AccessPoint) :
    c.isConnectedAccessPoint accessPoint = false
      ∧ ActiveConnection.isConnectedAccessPoint
          { isNull := false, specificObject := some "/org/freedesktop/NetworkManager/AccessPoint/1" }
          { isNull := false, path := "/org/freedesktop/NetworkManager/AccessPoint/1" }
        = false := by
  refine ⟨?_, by decide⟩
  unfold ActiveConnection.isConnectedAccessPoint ActiveConnection.getAccessPointPath
  cases hc : c.isNull <;> cases ha : accessPoint.isNull <;> simp

/-! ## SharedResource: `buildAsyncFunction` -/

/-- C25: for lock type `read` or `write`, the function that `buildAsyncFunction`
returns makes exactly the one call `action` when the resource that built it is still
the held instance, and exactly the one call `ifDestroyed` otherwise. -/
theorem buildAsyncFunction_calls (this : Nat) (lockType : LockType) (resource : Option Nat)
    (hlock : lockType = LockType.read ∨ lockType = LockType.write) :
    (resource = some this → buildAsyncFunction this lockType resource = [AsyncCall.action])
      ∧ (resource ≠ some this →
          buildAsyncFunction this lockType resource = [AsyncCall.ifDestroyed]) := by
  unfold buildAsyncFunction
  constructor
  · intro h
    rcases hlock with rfl | rfl <;> simp [h]
  · intro h
    simp [h]

/-- Witness of C25: the resource at address 3 with lock type `read`, called while it
is held and called after another resource, at address 4, took its place. -/
theorem buildAsyncFunction_calls_witness :
    (LockType.read = LockType.read ∨ LockType.read = LockType.write)
      ∧ buildAsyncFunction 3 LockType.read (some 3) = [AsyncCall.action]
      ∧ buildAsyncFunction 3 LockType.read (some 4) = [AsyncCall.ifDestroyed] :=
  ⟨Or.inl rfl,
    (buildAsyncFunction_calls 3 LockType.read (some 3) (Or.inl rfl)).1 rfl,
    (buildAsyncFunction_calls 3 LockType.read (some 4) (Or.inl rfl)).2 (by decide)⟩

/-! ## LibNMHandler: `initConnection` -/

/-- C27 fails on the code: whenever `initConnection` reaches the branch for an access
point that is no saved connection, `connection` is the object that
`nm_connection_new` has just returned and the asserted `connection == nullptr` is
false. -/
theorem initConnection_assertion_fails (newConnection : Nat) (a : ConnectionAttempt)
    (assertion : Bool) (connection : Option Nat)
    (hreached : initConnection newConnection a
      = ConnectionOutcome.addAndActivate assertion connection) :
    assertion = false ∧ connection = some newConnection := by
  unfold initConnection at hreached
  by_cases hw : a.wifiAvailable = true
  · by_cases hm : (bestMatch a.candidates).1 = none
    · simp [hw, hm] at hreached
    · by_cases hs : a.isSavedConnection = true
      · simp [hw, hm, hs] at hreached
      · simp only [hw, hm, hs, Bool.not_true, Bool.false_eq_true, if_false, if_true,
          ConnectionOutcome.addAndActivate.injEq] at hreached
        obtain ⟨h1, h2⟩ := hreached
        rw [← h1, ← h2]
        simp
  · simp [hw] at hreached

/-- Witness of C27's failure: wifi is available, one access point of strength 60
matches and is no saved connection: the branch is reached with a connection at
address 9 and the assertion is false. -/
theorem initConnection_assertion_fails_witness :
    initConnection 9
        { wifiAvailable := true, candidates := [(1, 60)], isSavedConnection := false,
          hasAvailableConnections := false, matchingConnection := none, pskEmpty := true }
      = ConnectionOutcome.addAndActivate false (some 9)
      ∧ (false = false ∧ some 9 = some 9) :=
  ⟨by decide,
    initConnection_assertion_fails 9
      { wifiAvailable := true, candidates := [(1, 60)], isSavedConnection := false,
        hasAvailableConnections := false, matchingConnection := none, pskEmpty := true }
      false (some 9) (by decide)⟩

/-! ## The Configurable-based ConfigFile: `openFile` -/

theorem construct_openFileMap (w : FileRegistry) (filename : String) :
    (w.construct filename).openFileMap = w.openFileMap
      ∧ (w.construct filename).parsed = w.parsed := by
  unfold FileRegistry.construct
  by_cases h : w.fileChangesPending filename = none
  · simp [h, mapAssign]
  · simp [h]

theorem fileOpened_fst (w : FileRegistry) (filename : String) :
    (w.fileOpened filename).1 = decide (w.openFileMap filename = some true) := by
  unfold FileRegistry.fileOpened ConfigFile.mapIndex
  cases h : w.openFileMap filename with
  | none => simp
  | some b => cases b <;> simp

theorem fileOpened_snd (w : FileRegistry) (filename g : String) :
    ((w.fileOpened filename).2.openFileMap g = some true ↔ w.openFileMap g = some true)
      ∧ (w.fileOpened filename).2.parsed = w.parsed := by
  unfold FileRegistry.fileOpened ConfigFile.mapIndex
  cases h : w.openFileMap filename with
  | none =>
    by_cases hg : g = filename
    · simp [mapAssign, hg, h]
    · simp [mapAssign, hg]
  | some b => simp

theorem openFile_of_opened (fileData : String → Var) (w : FileRegistry) (filename : String)
    (h : w.openFileMap filename = some true) :
    (w.openFile fileData filename).1 = Var.void
      ∧ (w.openFile fileData filename).2.parsed = w.parsed
      ∧ ∀ g, ((w.openFile fileData filename).2.openFileMap g = some true
          ↔ w.openFileMap g = some true) := by
  have h1 := fileOpened_fst w filename
  unfold FileRegistry.openFile
  simp only [h1, h, decide_True, if_true]
  exact ⟨trivial, (fileOpened_snd w filename filename).2,
    fun g => (fileOpened_snd w filename g).1⟩

theorem openFile_of_not_opened (fileData : String → Var) (w : FileRegistry)
    (filename : String) (h : w.openFileMap filename ≠ some true) :
    (w.openFile fileData filename).1 = fileData filename
      ∧ (w.openFile fileData filename).2.parsed = w.parsed ++ [filename]
      ∧ ∀ g, ((w.openFile fileData filename).2.openFileMap g = some true
          ↔ (g = filename ∨ w.openFileMap g = some true)) := by
  have h1 := fileOpened_fst w filename
  unfold FileRegistry.openFile
  simp only [h1, h, decide_False, Bool.false_eq_true, if_false]
  refine ⟨trivial, ?_, ?_⟩
  · rw [(fileOpened_snd w filename filename).2]
  · intro g
    by_cases hg : g = filename
    · simp [mapAssign, hg]
    · simp only [mapAssign, hg, if_false, false_or]
      exact (fileOpened_snd w filename g).1

theorem fileRegistryAfter_opened (fileData : String → Var) (calls : List FileCall)
    (g : String) :
    (fileRegistryAfter fileData calls).openFileMap g = some true
      ↔ FileCall.openFile g ∈ calls := by
  induction calls using List.reverseRecOn with
  | nil => simp [fileRegistryAfter, FileRegistry.initial]
  | append_singleton rest e ih =>
    have hstep : fileRegistryAfter fileData (rest ++ [e])
        = FileCall.run fileData (fileRegistryAfter fileData rest) e := by
      simp [fileRegistryAfter, List.foldl_append]
    rw [hstep]
    cases e with
    | construct filename =>
      simp only [FileCall.run, (construct_openFileMap _ filename).1, ih, List.mem_append,
        List.mem_singleton]
      constructor
      · exact Or.inl
      · rintro (h | h)
        · exact h
        · cases h
    | openFile filename =>
      simp only [FileCall.run, List.mem_append, List.mem_singleton]
      by_cases hopen : (fileRegistryAfter fileData rest).openFileMap filename = some true
      · rw [(openFile_of_opened fileData _ filename hopen).2.2 g, ih]
        constructor
        · exact Or.inl
        · rintro (h | h)
          · exact h
          · injection h with h
            subst h
            exact ih.mp hopen
      · rw [(openFile_of_not_opened fileData _ filename hopen).2.2 g, ih]
        constructor
        · rintro (h | h)
          · exact Or.inr (by rw [h])
          · exact Or.inl h
        · rintro (h | h)
          · exact Or.inr h
          · injection h with h
            exact Or.inl h

/-- C26: after any sequence of `ConfigFile` constructions and `openFile` calls, a call
of `openFile` for a file name that no earlier call opened returns the parsed file
data, parses that file once and marks it as opened; a call for a file name that an
earlier call opened, from whichever `ConfigFile` object, returns the void `var` and
parses nothing. -/
theorem openFile_first_call_only (fileData : String → Var) (calls : List FileCall)
    (filename : String) :
    (FileCall.openFile filename ∉ calls →
        ((fileRegistryAfter fileData calls).openFile fileData filename).1 = fileData filename
          ∧ ((fileRegistryAfter fileData calls).openFile fileData filename).2.parsed
              = (fileRegistryAfter fileData calls).parsed ++ [filename]
          ∧ ((fileRegistryAfter fileData calls).openFile fileData filename).2.openFileMap
              filename = some true)
      ∧ (FileCall.openFile filename ∈ calls →
          ((fileRegistryAfter fileData calls).openFile fileData filename).1 = Var.void
            ∧ ((fileRegistryAfter fileData calls).openFile fileData filename).2.parsed
                = (fileRegistryAfter fileData calls).parsed) := by
  have hinv := fileRegistryAfter_opened fileData calls filename
  constructor
  · intro hnot
    have hopen : (fileRegistryAfter fileData calls).openFileMap filename ≠ some true :=
      fun h => hnot (hinv.mp h)
    obtain ⟨h1, h2, h3⟩ := openFile_of_not_opened fileData _ filename hopen
    exact ⟨h1, h2, (h3 filename).mpr (Or.inl rfl)⟩
  · intro hmem
    obtain ⟨h1, h2, -⟩ := openFile_of_opened fileData _ filename (hinv.mpr hmem)
    exact ⟨h1, h2⟩

/-- Witness of C26: two `ConfigFile` objects for `config.json` are constructed; the
first `openFile` parses the file, the second returns the void `var` and parses
nothing. -/
theorem openFile_first_call_only_witness :
    FileCall.openFile "config.json"
        ∉ [FileCall.construct "config.json", FileCall.construct "config.json"]
      ∧ ((fileRegistryAfter sampleFileData
            [.construct "config.json", .construct "config.json"]).openFile sampleFileData
            "config.json").2.parsed = ["config.json"]
      ∧ FileCall.openFile "config.json"
          ∈ [FileCall.construct "config.json", FileCall.construct "config.json",
              FileCall.openFile "config.json"]
      ∧ ((fileRegistryAfter sampleFileData
            [.construct "config.json", .construct "config.json",
              .openFile "config.json"]).openFile sampleFileData "config.json").2.parsed
          = ["config.json"] :=
  ⟨by decide,
    ((openFile_first_call_only sampleFileData
      [.construct "config.json", .construct "config.json"] "config.json").1
      (by decide)).2.1.trans rfl,
    by decide,
    ((openFile_first_call_only sampleFileData
      [.construct "config.json", .construct "config.json", .openFile "config.json"]
      "config.json").2 (by decide)).2.trans rfl⟩

/-! ## JsonWifiInterface: turning on and off -/

/-- C29: every operation of the simulated wifi interface and every timer callback
keeps the device from turning on and turning off at once, and so does every sequence
of them. -/
theorem wifiOperation_keeps_steady (w : JsonWifiInterface) (hw : w.Steady) :
    (∀ op : WifiOperation, (op.run w).Steady)
      ∧ ∀ ops : List WifiOperation, (ops.foldl WifiOperation.run w).Steady := by
  have hstep : ∀ (v : JsonWifiInterface), v.Steady → ∀ op : WifiOperation, (op.run v).Steady := by
    intro v hv op
    unfold JsonWifiInterface.Steady at hv ⊢
    cases op with
    | connectToAccessPoint toConnect =>
      simp only [WifiOperation.run, JsonWifiInterface.connectToAccessPoint]
      split_ifs <;> exact hv
    | connectTimer pskEmpty =>
      simp only [WifiOperation.run, JsonWifiInterface.connectTimer]
      split_ifs <;> exact hv
    | disconnect =>
      simp only [WifiOperation.run, JsonWifiInterface.disconnect]
      split_ifs <;> exact hv
    | disconnectTimer => exact hv
    | enableWifi =>
      simp only [WifiOperation.run, JsonWifiInterface.enableWifi]
      split_ifs
      · exact hv
      · exact hv
      · simp
      · exact hv
    | enableTimer =>
      simp only [WifiOperation.run, JsonWifiInterface.enableTimer]
      split_ifs
      · simp
      · exact hv
    | disableWifi =>
      simp only [WifiOperation.run, JsonWifiInterface.disableWifi]
      split_ifs
      · exact hv
      · simp
      · exact hv
    | disableTimer =>
      simp only [WifiOperation.run, JsonWifiInterface.disableTimer]
      split_ifs
      · simp
      · exact hv
  refine ⟨hstep w hw, ?_⟩
  intro ops
  induction ops generalizing w with
  | nil => exact hw
  | cons op rest ih => exact ih (op.run w) (hstep w hw op)

/-- Witness of C29: the device that is off is enabled and, before the timer runs,
asked to turn off and on again. -/
theorem wifiOperation_keeps_steady_witness :
    JsonWifiInterface.off.Steady
      ∧ ([WifiOperation.enableWifi, .disableWifi, .enableWifi, .enableTimer, .disableWifi,
            .enableWifi, .disableTimer].foldl WifiOperation.run JsonWifiInterface.off).Steady :=
  ⟨by simp [JsonWifiInterface.Steady, JsonWifiInterface.off],
    (wifiOperation_keeps_steady JsonWifiInterface.off
      (by simp [JsonWifiInterface.Steady, JsonWifiInterface.off])).2 _⟩

/-! ## IconThread: `getIconPath` -/

theorem upToLastChar_length (c : Char) (cs : List Char) (h : c ∈ cs) :
    (upToLastChar c cs).length < cs.length := by
  induction cs with
  | nil => cases h
  | cons x rest ih =>
    unfold upToLastChar
    by_cases hr : c ∈ rest
    · rw [if_pos hr]
      simp only [List.length_cons]
      exact Nat.succ_lt_succ (ih hr)
    · rw [if_neg hr]
      by_cases hx : x = c
      · rw [if_pos hx]
        simp
      · rcases List.mem_cons.mp h with h | h
        · exact absurd h.symm hx
        · exact absurd h hr

theorem upToLastChar_split (c : Char) (cs : List Char) (h : c ∈ cs) :
    ∃ suffix, cs = upToLastChar c cs ++ c :: suffix ∧ c ∉ suffix := by
  induction cs with
  | nil => cases h
  | cons x rest ih =>
    unfold upToLastChar
    by_cases hr : c ∈ rest
    · rw [if_pos hr]
      obtain ⟨suffix, h1, h2⟩ := ih hr
      exact ⟨suffix, by rw [List.cons_append, ← h1], h2⟩
    · rw [if_neg hr]
      by_cases hx : x = c
      · rw [if_pos hx]
        exact ⟨rest, by rw [hx]; rfl, hr⟩
      · rcases List.mem_cons.mp h with h | h
        · exact absurd h.symm hx
        · exact absurd h hr

theorem getIconPath_returns (e : IconSearch) (fuel : Nat) (request : QueuedJob)
    (hfuel : request.icon.length < fuel) :
    ∃ iconPath, getIconPath e fuel request = some iconPath := by
  induction fuel generalizing request with
  | zero => exact absurd hfuel (Nat.not_lt_zero _)
  | succ n ih =>
    unfold getIconPath
    cases ht : themeLookup e request e.iconThemes with
    | some iconPath => exact ⟨iconPath, rfl⟩
    | none =>
      simp only
      by_cases hc : request.context ≠ IconContext.applicationsCtx ∧ '-' ∈ request.icon.data
      · rw [if_pos hc]
        have hshort : (upToLastOccurrenceOf request.icon '-').length < n := by
          have h1 := upToLastChar_length '-' request.icon.data hc.2
          have h2 : (upToLastOccurrenceOf request.icon '-').length
              = (upToLastChar '-' request.icon.data).length := rfl
          have h3 : request.icon.length = request.icon.data.length := rfl
          omega
        obtain ⟨p, hp⟩ := ih { request with icon := upToLastOccurrenceOf request.icon '-' } hshort
        rw [hp]
        simp only
        by_cases hne : p ≠ ""
        · exact ⟨p, by rw [if_pos hne]⟩
        · exact ⟨_, by rw [if_neg hne]⟩
      · rw [if_neg hc]
        exact ⟨_, rfl⟩

/-- C30: `getIconPath` returns for every request, themes and icon directories, within
one level of recursion more than the icon name has characters: the name of each
recursive call is the caller's name up to its last hyphen, without the hyphen and the
section after it, and so strictly shorter. -/
theorem getIconPath_terminates (e : IconSearch) :
    (∀ icon : String, '-' ∈ icon.data →
        (upToLastOccurrenceOf icon '-').length < icon.length
          ∧ ∃ suffix, icon.data = (upToLastOccurrenceOf icon '-').data ++ '-' :: suffix
              ∧ '-' ∉ suffix)
      ∧ (∀ (request : QueuedJob) (fuel : Nat), request.icon.length < fuel →
          ∃ iconPath, getIconPath e fuel request = some iconPath) := by
  constructor
  · intro icon h
    exact ⟨upToLastChar_length '-' icon.data h, upToLastChar_split '-' icon.data h⟩
  · intro request fuel hfuel
    exact getIconPath_returns e fuel request hfuel

/-- Witness of C30: the request for `folder-open-symbolic` finds the icon of `folder`
after two recursive calls. -/
theorem getIconPath_terminates_witness :
    ('-' ∈ ("folder-open-symbolic" : String).data)
      ∧ upToLastOccurrenceOf "folder-open-symbolic" '-' = "folder-open"
      ∧ ("folder-open-symbolic" : String).length < 21
      ∧ getIconPath sampleIconSearch 21
          { icon := "folder-open-symbolic", size := 48, context := .otherCtx 0, scale := 1 }
        = some "/themes/folder.png"
      ∧ ∃ iconPath, getIconPath sampleIconSearch 21
          { icon := "folder-open-symbolic", size := 48, context := .otherCtx 0, scale := 1 }
        = some iconPath :=
  ⟨by decide, by decide, by decide, by decide,
    (getIconPath_terminates sampleIconSearch).2
      { icon := "folder-open-symbolic", size := 48, context := .otherCtx 0, scale := 1 } 21
      (by decide)⟩

/-! ## ConfigFile: setting the value a key already holds -/

theorem setConfigValue_of_same (f : ConfigFile) (key : String) (v : ConfigValue)
    (h : f.mapEntry v.dataType key = some v) : f.setConfigValue key v = (f, false) := by
  unfold ConfigFile.setConfigValue
  rw [if_pos h]

theorem setValue_of_same (cb : Callback) (c fuel : Nat) (key : String) (v : ConfigValue)
    (s : ConfigFile × ListenerWorld) (h : s.1.mapEntry v.dataType key = some v) :
    ConfigFile.setValue cb c fuel key v s = some s := by
  unfold ConfigFile.setValue
  rw [setConfigValue_of_same s.1 key v h]
  simp

theorem setValue_fst (cb : Callback) (c fuel : Nat) (key : String) (v : ConfigValue)
    (s s1 : ConfigFile × ListenerWorld)
    (h : ConfigFile.setValue cb c fuel key v s = some s1) :
    s1.1 = (s.1.setConfigValue key v).1 := by
  unfold ConfigFile.setValue at h
  by_cases hn : (s.1.setConfigValue key v).2 = true
  · simp only [hn, if_true, Option.map_eq_some'] at h
    obtain ⟨w, -, hw⟩ := h
    rw [← hw]
  · rw [if_neg hn] at h
    rw [← Option.some.inj h]

/-- C21: setting a key to the value it already holds is a no-op: the store, its
pending-changes flag included, is unchanged and listeners are not notified, while a
set that notifies is one that stored the value and marked pending changes; so of two
sets of the same value in a row the second notifies nobody and leaves the store and
the listener data as the first left them. -/
theorem setValue_same_value_noop (cb : Callback) (c fuel : Nat) (key : String)
    (v : ConfigValue) (s : ConfigFile × ListenerWorld) :
    (s.1.mapEntry v.dataType key = some v →
        s.1.setConfigValue key v = (s.1, false)
          ∧ ConfigFile.setValue cb c fuel key v s = some s)
      ∧ ((s.1.setConfigValue key v).2 = true →
          (s.1.setConfigValue key v).1 = (s.1.mapStore key v).markPendingChanges)
      ∧ (∀ s1, ConfigFile.setValue cb c fuel key v s = some s1 →
          s1.1.setConfigValue key v = (s1.1, false)
            ∧ ConfigFile.setValue cb c fuel key v s1 = some s1) := by
  refine ⟨?_, ?_, ?_⟩
  · intro h
    exact ⟨setConfigValue_of_same s.1 key v h, setValue_of_same cb c fuel key v s h⟩
  · intro h
    unfold ConfigFile.setConfigValue at h ⊢
    by_cases hsame : s.1.mapEntry v.dataType key = some v
    · simp [hsame] at h
    · rw [if_neg hsame]
      rfl
  · intro s1 h1
    have hentry : s1.1.mapEntry v.dataType key = some v := by
      rw [setValue_fst cb c fuel key v s s1 h1]
      exact mapEntry_setConfigValue s.1 key v
    exact ⟨setConfigValue_of_same s1.1 key v hentry, setValue_of_same cb c fuel key v s1 hentry⟩

/-- Witness of C21: `theme` of the store of the scenario already is `light`; setting
it to `light` changes nothing and notifies nobody, and after setting it to `dark` a
second set to `dark` notifies nobody. -/
theorem setValue_same_value_noop_witness :
    mainStore.mapEntry (ConfigValue.string "light").dataType "theme"
        = some (ConfigValue.string "light")
      ∧ (ConfigFile.setValue idleCallback 0 2 "theme" (.string "light")
            (mainStore, listenerWorldAfter sampleCalls)
          = some (mainStore, listenerWorldAfter sampleCalls))
      ∧ ((mainStore.setConfigValue "theme" (.string "dark")).1.setConfigValue "theme"
          (.string "dark")).2 = false :=
  ⟨rfl,
    ((setValue_same_value_noop idleCallback 0 2 "theme" (.string "light")
      (mainStore, listenerWorldAfter sampleCalls)).1 rfl).2,
    congrArg Prod.snd
      (setConfigValue_of_same (mainStore.setConfigValue "theme" (.string "dark")).1 "theme"
        (.string "dark") (mapEntry_setConfigValue mainStore "theme" (.string "dark")))⟩

end PocketHome
